import Mathlib

/-!
# CEG4350 teaching kernel: floppy driver, FAT file system, cooperative scheduler

A shallow embedding of four source files,

* `OS Project 5/src/fdc.c` (namespace `Fdc`),
* `OS Project 4/src/multitasking.c` (namespace `Multitasking`),
* `OS Project 4/src/kernel.c` (namespace `Kernel`),
* `OS Project 5/src/fat.c` (namespace `Fat`),

followed by theorems about them.  Machine integers are naturals, reduced
modulo `2^w` at the places where the C code can wrap.  Pointers into a table
are slot numbers, a NULL pointer is `none`.  A C loop without a bound of its
own takes a fuel argument and stops with `Stop.outOfFuel` when it is used up.
-/

/-- Why a run of the model stops without a C return value. -/
inductive Stop where
  | nullDeref
  | outOfFuel
  deriving DecidableEq, Repr

/-- Pointwise update of a table or of a byte buffer: the C store `f[i] = v`. -/
def upd {α : Type} (f : Nat → α) (i : Nat) (v : α) : Nat → α :=
  fun j => if j = i then v else f j

/-- The shape `for (i = lo; i < lo + count; i++) if (p i) break;`: the value of
`i` after the loop, that is the first hit, or `lo + count` when there is none. -/
def findFrom (p : Nat → Bool) : Nat → Nat → Nat
  | lo, 0 => lo
  | lo, n + 1 => if p lo then lo else findFrom p (lo + 1) n

/-! ## fdc.c -/

namespace Fdc

/-- The three `uint16` out-parameters of `lba_2_chs_f`. -/
structure Chs where
  cyl : Nat
  head : Nat
  sector : Nat
  deriving DecidableEq, Repr

/-- Source `lba_2_chs_f` (fdc.c 118-124).  Each store into a `uint16` keeps the
low 16 bits. -/
def lba_2_chs_f (sectors_per_track : Nat) (lba : Nat) : Chs :=
  { cyl := (lba / (2 * sectors_per_track)) % 65536
    head := ((lba % (2 * sectors_per_track)) / 18) % 65536
    sector := ((lba % (2 * sectors_per_track)) % sectors_per_track + 1) % 65536 }

/-- Source `lba_2_chs` (fdc.c 126-129). -/
def lba_2_chs (lba : Nat) : Chs :=
  lba_2_chs_f 18 lba

/-- The first three result bytes of one READ_DATA / WRITE_DATA command, as
`floppy_rw_command` hands them back in `st0`, `st1`, `st2`. -/
structure Reply where
  st0 : Nat
  st1 : Nat
  st2 : Nat
  deriving DecidableEq, Repr

/-- One command as `floppy_rw_command` sends it: the command code and the
addressing bytes that vary from call to call. -/
structure RwCmd where
  command : Nat
  drive : Nat
  head : Nat
  cyl : Nat
  sect : Nat
  deriving DecidableEq, Repr

def FLOPPY_WRITE_DATA : Nat := 5

def FLOPPY_READ_DATA : Nat := 6

/-- The value of `error` after the chain of `if`s that `floppy_read` (fdc.c
422-437) and `floppy_write` (fdc.c 364-379) run on the status bytes; the two
chains are the same text.  The bytes are `uint8`. -/
def decodeError (st0 st1 st2 : Nat) : Nat :=
  let error := 0
  let error := if st0 >>> 6 = 2 then 1 else error
  let error := if st1 &&& 0x80 ≠ 0 then 1 else error
  let error := if st0 &&& 0x08 ≠ 0 then 1 else error
  let error := if st0 >>> 6 = 3 then 1 else error
  let error := if st1 &&& 0x20 ≠ 0 then 1 else error
  let error := if st1 &&& 0x10 ≠ 0 then 1 else error
  let error := if st1 &&& 0x04 ≠ 0 then 1 else error
  let error := if (st1 ||| st2) &&& 0x01 ≠ 0 then 1 else error
  let error := if st2 &&& 0x40 ≠ 0 then 1 else error
  let error := if st2 &&& 0x20 ≠ 0 then 1 else error
  let error := if st2 &&& 0x10 ≠ 0 then 1 else error
  let error := if st2 &&& 0x04 ≠ 0 then 1 else error
  let error := if st2 &&& 0x02 ≠ 0 then 1 else error
  let error := if st1 &&& 0x02 ≠ 0 then 2 else error
  error

/-- The `error` of one reply, read into `uint8` variables. -/
def replyError (r : Reply) : Nat :=
  decodeError (r.st0 % 256) (r.st1 % 256) (r.st2 % 256)

/-- The retry loop `for (int i = 0; i < 20; i++)` shared by `floppy_read` and
`floppy_write`, with `n` iterations left.  `replies k` is what the controller
answers to the command number `k` of this call; `issued` collects the commands
sent so far, oldest first. -/
def rwLoop (replies : Nat → Reply) (cmd : RwCmd) :
    Nat → List RwCmd → Int × List RwCmd
  | 0, issued => (-1, issued)
  | n + 1, issued =>
    let error := replyError (replies issued.length)
    let issued := issued ++ [cmd]
    if error = 0 then (0, issued)
    else if error > 1 then (-2, issued)
    else rwLoop replies cmd n issued

/-- Source `floppy_read` (fdc.c 396-450): the return value and the commands
sent.  The DMA set-up and the drive selection before the loop touch ports only
and have no part in either. -/
def floppy_read (replies : Nat → Reply) (drive lba : Nat) : Int × List RwCmd :=
  let chs := lba_2_chs lba
  rwLoop replies
    { command := FLOPPY_READ_DATA, drive := drive, head := chs.head,
      cyl := chs.cyl, sect := chs.sector } 20 []

/-- Source `floppy_write` (fdc.c 337-394): as `floppy_read`, with the
WRITE_DATA command. -/
def floppy_write (replies : Nat → Reply) (drive lba : Nat) : Int × List RwCmd :=
  let chs := lba_2_chs lba
  rwLoop replies
    { command := FLOPPY_WRITE_DATA, drive := drive, head := chs.head,
      cyl := chs.cyl, sect := chs.sector } 20 []

namespace Port

/-- The controller as the polling code of fdc.c sees it: `msr k` is the value
the read number `k` of the main status register returns and `fifo k` the value
the read number `k` of the data FIFO returns, whatever the driver has done in
between; `msrReads` and `fifoReads` count the reads made so far, and `sent`
holds the bytes written to the FIFO, oldest first. -/
structure Ports where
  msr : Nat → Nat
  fifo : Nat → Nat
  msrReads : Nat
  fifoReads : Nat
  sent : List Nat

/-- The loop of `floppy_write_cmd` (fdc.c 168-173) with `n` iterations left. -/
def floppy_write_cmd_loop : Nat → Ports → Nat → Ports
  | 0, p, _ => p
  | n + 1, p, cmd =>
    let status := p.msr p.msrReads % 256
    let p := { p with msrReads := p.msrReads + 1 }
    if 0x80 &&& status ≠ 0 then { p with sent := p.sent ++ [cmd % 256] }
    else floppy_write_cmd_loop n p cmd

/-- Source `floppy_write_cmd` (fdc.c 166-175). -/
def floppy_write_cmd (p : Ports) (cmd : Nat) : Ports :=
  floppy_write_cmd_loop 600 p cmd

/-- The loop of `floppy_read_data` (fdc.c 183-188) with `n` iterations left;
`none` when it runs out. -/
def floppy_read_data_loop : Nat → Ports → Option Nat × Ports
  | 0, p => (none, p)
  | n + 1, p =>
    let status := p.msr p.msrReads % 256
    let p := { p with msrReads := p.msrReads + 1 }
    if 0x80 &&& status ≠ 0 then
      (some (p.fifo p.fifoReads % 256), { p with fifoReads := p.fifoReads + 1 })
    else floppy_read_data_loop n p

/-- Source `floppy_read_data` (fdc.c 180-191). -/
def floppy_read_data (p : Ports) : Nat × Ports :=
  let r := floppy_read_data_loop 600 p
  (r.1.getD 0, r.2)

/-- The loops `while(1)` of `floppy_sense_interrupt` (fdc.c 307-311) and of
`floppy_rw_command` (fdc.c 487-494): the register is read until `ready` holds
of the value.  The C loops have no bound; `fuel` bounds the model. -/
def waitLoop (ready : Nat → Bool) : Nat → Ports → Except Stop Ports
  | 0, _ => .error Stop.outOfFuel
  | fuel + 1, p =>
    let status := p.msr p.msrReads % 256
    let p := { p with msrReads := p.msrReads + 1 }
    if ready status then .ok p else waitLoop ready fuel p

/-- Source `floppy_sense_interrupt` (fdc.c 303-316): `st0` and `cyl`. -/
def floppy_sense_interrupt (fuel : Nat) (p : Ports) : Except Stop ((Nat × Nat) × Ports) :=
  let p := floppy_write_cmd p 8
  match waitLoop (fun status => status &&& 0x80 != 0) fuel p with
  | .error e => .error e
  | .ok p =>
    let st0 := floppy_read_data p
    let cyl := floppy_read_data st0.2
    .ok ((st0.1, cyl.1), cyl.2)

/-- Source `floppy_rw_command` (fdc.c 453-516): the three status bytes. -/
def floppy_rw_command (fuel : Nat) (p : Ports) (drive head cyl sect EOT command : Nat) :
    Except Stop (Reply × Ports) :=
  let p := floppy_write_cmd p (0x40 ||| 0x80 ||| command)
  let p := floppy_write_cmd p ((head <<< 2) ||| drive)
  let p := floppy_write_cmd p cyl
  let p := floppy_write_cmd p head
  let p := floppy_write_cmd p sect
  let p := floppy_write_cmd p 2
  let p := floppy_write_cmd p EOT
  let p := floppy_write_cmd p 0x1b
  let p := floppy_write_cmd p 0xff
  match waitLoop (fun status => decide ((status &&& 0x80) > 1)) fuel p with
  | .error e => .error e
  | .ok p =>
    let st0 := floppy_read_data p
    let st1 := floppy_read_data st0.2
    let st2 := floppy_read_data st1.2
    let cylResult := floppy_read_data st2.2
    let headResult := floppy_read_data cylResult.2
    let sectResult := floppy_read_data headResult.2
    let last := floppy_read_data sectResult.2
    .ok ({ st0 := st0.1, st1 := st1.1, st2 := st2.1 }, last.2)

/-- Source `specify` (fdc.c 246-262). -/
def specify (p : Ports) : Ports :=
  let p := floppy_write_cmd p 3
  let p := floppy_write_cmd p ((8 <<< 4) ||| 0)
  floppy_write_cmd p ((5 <<< 1) ||| 0)

/-- Source `drive_select` (fdc.c 232-241); its accesses to the configuration
and digital output registers leave the status register and the FIFO alone. -/
def drive_select (p : Ports) (_drive : Nat) : Ports :=
  specify p

/-- The retry loop of `floppy_read` (fdc.c 416-446) and `floppy_write` (fdc.c
358-390) with `n` iterations left, each attempt a `floppy_rw_command`. -/
def rwLoop (fuel : Nat) (cmd : RwCmd) : Nat → Ports → Except Stop (Int × Ports)
  | 0, p => .ok (-1, p)
  | n + 1, p =>
    match floppy_rw_command fuel p cmd.drive cmd.head cmd.cyl cmd.sect 19 cmd.command with
    | .error e => .error e
    | .ok (reply, p) =>
      let error := replyError reply
      if error = 0 then .ok (0, p)
      else if error > 1 then .ok (-2, p)
      else rwLoop fuel cmd n p

/-- Source `floppy_read` (fdc.c 396-450) on the ports; the set-up of the DMA
engine (`dma.h`) touches other ports only. -/
def floppy_read (fuel : Nat) (p : Ports) (drive lba : Nat) : Except Stop (Int × Ports) :=
  let p := drive_select p drive
  let chs := lba_2_chs lba
  rwLoop fuel
    { command := FLOPPY_READ_DATA, drive := drive, head := chs.head,
      cyl := chs.cyl, sect := chs.sector } 20 p

/-- Source `floppy_write` (fdc.c 337-394) on the ports. -/
def floppy_write (fuel : Nat) (p : Ports) (drive lba : Nat) : Except Stop (Int × Ports) :=
  let p := drive_select p drive
  let chs := lba_2_chs lba
  rwLoop fuel
    { command := FLOPPY_WRITE_DATA, drive := drive, head := chs.head,
      cyl := chs.cyl, sect := chs.sector } 20 p

/-- A controller that never raises RQM: every read of the status register and
of the FIFO returns 0. -/
def silent : Ports :=
  { msr := fun _ => 0, fifo := fun _ => 0, msrReads := 0, fifoReads := 0, sent := [] }

end Port

/-- The status bits whose tests set `error = 1` in `floppy_read` and
`floppy_write` (fdc.c 424-436, 366-378), ST1 bit 0x02 left aside: the top two
bits of ST0 being 2 or 3, ST0 bit 0x08, the ST1 bits 0x80, 0x20, 0x10, 0x04,
0x01, and the ST2 bits 0x40, 0x20, 0x10, 0x04, 0x02, 0x01. -/
def retryBits (st0 st1 st2 : Nat) : Prop :=
  st0 >>> 6 = 2 ∨ st0 >>> 6 = 3 ∨ st0 &&& 0x08 ≠ 0 ∨
  st1 &&& 0x80 ≠ 0 ∨ st1 &&& 0x20 ≠ 0 ∨ st1 &&& 0x10 ≠ 0 ∨ st1 &&& 0x04 ≠ 0 ∨
  st1 &&& 0x01 ≠ 0 ∨
  st2 &&& 0x40 ≠ 0 ∨ st2 &&& 0x20 ≠ 0 ∨ st2 &&& 0x10 ≠ 0 ∨ st2 &&& 0x04 ≠ 0 ∨
  st2 &&& 0x02 ≠ 0 ∨ st2 &&& 0x01 ≠ 0

/-- The words of C24: the same bits, with "ST0's top two bits are non-zero" for
the first test. -/
def claimedRetryBits (st0 st1 st2 : Nat) : Prop :=
  st0 >>> 6 ≠ 0 ∨ st0 &&& 0x08 ≠ 0 ∨
  st1 &&& 0x80 ≠ 0 ∨ st1 &&& 0x20 ≠ 0 ∨ st1 &&& 0x10 ≠ 0 ∨ st1 &&& 0x04 ≠ 0 ∨
  st1 &&& 0x01 ≠ 0 ∨
  st2 &&& 0x40 ≠ 0 ∨ st2 &&& 0x20 ≠ 0 ∨ st2 &&& 0x10 ≠ 0 ∨ st2 &&& 0x04 ≠ 0 ∨
  st2 &&& 0x02 ≠ 0 ∨ st2 &&& 0x01 ≠ 0

end Fdc

/-! ## multitasking.c -/

namespace Multitasking

/-- Status of a process record.  `multitasking.h` is not among the sources; the
three named states are the ones the code uses, and `NONE` is the all-zero
status of a slot of the global table that was never written. -/
inductive proc_status_t where
  | NONE
  | READY
  | RUNNING
  | TERMINATED
  deriving DecidableEq, Repr

/-- Kind of a process record; `NONE` is the all-zero kind of a slot that was
never written. -/
inductive proc_type_t where
  | NONE
  | KERNEL
  | USER
  deriving DecidableEq, Repr

/-- The fields of `proc_t` that multitasking.c names. -/
structure proc_t where
  pid : Nat
  type : proc_type_t
  status : proc_status_t
  eip : Nat
  esp : Nat
  ebp : Nat
  deriving DecidableEq, Repr

/-- The file-scope variables of multitasking.c.  The four pointers hold slot
numbers of `processes`. -/
structure State where
  processes : Nat → proc_t
  process_index : Nat
  prev : Option Nat
  running : Option Nat
  next : Option Nat
  kernel : Option Nat

/-- The zero-filled record. -/
def zeroProc : proc_t :=
  { pid := 0, type := proc_type_t.NONE, status := proc_status_t.NONE,
    eip := 0, esp := 0, ebp := 0 }

/-- The globals as the loader leaves them: all zero. -/
def boot : State :=
  { processes := fun _ => zeroProc, process_index := 0,
    prev := none, running := none, next := none, kernel := none }

/-- Source `ready_process_count` (multitasking.c 47-62), counting slots
`i .. i + n - 1`. -/
def readyCountFrom (processes : Nat → proc_t) : Nat → Nat → Nat
  | _, 0 => 0
  | i, n + 1 =>
    (if (processes i).type = proc_type_t.USER ∧
        (processes i).status = proc_status_t.READY then 1 else 0)
      + readyCountFrom processes (i + 1) n

def ready_process_count (MAX_PROCS : Nat) (s : State) : Int :=
  (readyCountFrom s.processes 0 MAX_PROCS : Nat)

/-- One scanning loop of `schedule`: the first slot in `lo .. hi - 1` whose
status is READY, or `hi` (at least `lo`) when the loop runs out. -/
def scanReady (s : State) (lo hi : Nat) : Nat :=
  findFrom (fun i => decide ((s.processes i).status = proc_status_t.READY)) lo (hi - lo)

/-- Source `schedule` (multitasking.c 18-45). -/
def schedule (MAX_PROCS : Nat) (s : State) : Int × State :=
  let kernelBranch : Int × State :=
    let i := scanReady s 1 MAX_PROCS
    if i < MAX_PROCS then
      (ready_process_count MAX_PROCS { s with next := some i }, { s with next := some i })
    else (0, s)
  match s.running with
  | none => kernelBranch
  | some r =>
    if (s.processes r).pid = 0 then kernelBranch
    else
      let i := scanReady s ((s.processes r).pid + 1) MAX_PROCS
      if i < MAX_PROCS then
        (ready_process_count MAX_PROCS { s with next := some i }, { s with next := some i })
      else
        let i := scanReady s 1 (s.processes r).pid
        if i < (s.processes r).pid then
          (ready_process_count MAX_PROCS { s with next := some i }, { s with next := some i })
        else (0, s)

/-- Source `createproc` (multitasking.c 70-90).  `process_index` is a `uint8`. -/
def createproc (MAX_PROCS : Nat) (func stack : Nat) (s : State) : Int × State :=
  if s.process_index ≥ MAX_PROCS then (-1, s)
  else
    let userproc : proc_t :=
      { status := proc_status_t.READY, type := proc_type_t.USER,
        esp := stack, ebp := stack, eip := func, pid := s.process_index }
    (0, { s with
            processes := upd s.processes s.process_index userproc
            next := some s.process_index
            process_index := (s.process_index + 1) % 256 })

/-- Source `startkernel` (multitasking.c 97-121) up to the call `func()`, which
is where the kernel body starts to run.  `kernproc` is a local whose register
fields are never assigned: `uninit` stands for what the stack held. -/
def startkernel (MAX_PROCS : Nat) (uninit : proc_t) (s : State) : Int × State :=
  if s.process_index ≥ MAX_PROCS then (-1, s)
  else
    let kernproc : proc_t :=
      { uninit with status := proc_status_t.RUNNING, type := proc_type_t.KERNEL,
                    pid := s.process_index }
    (0, { s with
            processes := upd s.processes s.process_index kernproc
            kernel := some s.process_index
            process_index := (s.process_index + 1) % 256
            running := some s.process_index })

/-- Register values of the CPU at the moment of the trap. -/
structure Regs where
  eip : Nat
  esp : Nat
  ebp : Nat

/-- Modelled from the spec: the handler of trap 0x80 that `contextswitch`
(multitasking.c 152-176) raises is assembly outside the sources.  The spec:
it "saves the outgoing process's full register set into `*running`'s context
slot", then "assigns `running = next` and marks it RUNNING (if the incoming
status was READY)".  Either pointer being NULL is a NULL dereference. -/
def contextswitch (cpu : Regs) (s : State) : Except Stop State :=
  match s.running, s.next with
  | some r, some n =>
    let saved := upd s.processes r
      { s.processes r with eip := cpu.eip, esp := cpu.esp, ebp := cpu.ebp }
    let marked :=
      if (saved n).status = proc_status_t.READY then
        upd saved n { saved n with status := proc_status_t.RUNNING }
      else saved
    .ok { s with processes := marked, running := some n }
  | _, _ => .error Stop.nullDeref

/-- The store `running->status = st`. -/
def setStatus (s : State) (r : Nat) (st : proc_status_t) : State :=
  { s with processes := upd s.processes r { s.processes r with status := st } }

/-- Source `exit` (multitasking.c 126-133). -/
def exit (cpu : Regs) (s : State) : Except Stop State :=
  match s.running with
  | none => .error Stop.nullDeref
  | some r =>
    let s1 := setStatus s r proc_status_t.TERMINATED
    if (s1.processes r).type = proc_type_t.USER then
      contextswitch cpu { s1 with next := s1.kernel }
    else .ok s1

/-- Source `yield` (multitasking.c 140-149). -/
def yield (MAX_PROCS : Nat) (cpu : Regs) (s : State) : Except Stop State :=
  match s.running with
  | none => .error Stop.nullDeref
  | some r =>
    let s1 := if (s.processes r).type = proc_type_t.KERNEL then (schedule MAX_PROCS s).2 else s
    let s2 := setStatus s1 r proc_status_t.READY
    let s3 := (schedule MAX_PROCS s2).2
    contextswitch cpu s3

/-- One call made by the code of the running process: `createproc`, `yield`
or `exit`, with any arguments and from any process. -/
inductive Step (MAX_PROCS : Nat) : State → State → Prop where
  | createproc (s : State) (func stack : Nat) :
      Step MAX_PROCS s (createproc MAX_PROCS func stack s).2
  | yield (s t : State) (cpu : Regs) : yield MAX_PROCS cpu s = .ok t → Step MAX_PROCS s t
  | exit (s t : State) (cpu : Regs) : exit cpu s = .ok t → Step MAX_PROCS s t

/-- The states in which process code runs: the one `startkernel` hands to the
kernel body, and every state a call returns into. -/
inductive Reachable (MAX_PROCS : Nat) : State → Prop where
  | start (uninit : proc_t) : Reachable MAX_PROCS (startkernel MAX_PROCS uninit boot).2
  | step (s t : State) : Reachable MAX_PROCS s → Step MAX_PROCS s t → Reachable MAX_PROCS t

/-- As `Step`, with `exit` called by USER processes only. -/
inductive UserExitStep (MAX_PROCS : Nat) : State → State → Prop where
  | createproc (s : State) (func stack : Nat) :
      UserExitStep MAX_PROCS s (createproc MAX_PROCS func stack s).2
  | yield (s t : State) (cpu : Regs) :
      yield MAX_PROCS cpu s = .ok t → UserExitStep MAX_PROCS s t
  | exit (s t : State) (cpu : Regs) (r : Nat) :
      s.running = some r → (s.processes r).type = proc_type_t.USER →
      exit cpu s = .ok t → UserExitStep MAX_PROCS s t

/-- As `Reachable`, along calls in which the kernel process never calls `exit`. -/
inductive ReachableUserExit (MAX_PROCS : Nat) : State → Prop where
  | start (uninit : proc_t) :
      ReachableUserExit MAX_PROCS (startkernel MAX_PROCS uninit boot).2
  | step (s t : State) :
      ReachableUserExit MAX_PROCS s → UserExitStep MAX_PROCS s t →
      ReachableUserExit MAX_PROCS t

/-- The state a call returned into, `boot` standing in when it did not return. -/
def returned (r : Except Stop State) : State :=
  match r with
  | .ok s => s
  | .error _ => boot

/-- With `MAX_PROCS = 16`: the kernel has created one user process and yielded;
the user process is running. -/
def afterFirstYield : State :=
  returned (yield 16 ⟨0, 0, 0⟩
    (createproc 16 0x1000 0x10000 (startkernel 16 zeroProc boot).2).2)

/-- With `MAX_PROCS = 16`: that user process has called `exit`; the kernel is
running again. -/
def afterFirstExit : State :=
  returned (exit ⟨0, 0, 0⟩ afterFirstYield)

/-- The invariant behind the single RUNNING record: `r` is the running slot. -/
structure Inv (MAX_PROCS : Nat) (s : State) (r : Nat) : Prop where
  running : s.running = some r
  rrun : (s.processes r).status = proc_status_t.RUNNING
  others : ∀ i, i ≠ r → (s.processes i).status ≠ proc_status_t.RUNNING
  kernel : s.kernel = some 0
  ktype : (s.processes 0).type = proc_type_t.KERNEL
  kstat : (s.processes 0).status = proc_status_t.RUNNING ∨
    (s.processes 0).status = proc_status_t.READY
  idx1 : 1 ≤ s.process_index
  idxM : s.process_index ≤ MAX_PROCS
  free : ∀ i, s.process_index ≤ i → (s.processes i).status = proc_status_t.NONE
  next : ∀ n, s.next = some n → n = r ∨ (s.processes n).status = proc_status_t.READY

/-- The state in which `contextswitch` is entered: the caller has given up
RUNNING and `next`, if set, is READY. -/
structure PreSwitch (MAX_PROCS : Nat) (s : State) (r : Nat) : Prop where
  running : s.running = some r
  nobody : ∀ i, (s.processes i).status ≠ proc_status_t.RUNNING
  kernel : s.kernel = some 0
  ktype : (s.processes 0).type = proc_type_t.KERNEL
  kstat : (s.processes 0).status = proc_status_t.READY
  idx1 : 1 ≤ s.process_index
  idxM : s.process_index ≤ MAX_PROCS
  free : ∀ i, s.process_index ≤ i → (s.processes i).status = proc_status_t.NONE
  next : ∀ n, s.next = some n → (s.processes n).status = proc_status_t.READY

/-- The order in which C11 has `schedule` look at the slots when the caller is
a user with pid `p`: `p + 1, ..., MAX_PROCS - 1`, then `1, ..., p - 1`. -/
def userOrder (MAX_PROCS p : Nat) : List Nat :=
  List.range' (p + 1) (MAX_PROCS - (p + 1)) ++ List.range' 1 (p - 1)

/-- The order in which C11 has `schedule` look at the slots when the caller is
the kernel: `1, ..., MAX_PROCS - 1`. -/
def kernelOrder (MAX_PROCS : Nat) : List Nat :=
  List.range' 1 (MAX_PROCS - 1)

/-- The first slot of `order` whose status is READY. -/
def firstReady (s : State) (order : List Nat) : Option Nat :=
  order.find? (fun i => decide ((s.processes i).status = proc_status_t.READY))

/-- The scheduler as C11 words it: `next` is set to the first READY record of
the order and `ready_process_count ()` is returned; when the order holds no
READY record, 0 is returned and nothing is set. -/
def scheduleInOrder (MAX_PROCS : Nat) (s : State) (order : List Nat) : Int × State :=
  match firstReady s order with
  | some i => (ready_process_count MAX_PROCS { s with next := some i }, { s with next := some i })
  | none => (0, s)

/-- With `MAX_PROCS = 16`: the kernel has created two user processes and
yielded; the first user (slot 1) is running, the second (slot 2) is READY. -/
def firstOfTwoRunning : State :=
  returned (yield 16 ⟨0, 0, 0⟩
    (createproc 16 0x2000 0x11000
      (createproc 16 0x1000 0x10000 (startkernel 16 zeroProc boot).2).2).2)

/-- One call of the scheduler interface, made by whichever process is running:
`createproc`, `schedule`, `yield` or `exit`. -/
inductive CallStep (MAX_PROCS : Nat) : State → State → Prop where
  | createproc (s : State) (func stack : Nat) :
      CallStep MAX_PROCS s (createproc MAX_PROCS func stack s).2
  | schedule (s : State) : CallStep MAX_PROCS s (schedule MAX_PROCS s).2
  | yield (s t : State) (cpu : Regs) :
      yield MAX_PROCS cpu s = .ok t → CallStep MAX_PROCS s t
  | exit (s t : State) (cpu : Regs) : exit cpu s = .ok t → CallStep MAX_PROCS s t

/-- As `CallStep`, with `exit` called by USER processes only. -/
inductive UserCallStep (MAX_PROCS : Nat) : State → State → Prop where
  | createproc (s : State) (func stack : Nat) :
      UserCallStep MAX_PROCS s (createproc MAX_PROCS func stack s).2
  | schedule (s : State) : UserCallStep MAX_PROCS s (schedule MAX_PROCS s).2
  | yield (s t : State) (cpu : Regs) :
      yield MAX_PROCS cpu s = .ok t → UserCallStep MAX_PROCS s t
  | exit (s t : State) (cpu : Regs) (r : Nat) :
      s.running = some r → (s.processes r).type = proc_type_t.USER →
      exit cpu s = .ok t → UserCallStep MAX_PROCS s t

/-- The shape of the table in every state the calls lead to: the slots below
`process_index` are the records created so far, in order, and the pointers
that are set point to them; the slots from `process_index` on were never
written. -/
structure Alloc (MAX_PROCS : Nat) (s : State) : Prop where
  idx1 : 1 ≤ s.process_index
  idxM : s.process_index ≤ MAX_PROCS
  kernel : s.kernel = some 0
  running : ∃ r, s.running = some r ∧ r < s.process_index
  next : ∀ n, s.next = some n → n < s.process_index
  free : ∀ i, s.process_index ≤ i → s.processes i = zeroProc
  pid : ∀ i, i < s.process_index → (s.processes i).pid = i
  ktype : (s.processes 0).type = proc_type_t.KERNEL
  utype : ∀ i, 1 ≤ i → i < s.process_index → (s.processes i).type = proc_type_t.USER

/-- Consecutive calls of `createproc`, `n` of them, the call number `k` being
made with the arguments `args k`: the return values in order, and the final
state. -/
def createprocTimes (MAX_PROCS : Nat) (args : Nat → Nat × Nat) :
    Nat → Nat → State → List Int × State
  | 0, _, s => ([], s)
  | n + 1, k, s =>
    let r := createproc MAX_PROCS (args k).1 (args k).2 s
    let rest := createprocTimes MAX_PROCS args n (k + 1) r.2
    (r.1 :: rest.1, rest.2)

/-- With `MAX_PROCS = 16`: the kernel has created one user process and then
called `exit` itself; it is marked TERMINATED and still running. -/
def kernelExited : State :=
  returned (exit ⟨0, 0, 0⟩
    (createproc 16 0x1000 0x10000 (startkernel 16 zeroProc boot).2).2)

/-- With `MAX_PROCS = 16`: after `kernelExited` the kernel has called `yield`. -/
def kernelExitedThenYielded : State :=
  returned (yield 16 ⟨0, 0, 0⟩ kernelExited)

end Multitasking

/-! ## kernel.c -/

namespace Kernel

/-- What the body of a process does next: a `printf` of a text, or a call of
`yield` or of `exit`. -/
inductive Stmt where
  | printf (text : String)
  | yield
  | exit

/-- Source `proca` (kernel.c 58-62). -/
def proca : List Stmt := [.printf "A", .exit]

/-- Source `procb` (kernel.c 63-69). -/
def procb : List Stmt := [.printf "B", .yield, .printf "B", .exit]

/-- Source `procc` (kernel.c 70-80). -/
def procc : List Stmt :=
  [.printf "C", .yield, .printf "C", .yield, .printf "C", .yield, .printf "C", .exit]

/-- Source `procd` (kernel.c 81-89). -/
def procd : List Stmt := [.printf "D", .yield, .printf "D", .yield, .printf "D", .exit]

/-- Source `proce` (kernel.c 90-96). -/
def proce : List Stmt := [.printf "E", .yield, .printf "E", .exit]

/-- Why a run stops short of the end of `prockernel`. -/
inductive Halt where
  | stop (e : Stop)
  | fellOff

/-- The machine while the Project-4 processes run: the scheduler's variables,
what is left of the body of the process in each slot, the texts printed so far
in order, and whether `prockernel` has returned. -/
structure Machine where
  sched : Multitasking.State
  code : Nat → List Stmt
  out : List String
  halted : Bool

/-- A call `createproc(func, stack)` of the kernel body: the new record's
`eip` is `func`, so the slot it fills starts at the top of `body`, the code at
`func`. -/
def spawn (MAX_PROCS : Nat) (func stack : Nat) (body : List Stmt) (m : Machine) : Machine :=
  let r := Multitasking.createproc MAX_PROCS func stack m.sched
  if r.1 = 0 then { m with sched := r.2, code := upd m.code m.sched.process_index body }
  else { m with sched := r.2 }

/-- The next action of the running process.  The kernel is at the head of its
loop `while(ready_process_count() > 0) yield();` (kernel.c 46-52) whenever it
runs, and prints its last message and returns when the loop ends; a user
process does the next statement of its body.  `cpu` is what the trap saves. -/
def step (MAX_PROCS : Nat) (cpu : Multitasking.Regs) (m : Machine) : Except Halt Machine :=
  match m.sched.running with
  | none => .error (.stop Stop.nullDeref)
  | some r =>
    if m.sched.kernel = some r then
      if Multitasking.ready_process_count MAX_PROCS m.sched > 0 then
        match Multitasking.yield MAX_PROCS cpu m.sched with
        | .ok t => .ok { m with sched := t }
        | .error e => .error (.stop e)
      else .ok { m with out := m.out ++ ["\nKernel Process Terminated\n"], halted := true }
    else
      match m.code r with
      | [] => .error .fellOff
      | .printf text :: rest => .ok { m with out := m.out ++ [text], code := upd m.code r rest }
      | .yield :: rest =>
        match Multitasking.yield MAX_PROCS cpu m.sched with
        | .ok t => .ok { m with sched := t, code := upd m.code r rest }
        | .error e => .error (.stop e)
      | .exit :: rest =>
        match Multitasking.exit cpu m.sched with
        | .ok t => .ok { m with sched := t, code := upd m.code r rest }
        | .error e => .error (.stop e)

/-- Actions one after the other until `prockernel` has returned, at most
`fuel` of them. -/
def run (MAX_PROCS : Nat) (cpu : Multitasking.Regs) : Nat → Machine → Except Halt Machine
  | 0, m => if m.halted then .ok m else .error (.stop Stop.outOfFuel)
  | fuel + 1, m =>
    if m.halted then .ok m
    else
      match step MAX_PROCS cpu m with
      | .ok m1 => run MAX_PROCS cpu fuel m1
      | .error e => .error e

/-- The five `createproc` calls and the first `printf` of `prockernel`
(kernel.c 34-44), entered with the scheduler variables `s`; `entry k` is the
address of the `k`-th process function. -/
def created (MAX_PROCS : Nat) (entry : Nat → Nat) (s : Multitasking.State) : Machine :=
  let m : Machine := { sched := s, code := fun _ => [], out := [], halted := false }
  let m := spawn MAX_PROCS (entry 0) 0x10000 proca m
  let m := spawn MAX_PROCS (entry 1) 0x11000 procb m
  let m := spawn MAX_PROCS (entry 2) 0x12000 procc m
  let m := spawn MAX_PROCS (entry 3) 0x13000 procd m
  let m := spawn MAX_PROCS (entry 4) 0x14000 proce m
  { m with out := m.out ++ ["Kernel Process Started\n"] }

/-- Source `prockernel` (kernel.c 32-55) with the processes it creates, run
for at most `fuel` actions. -/
def prockernel (MAX_PROCS : Nat) (entry : Nat → Nat) (cpu : Multitasking.Regs) (fuel : Nat)
    (s : Multitasking.State) : Except Halt Machine :=
  run MAX_PROCS cpu fuel (created MAX_PROCS entry s)

/-- What C15 looks at in the outcome of a run: the texts printed and the
statuses of slots 1 to 5. -/
def outcome (r : Except Halt Machine) :
    Option (List String × List Multitasking.proc_status_t × Bool) :=
  match r with
  | .ok m => some (m.out, (List.range' 1 5).map (fun i => (m.sched.processes i).status), m.halted)
  | .error _ => none

/-- Two settings of the scheduler's variables that agree in everything
`schedule`, `ready_process_count`, `yield` and `exit` look at: the pointers
and the pid, type and status of every record.  The saved registers may
differ.  Nothing is READY from slot 6 on, and the pointers and pids stay
below 6. -/
structure Agree (s t : Multitasking.State) : Prop where
  running : s.running = t.running
  next : s.next = t.next
  kernel : s.kernel = t.kernel
  status : ∀ i, (s.processes i).status = (t.processes i).status
  type : ∀ i, (s.processes i).type = (t.processes i).type
  pid : ∀ i, (s.processes i).pid = (t.processes i).pid
  pids : ∀ i, (s.processes i).pid < 6
  free : ∀ i, 6 ≤ i → (s.processes i).status ≠ Multitasking.proc_status_t.READY
  rlow : ∀ r, s.running = some r → r < 6
  nlow : ∀ n, s.next = some n → n < 6
  klow : ∀ k, s.kernel = some k → k < 6

/-- Two machines whose scheduler variables agree and that are otherwise the
same. -/
structure MachineAgree (m n : Machine) : Prop where
  sched : Agree m.sched n.sched
  code : m.code = n.code
  out : m.out = n.out
  halted : m.halted = n.halted

end Kernel

/-! ## fat.c -/

namespace Fat

/-- The fields of `directory_entry_t` that fat.c names (`fat.h` is not among
the sources).  `filename` holds 8 bytes and `ext` 3, read by offset;
`startingCluster` is a `uint16`, `fileSize` a `uint32`. -/
structure directory_entry_t where
  filename : Nat → Nat
  ext : Nat → Nat
  startingCluster : Nat
  fileSize : Nat

/-- One call of the floppy driver made by fat.c: the sector, the RAM address and
the byte count it was given. -/
inductive Transfer where
  | read (lba address count : Nat)
  | write (lba address count : Nat)
  deriving DecidableEq, Repr

/-- The bytes of the two structured buffers as a flush sends them to the disk.
`fat.h`, which declares `fat_t` and `directory_entry_t`, is not among the
sources, so the byte image is a parameter of the model; `dosLayout` is the
image of the layout that the spec describes, the one `loadByte` and
`storeByte` follow in memory. -/
structure Layout where
  fatImage : (Nat → Nat) → Nat → Nat
  dirImage : (Nat → directory_entry_t) → Nat → Nat

/-- The file-scope variables of fat.c and the memory and disk they work on.
`init_fs` puts the three buffers at fixed addresses: FAT0 at 0x20000, FAT1 at
0x21200, the directory (14 sectors) at 0x22400; `openFile` puts the file at
0x30000.

* `fat0`, `fat1`: for `c < 2304` the slots `fat0->clusters[c]` and
  `fat1->clusters[c]` of the two tables, 16-bit values.  The C index is a
  `uint16` and the tables have 2304 slots: what a load or a store through an
  index from 2304 on reaches in memory is given by `loadCluster0`,
  `storeCluster0` and their FAT1 counterparts.  For such an index the
  functions hold only a shadow of the word, the one the loops of `openFile`
  read; a store through the index refreshes it.
* `dir`: the entries of the buffer of `currentDirectory`, 32 bytes each.
* `isOpened`, `directoryEntry`, `startingAddress`, `index`: the fields of
  `currentFile`; `directoryEntry` is a slot of `dir`.  Where the linker puts
  these variables is not in the sources: no address of `ram` reaches them.
* `ram`: the bytes of memory that the slots of the two tables and the named
  fields of the directory entries do not hold, by physical address; the file
  staging region from 0x30000 on is part of it.
* `disk`: the bytes of the medium, sector `lba` at `512 * lba`.
* `log`: the driver calls made so far, oldest first. -/
structure State where
  fat0 : Nat → Nat
  fat1 : Nat → Nat
  dir : Nat → directory_entry_t
  isOpened : Bool
  directoryEntry : Option Nat
  startingAddress : Nat
  index : Nat
  ram : Nat → Nat
  disk : Nat → Nat
  log : List Transfer

/-- Number of bytes of a `fat_t`; the spec: "size matches 9 sectors × 512
bytes". -/
def sizeof_fat_t : Nat := 4608

/-- Modelled from the spec: the medium, the controller and the DMA engine behind
`floppy_read` lie outside the program (and `dma.c` outside the sources).  The
spec has `openFile` "read each cluster into 0x30000 + 512·k": the call moves
`count` bytes of sector `lba` to `address`.  fat.c never looks at the return
value of the driver. -/
def floppy_read (s : State) (lba address count : Nat) : State :=
  { s with
      ram := fun a => if address ≤ a ∧ a < address + count
                      then s.disk (512 * lba + (a - address)) else s.ram a
      log := s.log ++ [Transfer.read lba address count] }

/-- Modelled from the spec: the counterpart of `floppy_read`; the spec has
`closeFile` "write the 512-byte slice at staging + k·512 to disk sector
cluster + 31".  `bytes` is the content of the `count` bytes at `address`. -/
def floppy_write (s : State) (lba : Nat) (bytes : Nat → Nat) (address count : Nat) : State :=
  { s with
      disk := fun d => if 512 * lba ≤ d ∧ d < 512 * lba + count
                       then bytes (d - 512 * lba) else s.disk d
      log := s.log ++ [Transfer.write lba address count] }

/-- The three writes that end every mutating call of fat.c, directory first
(as in `createFile`, `deleteFile`). -/
def flushDirFats (L : Layout) (s : State) : State :=
  let s := floppy_write s 19 (L.dirImage s.dir) 0x22400 (512 * 14)
  let s := floppy_write s 1 (L.fatImage s.fat0) 0x20000 sizeof_fat_t
  floppy_write s 10 (L.fatImage s.fat1) 0x21200 sizeof_fat_t

/-- The three writes in the order `closeFile` makes them, directory last. -/
def flushFatsDir (L : Layout) (s : State) : State :=
  let s := floppy_write s 1 (L.fatImage s.fat0) 0x20000 sizeof_fat_t
  let s := floppy_write s 10 (L.fatImage s.fat1) 0x21200 sizeof_fat_t
  floppy_write s 19 (L.dirImage s.dir) 0x22400 (512 * 14)

/-- The byte number `k` of the value `v`, byte 0 being the lowest. -/
def byteOf (v k : Nat) : Nat :=
  v / 256 ^ k % 256

/-- The value `v` with its byte number `k` replaced by the byte `b`. -/
def withByte (v k b : Nat) : Nat :=
  v - byteOf v k * 256 ^ k + b * 256 ^ k

/-- Modelled from the spec: the byte that a load from the physical address `a`
finds.  `fat.h`, which declares `fat_t` and `directory_entry_t`, is not among
the sources; the spec has a "FAT12, 1.44 MB floppy layout" with FAT entries
"interpreted as 16-bit slots" and directory entries of "8-byte filename
(space-padded), 3-byte extension, attributes, starting cluster, file size in
bytes", which is the classical 32-byte entry: name at offset 0, extension at
8, starting cluster at 26, file size at 28, little-endian.  The bytes 11 .. 25
of an entry, which fat.c never names, are kept in `ram`.  The addresses of the
buffers are those of `init_fs`. -/
def loadByte (s : State) (a : Nat) : Nat :=
  if 0x20000 ≤ a ∧ a < 0x21200 then
    byteOf (s.fat0 ((a - 0x20000) / 2)) ((a - 0x20000) % 2)
  else if 0x21200 ≤ a ∧ a < 0x22400 then
    byteOf (s.fat1 ((a - 0x21200) / 2)) ((a - 0x21200) % 2)
  else if 0x22400 ≤ a ∧ a < 0x24000 then
    let e := s.dir ((a - 0x22400) / 32)
    let o := (a - 0x22400) % 32
    if o < 8 then e.filename o
    else if o < 11 then e.ext (o - 8)
    else if o < 26 then s.ram a
    else if o < 28 then byteOf e.startingCluster (o - 26)
    else byteOf e.fileSize (o - 28)
  else s.ram a

/-- Modelled from the spec: the store of the byte `b` at the physical address
`a`, with the memory layout of `loadByte`: inside the buffer of a FAT it
changes one byte of a slot, inside the directory buffer one byte of a field of
an entry, anywhere else a byte of `ram`. -/
def storeByte (s : State) (a b : Nat) : State :=
  if 0x20000 ≤ a ∧ a < 0x21200 then
    let c := (a - 0x20000) / 2
    { s with fat0 := upd s.fat0 c (withByte (s.fat0 c) ((a - 0x20000) % 2) b) }
  else if 0x21200 ≤ a ∧ a < 0x22400 then
    let c := (a - 0x21200) / 2
    { s with fat1 := upd s.fat1 c (withByte (s.fat1 c) ((a - 0x21200) % 2) b) }
  else if 0x22400 ≤ a ∧ a < 0x24000 then
    let i := (a - 0x22400) / 32
    let o := (a - 0x22400) % 32
    let e := s.dir i
    if o < 8 then { s with dir := upd s.dir i { e with filename := upd e.filename o b } }
    else if o < 11 then { s with dir := upd s.dir i { e with ext := upd e.ext (o - 8) b } }
    else if o < 26 then { s with ram := upd s.ram a b }
    else if o < 28 then
      { s with dir := upd s.dir i
                 { e with startingCluster := withByte e.startingCluster (o - 26) b } }
    else { s with dir := upd s.dir i { e with fileSize := withByte e.fileSize (o - 28) b } }
  else { s with ram := upd s.ram a b }

/-- The 16-bit word at the address `a`, low byte first. -/
def loadWord (s : State) (a : Nat) : Nat :=
  loadByte s a + 256 * loadByte s (a + 1)

/-- The store of the 16-bit word `v` at the address `a`, low byte first. -/
def storeWord (s : State) (a v : Nat) : State :=
  storeByte (storeByte s a (v % 256)) (a + 1) (v / 256 % 256)

/-- The load `fat0->clusters[c]`, `c` a `uint16`: a slot of the table for
`c < 2304`, and beyond the table the word at `0x20000 + 2 * c`, which lies in
FAT1 for `c < 4608`, then in the directory buffer, then in `ram` (the index
0xFFFF reaches 0x3FFFE, bytes 65534 and 65535 of the file staging region). -/
def loadCluster0 (s : State) (c : Nat) : Nat :=
  if c < 2304 then s.fat0 c else loadWord s (0x20000 + 2 * c)

/-- The load `fat1->clusters[c]`: beyond the table the word at
`0x21200 + 2 * c`, which lies in the directory buffer for `c < 5888`, then in
`ram`. -/
def loadCluster1 (s : State) (c : Nat) : Nat :=
  if c < 2304 then s.fat1 c else loadWord s (0x21200 + 2 * c)

/-- The store `fat0->clusters[c] = v`, `v` a `uint16`: beyond the table it
writes the word at `0x20000 + 2 * c`, and refreshes the shadow `fat0 c`. -/
def storeCluster0 (s : State) (c v : Nat) : State :=
  if c < 2304 then { s with fat0 := upd s.fat0 c v }
  else storeWord { s with fat0 := upd s.fat0 c v } (0x20000 + 2 * c) v

/-- The store `fat1->clusters[c] = v`: beyond the table it writes the word at
`0x21200 + 2 * c`, and refreshes the shadow `fat1 c`. -/
def storeCluster1 (s : State) (c v : Nat) : State :=
  if c < 2304 then { s with fat1 := upd s.fat1 c v }
  else storeWord { s with fat1 := upd s.fat1 c v } (0x21200 + 2 * c) v

/-- The scrubbing loop of `openFile` (fat.c 305-310 and 312-317) from position
`i` on, `n` positions left: once a NUL has been seen, every position is set to
a space (32). -/
def scrubLoop : Nat → Nat → Bool → (Nat → Nat) → Nat → Nat
  | 0, _, _, buf => buf
  | n + 1, i, nullFound, buf =>
    let nullFound := nullFound || (buf i == 0)
    let buf := if nullFound then upd buf i 32 else buf
    scrubLoop n (i + 1) nullFound buf

/-- The scrubbing of a buffer of `len` bytes: positions `1 .. len - 1`. -/
def scrub (buf : Nat → Nat) (len : Nat) : Nat → Nat :=
  scrubLoop (len - 1) 1 false buf

/-- Modelled from the spec: `stringcompare` of `string.h`, which is not among
the sources.  The spec: the names are "compared byte-by-byte across 8 and 3
bytes respectively". -/
def stringcompare (a b : Nat → Nat) (n : Nat) : Bool :=
  (List.range n).all (fun i => a i == b i)

/-- Modelled from the spec: `stringcopy (src, dst, n)` of `string.h`, which is
not among the sources.  The spec has `createFile` "populate its name/ext
(space-padded)", and spells the padding out for the lookup: "after the first
byte, any NUL turns that slot and all following slots into ' '".  The result is
the new content of `dst`. -/
def stringcopy (src dst : Nat → Nat) (n : Nat) : Nat → Nat :=
  fun i => if i < n then scrub src n i else dst i

/-- The test of the lookup loop of `openFile` (fat.c 330) on slot `i`. -/
def entryMatches (dir : Nat → directory_entry_t) (filename ext : Nat → Nat) (i : Nat) : Bool :=
  stringcompare (dir i).filename filename 8 && stringcompare (dir i).ext ext 3

/-- The consistency loop of `openFile` (fat.c 344-355): `true` when it leaves at
0xFFFF, `false` when it returns -1. -/
def checkLoop (fat0 fat1 : Nat → Nat) : Nat → Nat → Except Stop Bool
  | 0, _ => .error Stop.outOfFuel
  | fuel + 1, cluster =>
    if cluster = 0xFFFF then .ok true
    else if fat0 cluster ≠ fat1 cluster then .ok false
    else checkLoop fat0 fat1 fuel (fat0 cluster)

/-- The loading loop of `openFile` (fat.c 365-384): `true` when it leaves at
0xFFFF, `false` when it returns -2.  `sectorCount` is a `uint16`. -/
def readLoop : Nat → State → Nat → Nat → Except Stop (Bool × State)
  | 0, _, _, _ => .error Stop.outOfFuel
  | fuel + 1, s, cluster, sectorCount =>
    if cluster = 0xFFFF then .ok (true, s)
    else
      let sector := cluster + 31
      let s := floppy_read s sector (0x30000 + 512 * sectorCount) 512
      let sectorCount := (sectorCount + 1) % 65536
      let cluster := s.fat0 cluster
      if sectorCount > 2880 then .ok (false, s)
      else readLoop fuel s cluster sectorCount

/-- Source `openFile` (fat.c 295-396).  The scrubbed names are also left in the
buffers of the caller, which the state does not hold. -/
def openFile (fuel : Nat) (s : State) (filename ext : Nat → Nat) : Except Stop (Int × State) :=
  if s.isOpened then .ok (0, s)
  else
    let filename := scrub filename 8
    let ext := scrub ext 3
    let directoryEntry := findFrom (entryMatches s.dir filename ext) 0 16
    if directoryEntry < 16 then
      match checkLoop s.fat0 s.fat1 fuel (s.dir directoryEntry).startingCluster with
      | .error e => .error e
      | .ok false => .ok (-1, s)
      | .ok true =>
        match readLoop fuel s (s.dir directoryEntry).startingCluster 0 with
        | .error e => .error e
        | .ok (false, s) => .ok (-2, s)
        | .ok (true, s) =>
          .ok (0, { s with directoryEntry := some directoryEntry
                           startingAddress := 0x30000
                           index := 0
                           isOpened := true })
    else .ok (-3, s)

/-- Source `readByte` (fat.c 226-245); the `uint8` result of `return -2` is 254
and that of `return -1` is 255. -/
def readByte (s : State) (index : Nat) : Except Stop (Nat × State) :=
  match s.directoryEntry with
  | none => .error Stop.nullDeref
  | some e =>
    if index ≥ (s.dir e).fileSize then .ok (254, s)
    else if s.isOpened && s.startingAddress != 0 then
      .ok (loadByte s ((s.startingAddress + index) % 2 ^ 32),
           { s with index := (index + 1) % 2 ^ 32 })
    else .ok (255, s)

/-- Source `readNextByte` (fat.c 248-251). -/
def readNextByte (s : State) : Except Stop (Nat × State) :=
  readByte s s.index

/-- Source `writeByte` (fat.c 256-270); the address `startingAddress + index`
and `index + 1` are computed in 32 bits, and the size test reads the entry
after the store. -/
def writeByte (s : State) (byte index : Nat) : Except Stop (Int × State) :=
  if s.isOpened && s.startingAddress != 0 then
    match s.directoryEntry with
    | none => .error Stop.nullDeref
    | some e =>
      let s := storeByte s ((s.startingAddress + index) % 2 ^ 32) byte
      let s :=
        if (index + 1) % 2 ^ 32 > (s.dir e).fileSize then
          { s with dir := upd s.dir e { s.dir e with fileSize := (index + 1) % 2 ^ 32 } }
        else s
      .ok (0, { s with index := (index + 1) % 2 ^ 32 })
  else .ok (-1, s)

/-- The loop of `writeBytes` with `n` iterations left. -/
def writeBytesLoop : Nat → State → Nat → Except Stop (Int × State)
  | 0, s, _ => .ok (0, s)
  | n + 1, s, byte =>
    match writeByte s byte s.index with
    | .error e => .error e
    | .ok (error, s) => if error ≠ 0 then .ok (error, s) else writeBytesLoop n s byte

/-- Source `writeBytes` (fat.c 279-289).  The bound of the loop is
`(int)count`: a `uint32` from `2^31` on is negative there and the body never
runs. -/
def writeBytes (s : State) (byte count : Nat) : Except Stop (Int × State) :=
  writeBytesLoop (if count < 2 ^ 31 then count else 0) s byte

/-- Source `createFile` (fat.c 150-190). -/
def createFile (L : Layout) (s : State) (filename ext : Nat → Nat) : Int × State :=
  let directoryEntry := findFrom (fun i => (s.dir i).filename 0 == 0) 0 16
  if directoryEntry < 16 then
    let e := s.dir directoryEntry
    let e := { e with filename := stringcopy filename e.filename 8 }
    let e := { e with ext := stringcopy ext e.ext 3 }
    let s := { s with dir := upd s.dir directoryEntry e }
    let startingCluster := findFrom (fun c => s.fat0 c == 0 && s.fat1 c == 0) 2 2302
    let s :=
      if startingCluster < 2304 then
        { s with dir := upd s.dir directoryEntry
                   { e with startingCluster := startingCluster, fileSize := 512 }
                 fat0 := upd s.fat0 startingCluster 0xFFFF
                 fat1 := upd s.fat1 startingCluster 0xFFFF }
      else s
    let s := flushDirFats L s
    (0, { s with isOpened := false })
  else (-1, s)

/-- The body of the loop of `closeFile` (fat.c 116-136) at iteration `i`: the
state it leaves, the cluster whose sector it wrote (the next `prevCluster`) and
the next `cluster`.  The search reads the slots 2 .. 2303 only; when it finds
none, `newCluster` is 2304.  The driver takes the 512 bytes from memory at
`dataPtr + i * 512`. -/
def closeStep (dataPtr i : Nat) (s : State) (cluster : Nat) : State × Nat × Nat :=
  let newCluster := findFrom (fun c => s.fat0 c == 0) 2 2302
  let s1 :=
    if cluster = 0 ∨ cluster = 0xFFFF then
      storeCluster1 (storeCluster0 s cluster newCluster) cluster newCluster
    else s
  let cluster := if cluster = 0 ∨ cluster = 0xFFFF then newCluster else cluster
  let address := (dataPtr + i * 512) % 2 ^ 32
  let s2 := floppy_write s1 (cluster + 31) (fun t => loadByte s1 (address + t)) address 512
  (s2, cluster, loadCluster0 s2 cluster)

/-- The loop of `closeFile` (fat.c 114-137) from iteration `i` on, `n`
iterations left; the result carries the final `prevCluster`. -/
def closeLoop (dataPtr : Nat) : Nat → Nat → State → Nat → Nat → State × Nat
  | 0, _, s, _, prevCluster => (s, prevCluster)
  | n + 1, i, s, cluster, _ =>
    let r := closeStep dataPtr i s cluster
    closeLoop dataPtr n (i + 1) r.1 r.2.2 r.2.1

/-- Source `closeFile` (fat.c 97-148). -/
def closeFile (L : Layout) (s : State) : Except Stop (Int × State) :=
  if !s.isOpened then .ok (-1, s)
  else
    match s.directoryEntry with
    | none => .error Stop.nullDeref
    | some e =>
      let clustersNeeded := (((s.dir e).fileSize + 511) % 2 ^ 32) / 512
      let dataPtr := s.startingAddress
      let (s, prevCluster) := closeLoop dataPtr clustersNeeded 0 s (s.dir e).startingCluster 0
      let s := storeCluster1 (storeCluster0 s prevCluster 0xFFFF) prevCluster 0xFFFF
      let s := flushFatsDir L s
      .ok (0, { s with isOpened := false })

/-- The loop of `deleteFile` (fat.c 204-211). -/
def deleteLoop : Nat → State → Nat → Except Stop State
  | 0, _, _ => .error Stop.outOfFuel
  | fuel + 1, s, cluster =>
    if cluster = 0xFFFF then .ok s
    else
      let nextCluster := loadCluster0 s cluster
      deleteLoop fuel (storeCluster1 (storeCluster0 s cluster 0) cluster 0) nextCluster

/-- Source `deleteFile` (fat.c 192-221). -/
def deleteFile (L : Layout) (fuel : Nat) (s : State) : Except Stop (Int × State) :=
  if !s.isOpened then .ok (-1, s)
  else
    match s.directoryEntry with
    | none => .error Stop.nullDeref
    | some e =>
      match deleteLoop fuel s (s.dir e).startingCluster with
      | .error err => .error err
      | .ok s =>
        let s := { s with dir := upd s.dir e { s.dir e with filename := upd (s.dir e).filename 0 0 } }
        let s := flushDirFats L s
        .ok (0, { s with isOpened := false })

/-- The clusters met when following `fat` from `cluster` until 0xFFFF, in
order; `none` when 0xFFFF is not met within `fuel` steps. -/
def chain (fat : Nat → Nat) : Nat → Nat → Option (List Nat)
  | 0, _ => none
  | fuel + 1, cluster =>
    if cluster = 0xFFFF then some []
    else (chain fat fuel (fat cluster)).map (fun rest => cluster :: rest)

/-- The cluster reached after `k` steps along `fat` from `cluster`. -/
def walk (fat : Nat → Nat) (cluster : Nat) : Nat → Nat
  | 0 => cluster
  | k + 1 => fat (walk fat cluster k)

/-- The calls `createFile; openFile; writeBytes; closeFile; openFile` made one
after the other on the same names, whatever each returns: the five return
values in order, and the final state. -/
def writeAndReopen (L : Layout) (fuel : Nat) (s : State) (filename ext : Nat → Nat)
    (byte count : Nat) : Except Stop (List Int × State) :=
  let r1 := createFile L s filename ext
  match openFile fuel r1.2 filename ext with
  | .error e => .error e
  | .ok r2 =>
    match writeBytes r2.2 byte count with
    | .error e => .error e
    | .ok r3 =>
      match closeFile L r3.2 with
      | .error e => .error e
      | .ok r4 =>
        match openFile fuel r4.2 filename ext with
        | .error e => .error e
        | .ok r5 => .ok ([r1.1, r2.1, r3.1, r4.1, r5.1], r5.2)

/-- The calls `createFile; deleteFile; openFile`: the three return values. -/
def createDeleteOpen (L : Layout) (fuel : Nat) (s : State) (filename ext : Nat → Nat) :
    Except Stop (List Int) :=
  let r1 := createFile L s filename ext
  match deleteFile L fuel r1.2 with
  | .error e => .error e
  | .ok r2 =>
    match openFile fuel r2.2 filename ext with
    | .error e => .error e
    | .ok r3 => .ok [r1.1, r2.1, r3.1]

/-- The calls `createFile; openFile; deleteFile; openFile`: the four return
values. -/
def createOpenDeleteOpen (L : Layout) (fuel : Nat) (s : State) (filename ext : Nat → Nat) :
    Except Stop (List Int) :=
  let r1 := createFile L s filename ext
  match openFile fuel r1.2 filename ext with
  | .error e => .error e
  | .ok r2 =>
    match deleteFile L fuel r2.2 with
    | .error e => .error e
    | .ok r3 =>
      match openFile fuel r3.2 filename ext with
      | .error e => .error e
      | .ok r4 => .ok [r1.1, r2.1, r3.1, r4.1]

/-- The bytes of a C string literal: the characters, then NULs. -/
def bytesOf (l : List Nat) : Nat → Nat :=
  fun i => l.getD i 0

/-- The literal "HELLO". -/
def HELLO : Nat → Nat := bytesOf [72, 69, 76, 76, 79]

/-- The literal "TXT". -/
def TXT : Nat → Nat := bytesOf [84, 88, 84]

/-- The literal "OTHER". -/
def OTHER : Nat → Nat := bytesOf [79, 84, 72, 69, 82]

/-- The classical layout the spec describes: 16-bit little-endian FAT slots, and
32-byte directory entries with the name at offset 0, the extension at 8, the
starting cluster at 26 and the file size at 28; the bytes 11 .. 25 of an entry,
which fat.c never names, are sent as 0. -/
def dosLayout : Layout :=
  { fatImage := fun fat d => (fat (d / 2) / 256 ^ (d % 2)) % 256
    dirImage := fun dir d =>
      let e := dir (d / 32)
      let o := d % 32
      if o < 8 then e.filename o
      else if o < 11 then e.ext (o - 8)
      else if o = 26 then e.startingCluster % 256
      else if o = 27 then (e.startingCluster / 256) % 256
      else if 28 ≤ o then (e.fileSize / 256 ^ (o - 28)) % 256
      else 0 }

/-- A directory entry of zero bytes: a free slot. -/
def freeEntry : directory_entry_t :=
  { filename := fun _ => 0, ext := fun _ => 0, startingCluster := 0, fileSize := 0 }

/-- A FAT table in which only the two reserved slots are in use. -/
def freshFat : Nat → Nat :=
  fun c => if c = 0 then 0xFFF0 else if c = 1 then 0xFFFF else 0

/-- A mounted, freshly formatted volume: no file, no file open, zeroed disk. -/
def freshVolume : State :=
  { fat0 := freshFat, fat1 := freshFat, dir := fun _ => freeEntry,
    isOpened := false, directoryEntry := none, startingAddress := 0, index := 0,
    ram := fun _ => 0, disk := fun _ => 0, log := [] }

/-- The directory entry of HELLO.TXT (names space-padded) with the given first
cluster and size. -/
def helloEntry (startingCluster fileSize : Nat) : directory_entry_t :=
  { filename := scrub HELLO 8, ext := scrub TXT 3,
    startingCluster := startingCluster, fileSize := fileSize }

/-- A volume holding the one file HELLO.TXT, whose chain is the single cluster
2, and no file open. -/
def helloVolume : State :=
  { freshVolume with
      fat0 := upd freshFat 2 0xFFFF
      fat1 := upd freshFat 2 0xFFFF
      dir := upd (fun _ => freeEntry) 0 (helloEntry 2 512) }

/-- The volume `helloVolume` with HELLO.TXT open. -/
def helloOpened : State :=
  { helloVolume with
      isOpened := true, directoryEntry := some 0, startingAddress := 0x30000, index := 0 }

/-- The volume `helloVolume` with HELLO.TXT open and grown in memory to 600
bytes 'x' (120), as `writeBytes ('x', 600)` leaves it. -/
def helloGrown : State :=
  { helloVolume with
      dir := upd (fun _ => freeEntry) 0 (helloEntry 2 600)
      isOpened := true, directoryEntry := some 0, startingAddress := 0x30000, index := 600
      ram := fun a => if 0x30000 ≤ a ∧ a < 0x30000 + 600 then 120 else 0 }

/-- The volume `helloVolume` after one entry of the second FAT copy, the one of
the file's starting cluster, was damaged. -/
def helloDamaged : State :=
  { helloVolume with fat1 := upd freshFat 2 0x0FFF }

/-- The volume `helloVolume` with the chain of HELLO.TXT bent into a loop:
cluster 2 is followed by cluster 2 in both FAT copies. -/
def helloLooping : State :=
  { helloVolume with fat0 := upd freshFat 2 2, fat1 := upd freshFat 2 2 }

/-- Consecutive calls of `createFile`, `n` of them, the call number `k` being
made with the names `names k`: the return values in order, and the final
state. -/
def createFileTimes (L : Layout) (names : Nat → (Nat → Nat) × (Nat → Nat)) :
    Nat → Nat → State → List Int × State
  | 0, _, s => ([], s)
  | n + 1, k, s =>
    let r := createFile L s (names k).1 (names k).2
    let rest := createFileTimes L names n (k + 1) r.2
    (r.1 :: rest.1, rest.2)

/-- A FAT table with no free slot: the two reserved slots, and every other
slot an end of chain. -/
def fullFat : Nat → Nat :=
  fun c => if c = 0 then 0xFFF0 else 0xFFFF

/-- A mounted volume whose directory is empty and whose FAT copies have no
free cluster. -/
def fullVolume : State :=
  { freshVolume with fat0 := fullFat, fat1 := fullFat }

/-- The volume `helloVolume` as `openFile ("HELLO", "TXT")` leaves it: the
sector of cluster 2 read into the staging region, and the file open. -/
def helloLoaded : State :=
  { floppy_read helloVolume (2 + 31) 0x30000 512 with
      directoryEntry := some 0, startingAddress := 0x30000, index := 0, isOpened := true }

/-- The name bytes 'H', 'E', 0xFF, 0xFF. -/
def STRAY : Nat → Nat := bytesOf [72, 69, 255, 255]

/-- A volume whose one file, in directory entry 0, has the name bytes 'H', 'E',
0xFF, 0xFF and starts at cluster 2305, a number beyond the 2304 slots of the
tables.  The index 2305 reaches slot 1 of FAT1 through `fat0` and the bytes 2
and 3 of the name of entry 0 through `fat1`: both words are 0xFFFF, and the
shadows of the state hold the same. -/
def strayVolume : State :=
  { freshVolume with
      fat0 := upd freshFat 2305 0xFFFF
      fat1 := upd freshFat 2305 0xFFFF
      dir := upd (fun _ => freeEntry) 0
        { filename := scrub STRAY 8, ext := scrub TXT 3,
          startingCluster := 2305, fileSize := 512 } }

/-- The volume `strayVolume` as `openFile` leaves it: the sector of cluster
2305 read into the staging region, and the file open. -/
def strayLoaded : State :=
  { floppy_read strayVolume (2305 + 31) 0x30000 512 with
      directoryEntry := some 0, startingAddress := 0x30000, index := 0, isOpened := true }

/-- What the `directory_t *` handed to `moveFile` points to: `currentDirectory`
itself, or another directory, whose 16 entries lie in a buffer of their own at
`startingAddress`. -/
inductive DirectoryRef where
  | current
  | other (entries : Nat → directory_entry_t) (startingAddress : Nat)

/-- The entries of the directory a `DirectoryRef` points to. -/
def DirectoryRef.entries (s : State) : DirectoryRef → Nat → directory_entry_t
  | .current => s.dir
  | .other entries _ => entries

end Fat

/-! # Theorems -/

/-! ## Tables and bounded searches -/

theorem upd_same {α : Type} (f : Nat → α) (i : Nat) (v : α) : upd f i v i = v := by
  simp [upd]

theorem upd_other {α : Type} (f : Nat → α) (i j : Nat) (v : α) (h : j ≠ i) :
    upd f i v j = f j := by
  simp [upd, h]

theorem findFrom_ge (p : Nat → Bool) (n lo : Nat) : lo ≤ findFrom p lo n := by
  induction n generalizing lo with
  | zero => simp [findFrom]
  | succ n ih =>
    simp only [findFrom]
    split
    · exact Nat.le_refl lo
    · exact Nat.le_trans (Nat.le_succ lo) (ih (lo + 1))

theorem findFrom_le (p : Nat → Bool) (n lo : Nat) : findFrom p lo n ≤ lo + n := by
  induction n generalizing lo with
  | zero => simp [findFrom]
  | succ n ih =>
    simp only [findFrom]
    split
    · omega
    · have := ih (lo + 1); omega

theorem findFrom_hit (p : Nat → Bool) (n lo : Nat) (h : findFrom p lo n < lo + n) :
    p (findFrom p lo n) = true := by
  induction n generalizing lo with
  | zero => simp [findFrom] at h
  | succ n ih =>
    simp only [findFrom] at h ⊢
    split
    · assumption
    · rename_i hp
      simp only [hp] at h
      exact ih (lo + 1) (by simpa [Nat.add_assoc, Nat.add_comm 1 n] using h)

theorem findFrom_before (p : Nat → Bool) (n lo i : Nat) (h1 : lo ≤ i)
    (h2 : i < findFrom p lo n) : p i = false := by
  induction n generalizing lo with
  | zero => simp [findFrom] at h2; omega
  | succ n ih =>
    simp only [findFrom] at h2
    split at h2
    · omega
    · rename_i hp
      by_cases hi : i = lo
      · subst hi; simpa using hp
      · exact ih (lo + 1) (by omega) h2

theorem findFrom_eq_of_first (p : Nat → Bool) (n lo j : Nat) (h1 : lo ≤ j) (h2 : j < lo + n)
    (hp : p j = true) (hb : ∀ i, lo ≤ i → i < j → p i = false) : findFrom p lo n = j := by
  have hle : findFrom p lo n ≤ j := by
    by_contra hcon
    have := findFrom_before p n lo j h1 (by omega)
    simp [hp] at this
  have hlt : findFrom p lo n < lo + n := by omega
  have hhit := findFrom_hit p n lo hlt
  by_contra hne
  have := hb (findFrom p lo n) (findFrom_ge p n lo) (by omega)
  simp [hhit] at this

theorem findFrom_none (p : Nat → Bool) (n lo : Nat)
    (h : ∀ i, lo ≤ i → i < lo + n → p i = false) : findFrom p lo n = lo + n := by
  by_contra hne
  have hlt : findFrom p lo n < lo + n := by
    have := findFrom_le p n lo; omega
  have := h _ (findFrom_ge p n lo) hlt
  simp [findFrom_hit p n lo hlt] at this

theorem findFrom_congr (p q : Nat → Bool) (n lo : Nat)
    (h : ∀ i, lo ≤ i → i < lo + n → p i = q i) : findFrom p lo n = findFrom q lo n := by
  induction n generalizing lo with
  | zero => simp [findFrom]
  | succ n ih =>
    simp only [findFrom]
    rw [h lo (Nat.le_refl lo) (by omega)]
    split
    · rfl
    · exact ih (lo + 1) (fun i h1 h2 => h i (by omega) (by omega))

/-! ## fdc.c -/

namespace Fdc

/-- C8: for every `lba` below 2880, the cylinder, head and sector computed by
`lba_2_chs` satisfy `cyl * 36 + head * 18 + (sector - 1) = lba`. -/
theorem lba_2_chs_inverse (lba : Nat) (h : lba < 2880) :
    (lba_2_chs lba).cyl * 36 + (lba_2_chs lba).head * 18
      + ((lba_2_chs lba).sector - 1) = lba := by
  simp only [lba_2_chs, lba_2_chs_f]
  omega

theorem lba_2_chs_inverse_witness :
    (1234 : Nat) < 2880 ∧
      (lba_2_chs 1234).cyl * 36 + (lba_2_chs 1234).head * 18
        + ((lba_2_chs 1234).sector - 1) = 1234 :=
  ⟨by decide, lba_2_chs_inverse 1234 (by decide)⟩

theorem ite_one_le_one (c : Prop) [Decidable c] (x : Nat) (h : x ≤ 1) :
    (if c then 1 else x) ≤ 1 := by
  split <;> omega

theorem decodeError_of_nodata (st0 st1 st2 : Nat) (h : st1 &&& 0x02 ≠ 0) :
    decodeError st0 st1 st2 = 2 := by
  simp only [decodeError]
  rw [if_pos h]

theorem decodeError_le_one (st0 st1 st2 : Nat) (h : st1 &&& 0x02 = 0) :
    decodeError st0 st1 st2 ≤ 1 := by
  simp only [decodeError]
  rw [if_neg (by simpa using h)]
  repeat (first | exact Nat.zero_le 1 | apply ite_one_le_one)

theorem decodeError_le_two (st0 st1 st2 : Nat) : decodeError st0 st1 st2 ≤ 2 := by
  by_cases h : st1 &&& 0x02 = 0
  · exact Nat.le_trans (decodeError_le_one st0 st1 st2 h) (by decide)
  · rw [decodeError_of_nodata st0 st1 st2 h]

theorem rwLoop_stop (replies : Nat → Reply) (cmd : RwCmd) (n j : Nat) (issued : List RwCmd)
    (hj : j < n)
    (hretry : ∀ i, i < j → replyError (replies (issued.length + i)) = 1)
    (hstop : replyError (replies (issued.length + j)) ≠ 1) :
    rwLoop replies cmd n issued =
      (if replyError (replies (issued.length + j)) = 0 then 0 else -2,
        issued ++ List.replicate (j + 1) cmd) := by
  induction n generalizing j issued with
  | zero => omega
  | succ n ih =>
    cases j with
    | zero =>
      simp only [Nat.add_zero] at hstop ⊢
      simp only [rwLoop]
      by_cases h0 : replyError (replies issued.length) = 0
      · simp [h0]
      · have h2 : replyError (replies issued.length) > 1 := by omega
        simp [h0, h2]
    | succ j =>
      have h1 : replyError (replies issued.length) = 1 := by simpa using hretry 0 (by omega)
      simp only [rwLoop, h1]
      simp only [Nat.one_ne_zero, if_false, gt_iff_lt, Nat.lt_irrefl]
      have := ih j (issued ++ [cmd]) (by omega)
        (fun i hi => by
          have := hretry (i + 1) (by omega)
          simpa [Nat.add_assoc, Nat.add_comm 1 i] using this)
        (by simpa [Nat.add_assoc, Nat.add_comm 1 j] using hstop)
      rw [this]
      simp [Nat.add_assoc, Nat.add_comm 1 j, List.replicate_succ]

theorem rwLoop_exhaust (replies : Nat → Reply) (cmd : RwCmd) (n : Nat) (issued : List RwCmd)
    (hretry : ∀ i, i < n → replyError (replies (issued.length + i)) = 1) :
    rwLoop replies cmd n issued = (-1, issued ++ List.replicate n cmd) := by
  induction n generalizing issued with
  | zero => simp [rwLoop]
  | succ n ih =>
    have h1 : replyError (replies issued.length) = 1 := by simpa using hretry 0 (by omega)
    simp only [rwLoop, h1]
    simp only [Nat.one_ne_zero, if_false, gt_iff_lt, Nat.lt_irrefl]
    rw [ih (issued ++ [cmd]) (fun i hi => by
      have := hretry (i + 1) (by omega)
      simpa [Nat.add_assoc, Nat.add_comm 1 i] using this)]
    simp [List.replicate_succ]

theorem ite_one_eq_zero (c : Prop) [Decidable c] (x : Nat) :
    (if c then 1 else x) = 0 ↔ ¬ c ∧ x = 0 := by
  split <;> simp [*]

theorem decodeError_eq_zero_iff (st0 st1 st2 : Nat) :
    decodeError st0 st1 st2 = 0 ↔
      (st0 >>> 6 ≠ 2 ∧ st0 >>> 6 ≠ 3 ∧ st0 &&& 0x08 = 0 ∧
       st1 &&& 0x80 = 0 ∧ st1 &&& 0x20 = 0 ∧ st1 &&& 0x10 = 0 ∧ st1 &&& 0x04 = 0 ∧
       st1 &&& 0x02 = 0 ∧ (st1 ||| st2) &&& 0x01 = 0 ∧
       st2 &&& 0x40 = 0 ∧ st2 &&& 0x20 = 0 ∧ st2 &&& 0x10 = 0 ∧ st2 &&& 0x04 = 0 ∧
       st2 &&& 0x02 = 0) := by
  simp only [decodeError]
  by_cases h : st1 &&& 0x02 = 0
  · rw [if_neg (by simpa using h)]
    simp only [ite_one_eq_zero, ne_eq, not_not]
    constructor
    · intro hh; simp only [hh, h, and_self, not_false_eq_true]
    · intro hh; simp only [hh, and_self, not_false_eq_true]
  · rw [if_pos h]
    constructor
    · intro hh; omega
    · intro hh; exact absurd hh.2.2.2.2.2.2.2.1 h

end Fdc

/-! ## multitasking.c -/

namespace Multitasking

theorem schedule_state (M : Nat) (s : State) :
    (schedule M s).2 = s ∨
      ∃ i, (schedule M s).2 = { s with next := some i } ∧
        (s.processes i).status = proc_status_t.READY := by
  have hk : ∀ i, i = scanReady s 1 M → i < M →
      (s.processes i).status = proc_status_t.READY := by
    intro i hi hlt
    have hge := findFrom_ge (fun i => decide ((s.processes i).status = proc_status_t.READY))
      (M - 1) 1
    have := findFrom_hit (fun i => decide ((s.processes i).status = proc_status_t.READY))
      (M - 1) 1 (by simp only [scanReady] at hi; omega)
    simp only [scanReady] at hi
    rw [← hi] at this
    simpa using this
  unfold schedule
  cases hrun : s.running with
  | none =>
    simp only
    split
    · right; exact ⟨_, rfl, hk _ rfl (by assumption)⟩
    · left; rfl
  | some r =>
    simp only
    split
    · split
      · right; exact ⟨_, rfl, hk _ rfl (by assumption)⟩
      · left; rfl
    · split
      · rename_i hlt
        right
        refine ⟨_, rfl, ?_⟩
        have hge := findFrom_ge
          (fun i => decide ((s.processes i).status = proc_status_t.READY))
          (M - ((s.processes r).pid + 1)) ((s.processes r).pid + 1)
        have := findFrom_hit
          (fun i => decide ((s.processes i).status = proc_status_t.READY))
          (M - ((s.processes r).pid + 1)) ((s.processes r).pid + 1)
          (by simp only [scanReady] at hlt; omega)
        simpa [scanReady] using this
      · split
        · rename_i hlt
          right
          refine ⟨_, rfl, ?_⟩
          have hge := findFrom_ge
            (fun i => decide ((s.processes i).status = proc_status_t.READY))
            ((s.processes r).pid - 1) 1
          have := findFrom_hit
            (fun i => decide ((s.processes i).status = proc_status_t.READY))
            ((s.processes r).pid - 1) 1
            (by simp only [scanReady] at hlt; omega)
          simpa [scanReady] using this
        · left; rfl


theorem inv_start (M : Nat) (uninit : proc_t) (hM : 0 < M) :
    Inv M (startkernel M uninit boot).2 0 := by
  have h0 : ¬ (boot.process_index ≥ M) := by simp [boot]; omega
  simp only [startkernel, if_neg h0]
  constructor <;> simp [boot, upd, zeroProc]
  · intro i hi; simp [hi]
  · omega
  · intro i hi
    have : i ≠ 0 := by omega
    simp [this]

theorem inv_createproc (M : Nat) (s : State) (r func stack : Nat) (hM : M ≤ 255)
    (h : Inv M s r) : Inv M (createproc M func stack s).2 r := by
  unfold createproc
  split
  · exact h
  · rename_i hlt
    have hr : r < s.process_index := by
      by_contra hcon
      have := h.free r (by omega)
      rw [h.rrun] at this
      exact absurd this (by decide)
    have hmod : (s.process_index + 1) % 256 = s.process_index + 1 := by
      apply Nat.mod_eq_of_lt; omega
    have hidx1 := h.idx1
    constructor
    · exact h.running
    · simp only [upd]; rw [if_neg (by omega)]; exact h.rrun
    · intro i hi
      simp only [upd]
      split
      · simp
      · exact h.others i hi
    · exact h.kernel
    · simp only [upd]; rw [if_neg (by omega)]; exact h.ktype
    · simp only [upd]; rw [if_neg (by omega)]; exact h.kstat
    · simp only [hmod]; omega
    · simp only [hmod]; omega
    · intro i hi
      simp only [hmod] at hi
      simp only [upd]; rw [if_neg (by omega)]
      exact h.free i (by omega)
    · intro n hn
      simp only [Option.some.injEq] at hn
      right
      simp [upd, hn]

theorem inv_of_preSwitch (M : Nat) (cpu : Regs) (s t : State) (r : Nat)
    (h : PreSwitch M s r) (ht : contextswitch cpu s = .ok t) : ∃ n, Inv M t n := by
  unfold contextswitch at ht
  rw [h.running] at ht
  cases hn : s.next with
  | none => rw [hn] at ht; simp at ht
  | some n =>
    rw [hn] at ht
    simp only [Except.ok.injEq] at ht
    have hready := h.next n hn
    have hsaved : ∀ i, (upd s.processes r
        { s.processes r with eip := cpu.eip, esp := cpu.esp, ebp := cpu.ebp } i).status
        = (s.processes i).status := by
      intro i; simp only [upd]; split
      · rename_i hi; rw [hi]
      · rfl
    have htype : ∀ i, (upd s.processes r
        { s.processes r with eip := cpu.eip, esp := cpu.esp, ebp := cpu.ebp } i).type
        = (s.processes i).type := by
      intro i; simp only [upd]; split
      · rename_i hi; rw [hi]
      · rfl
    rw [if_pos (by rw [hsaved]; exact hready)] at ht
    have hstat : ∀ i, (t.processes i).status =
        if i = n then proc_status_t.RUNNING else (s.processes i).status := by
      intro i; rw [← ht]; simp only
      by_cases hi : i = n
      · simp [upd, hi]
      · rw [upd_other _ _ _ _ hi, hsaved, if_neg hi]
    have htyp : ∀ i, (t.processes i).type = (s.processes i).type := by
      intro i; rw [← ht]; simp only
      by_cases hi : i = n
      · rw [hi, upd_same]; exact htype n
      · rw [upd_other _ _ _ _ hi, htype]
    have hidx : t.process_index = s.process_index := by rw [← ht]
    refine ⟨n, ?_⟩
    constructor
    · rw [← ht]
    · rw [hstat, if_pos rfl]
    · intro i hi; rw [hstat, if_neg hi]; exact h.nobody i
    · rw [← ht]; exact h.kernel
    · rw [htyp]; exact h.ktype
    · rw [hstat]; split
      · left; rfl
      · right; exact h.kstat
    · rw [hidx]; exact h.idx1
    · rw [hidx]; exact h.idxM
    · intro i hi
      rw [hidx] at hi
      have hne : i ≠ n := by
        intro hin
        have := h.free n (by omega)
        rw [hready] at this
        exact absurd this (by decide)
      rw [hstat, if_neg hne]; exact h.free i hi
    · intro m hm
      have : t.next = some n := by rw [← ht]
      rw [this] at hm
      simp only [Option.some.injEq] at hm
      left; exact hm.symm


theorem schedule_fields (M : Nat) (s : State) :
    (schedule M s).2.processes = s.processes ∧
    (schedule M s).2.running = s.running ∧
    (schedule M s).2.kernel = s.kernel ∧
    (schedule M s).2.process_index = s.process_index ∧
    (∀ n, (schedule M s).2.next = some n →
      s.next = some n ∨ (s.processes n).status = proc_status_t.READY) := by
  rcases schedule_state M s with h | ⟨i, h, hi⟩
  · rw [h]; exact ⟨rfl, rfl, rfl, rfl, fun n hn => Or.inl hn⟩
  · rw [h]
    refine ⟨rfl, rfl, rfl, rfl, ?_⟩
    intro n hn
    simp only [Option.some.injEq] at hn
    right; rw [← hn]; exact hi

theorem preSwitch_schedule (M : Nat) (s : State) (r : Nat) (h : PreSwitch M s r) :
    PreSwitch M (schedule M s).2 r := by
  obtain ⟨hp, hr, hk, hi, hn⟩ := schedule_fields M s
  constructor
  · rw [hr]; exact h.running
  · rw [hp]; exact h.nobody
  · rw [hk]; exact h.kernel
  · rw [hp]; exact h.ktype
  · rw [hp]; exact h.kstat
  · rw [hi]; exact h.idx1
  · rw [hi]; exact h.idxM
  · rw [hp, hi]; exact h.free
  · intro n hnn
    rw [hp]
    rcases hn n hnn with h1 | h1
    · exact h.next n h1
    · exact h1

theorem preSwitch_of_demote (M : Nat) (s : State) (r : Nat) (st : proc_status_t)
    (nx : Option Nat) (h : Inv M s r) (hst : st ≠ proc_status_t.RUNNING)
    (hk : r = 0 → st = proc_status_t.READY)
    (hnext : ∀ n, nx = some n →
      (if n = r then st else (s.processes n).status) = proc_status_t.READY) :
    PreSwitch M { setStatus s r st with next := nx } r := by
  have hstat : ∀ i, ((setStatus s r st).processes i).status =
      if i = r then st else (s.processes i).status := by
    intro i; simp only [setStatus, upd]; split <;> rfl
  have htyp : ∀ i, ((setStatus s r st).processes i).type = (s.processes i).type := by
    intro i; simp only [setStatus, upd]; split
    · rename_i hi; rw [hi]
    · rfl
  constructor
  · exact h.running
  · intro i
    show ((setStatus s r st).processes i).status ≠ proc_status_t.RUNNING
    rw [hstat]; split
    · exact hst
    · rename_i hi; exact h.others i hi
  · exact h.kernel
  · show ((setStatus s r st).processes 0).type = proc_type_t.KERNEL
    rw [htyp]; exact h.ktype
  · show ((setStatus s r st).processes 0).status = proc_status_t.READY
    rw [hstat]; split
    · rename_i h0; exact hk h0.symm
    · rename_i h0
      rcases h.kstat with h1 | h1
      · exact absurd h1 (h.others 0 h0)
      · exact h1
  · exact h.idx1
  · exact h.idxM
  · intro i hi
    show ((setStatus s r st).processes i).status = proc_status_t.NONE
    rw [hstat]
    have hne : i ≠ r := by
      intro hir
      have := h.free r (by rw [← hir]; exact hi)
      rw [h.rrun] at this
      exact absurd this (by decide)
    rw [if_neg hne]; exact h.free i hi
  · intro n hn
    show ((setStatus s r st).processes n).status = proc_status_t.READY
    rw [hstat]
    exact hnext n hn

theorem inv_yield (M : Nat) (cpu : Regs) (s t : State) (r : Nat) (h : Inv M s r)
    (ht : yield M cpu s = .ok t) : ∃ n, Inv M t n := by
  unfold yield at ht
  rw [h.running] at ht
  simp only at ht
  have h1 : Inv M (if (s.processes r).type = proc_type_t.KERNEL
      then (schedule M s).2 else s) r := by
    split
    · obtain ⟨hp, hr, hk, hi, hn⟩ := schedule_fields M s
      constructor
      · rw [hr]; exact h.running
      · rw [hp]; exact h.rrun
      · rw [hp]; exact h.others
      · rw [hk]; exact h.kernel
      · rw [hp]; exact h.ktype
      · rw [hp]; exact h.kstat
      · rw [hi]; exact h.idx1
      · rw [hi]; exact h.idxM
      · rw [hp, hi]; exact h.free
      · intro n hnn
        rw [hp]
        rcases hn n hnn with h2 | h2
        · exact h.next n h2
        · right; exact h2
    · exact h
  have h2 := preSwitch_of_demote M _ r proc_status_t.READY _ h1 (by decide)
    (fun _ => rfl) (fun n hn => by
      split
      · rfl
      · rename_i hnr
        rcases h1.next n hn with h3 | h3
        · exact absurd h3 hnr
        · exact h3)
  exact inv_of_preSwitch M cpu _ t r (preSwitch_schedule M _ r h2) ht

theorem inv_exit (M : Nat) (cpu : Regs) (s t : State) (r : Nat) (h : Inv M s r)
    (hu : (s.processes r).type = proc_type_t.USER)
    (ht : exit cpu s = .ok t) : ∃ n, Inv M t n := by
  unfold exit at ht
  rw [h.running] at ht
  simp only at ht
  have hr0 : r ≠ 0 := by
    intro h0
    rw [h0, h.ktype] at hu
    exact absurd hu (by decide)
  have htyp : ((setStatus s r proc_status_t.TERMINATED).processes r).type
      = proc_type_t.USER := by
    simp only [setStatus, upd, if_true]; exact hu
  rw [if_pos htyp] at ht
  have h2 := preSwitch_of_demote M s r proc_status_t.TERMINATED s.kernel h (by decide)
    (fun h0 => absurd h0 hr0) (fun n hn => by
      rw [h.kernel] at hn
      simp only [Option.some.injEq] at hn
      rw [← hn, if_neg (fun h0 => hr0 h0.symm)]
      rcases h.kstat with h1 | h1
      · exact absurd h1 (h.others 0 (fun h0 => hr0 h0.symm))
      · exact h1)
  exact inv_of_preSwitch M cpu _ t r h2 ht

theorem inv_of_reachableUserExit (M : Nat) (hM : 0 < M) (hM2 : M ≤ 255) (s : State)
    (h : ReachableUserExit M s) : ∃ r, Inv M s r := by
  induction h with
  | start uninit => exact ⟨0, inv_start M uninit hM⟩
  | step s t _ hstep ih =>
    obtain ⟨r, hr⟩ := ih
    cases hstep
    · rename_i func stack
      exact ⟨r, inv_createproc M s r func stack hM2 hr⟩
    · rename_i cpu hy
      exact inv_yield M cpu s t r hr hy
    · rename_i cpu r2 hrun hu he
      have : r2 = r := by
        have := hr.running
        rw [hrun] at this
        simpa using this
      rw [this] at hu
      exact inv_exit M cpu s t r hr hu he


/-- C10, as amended: with `1 ≤ MAX_PROCS ≤ 255`, in every state reached from
`startkernel` by `createproc`, `yield` and `exit` calls in which `exit` is
called by USER processes only (a call whose context switch would dereference a
NULL `next` has no successor state), exactly one record of the table has status
RUNNING, and it is the record `running` points to. -/
theorem one_running_when_users_exit (M : Nat) (hM : 0 < M) (hM2 : M ≤ 255) (s : State)
    (h : ReachableUserExit M s) :
    (∃! i, i < M ∧ (s.processes i).status = proc_status_t.RUNNING) ∧
    ∃ r, s.running = some r ∧ r < M ∧ (s.processes r).status = proc_status_t.RUNNING := by
  obtain ⟨r, hr⟩ := inv_of_reachableUserExit M hM hM2 s h
  have hrM : r < M := by
    by_contra hcon
    have := hr.free r (by have := hr.idxM; omega)
    rw [hr.rrun] at this
    exact absurd this (by decide)
  refine ⟨⟨r, ⟨hrM, hr.rrun⟩, ?_⟩, r, hr.running, hrM, hr.rrun⟩
  intro i hi
  by_contra hne
  exact hr.others i hne hi.2

theorem one_running_when_users_exit_witness :
    (0 < 16 ∧ 16 ≤ 255 ∧ ReachableUserExit 16 afterFirstExit) ∧
    ((∃! i, i < 16 ∧ (afterFirstExit.processes i).status = proc_status_t.RUNNING) ∧
      ∃ r, afterFirstExit.running = some r ∧ r < 16 ∧
        (afterFirstExit.processes r).status = proc_status_t.RUNNING) :=
  have hreach : ReachableUserExit 16 afterFirstExit :=
    ReachableUserExit.step _ _
      (ReachableUserExit.step _ _
        (ReachableUserExit.step _ _ (ReachableUserExit.start zeroProc)
          (UserExitStep.createproc _ 0x1000 0x10000))
        (UserExitStep.yield _ afterFirstYield ⟨0, 0, 0⟩ rfl))
      (UserExitStep.exit _ _ ⟨0, 0, 0⟩ 1 rfl rfl rfl)
  ⟨⟨by decide, by decide, hreach⟩,
    one_running_when_users_exit 16 (by decide) (by decide) afterFirstExit hreach⟩

/-- C10, as stated, fails: after `startkernel` with `MAX_PROCS = 16`, the kernel
body calls `exit`; `exit` marks the kernel TERMINATED and returns into it
without a context switch, and no record of the table is RUNNING. -/
theorem kernel_exit_leaves_no_running :
    exit ⟨0, 0, 0⟩ (startkernel 16 zeroProc boot).2
      = .ok (setStatus (startkernel 16 zeroProc boot).2 0 proc_status_t.TERMINATED) ∧
    Reachable 16 (setStatus (startkernel 16 zeroProc boot).2 0 proc_status_t.TERMINATED) ∧
    ¬ ∃ i, i < 16 ∧
      ((setStatus (startkernel 16 zeroProc boot).2 0 proc_status_t.TERMINATED).processes i).status
        = proc_status_t.RUNNING := by
  refine ⟨rfl, Reachable.step _ _ (Reachable.start zeroProc) (Step.exit _ _ ⟨0, 0, 0⟩ rfl), ?_⟩
  rintro ⟨i, _, hi⟩
  by_cases h0 : i = 0
  · subst h0
    exact absurd hi (by decide)
  · simp [setStatus, startkernel, boot, upd, zeroProc, h0] at hi

end Multitasking

/-! ## fat.c -/

namespace Fat

/-- The image `dosLayout` sends for a FAT is the content of its buffer, byte by
byte. -/
theorem dosLayout_fatImage (s : State) (d : Nat) (h : d < 4608) :
    dosLayout.fatImage s.fat0 d = loadByte s (0x20000 + d) ∧
    dosLayout.fatImage s.fat1 d = loadByte s (0x21200 + d) := by
  have e0 : 0x20000 + d - 0x20000 = d := by omega
  have e1 : 0x21200 + d - 0x21200 = d := by omega
  constructor
  · simp only [dosLayout, loadByte, byteOf]
    rw [if_pos ⟨by omega, by omega⟩, e0]
  · simp only [dosLayout, loadByte, byteOf]
    rw [if_neg (by omega), if_pos ⟨by omega, by omega⟩, e1]

/-- The image `dosLayout` sends for the directory is the content of its
buffer on the bytes of the fields that fat.c names. -/
theorem dosLayout_dirImage (s : State) (d : Nat) (h : d < 512 * 14)
    (ho : d % 32 < 11 ∨ 26 ≤ d % 32) :
    dosLayout.dirImage s.dir d = loadByte s (0x22400 + d) := by
  have e0 : 0x22400 + d - 0x22400 = d := by omega
  have hlt : d % 32 < 32 := Nat.mod_lt _ (by decide)
  have hload : loadByte s (0x22400 + d) =
      (if d % 32 < 8 then (s.dir (d / 32)).filename (d % 32)
       else if d % 32 < 11 then (s.dir (d / 32)).ext (d % 32 - 8)
       else if d % 32 < 26 then s.ram (0x22400 + d)
       else if d % 32 < 28 then byteOf (s.dir (d / 32)).startingCluster (d % 32 - 26)
       else byteOf (s.dir (d / 32)).fileSize (d % 32 - 28)) := by
    unfold loadByte
    rw [if_neg (by omega), if_neg (by omega), if_pos ⟨by omega, by omega⟩, e0]
  rw [hload]
  unfold dosLayout byteOf
  simp only
  split_ifs with h1 h2 h3 h4 h5 h6 h7 h8
  all_goals first
    | rfl
    | (exfalso; omega)
    | (rw [h3]; simp)
    | (rw [h6]; simp)

theorem loadCluster0_table (s : State) (c : Nat) (h : c < 2304) :
    loadCluster0 s c = s.fat0 c := by
  simp only [loadCluster0, if_pos h]

theorem storeCluster0_table (s : State) (c v : Nat) (h : c < 2304) :
    storeCluster0 s c v = { s with fat0 := upd s.fat0 c v } := by
  simp only [storeCluster0, if_pos h]

theorem storeCluster1_table (s : State) (c v : Nat) (h : c < 2304) :
    storeCluster1 s c v = { s with fat1 := upd s.fat1 c v } := by
  simp only [storeCluster1, if_pos h]

/-- Both stores of a link through an index inside the tables. -/
theorem storeClusters_table (s : State) (c v : Nat) (h : c < 2304) :
    storeCluster1 (storeCluster0 s c v) c v
      = { s with fat0 := upd s.fat0 c v, fat1 := upd s.fat1 c v } := by
  rw [storeCluster0_table s c v h, storeCluster1_table _ c v h]

theorem stringcompare_eq_true (a b : Nat → Nat) (n : Nat) :
    stringcompare a b n = true ↔ ∀ k, k < n → a k = b k := by
  simp [stringcompare, List.all_eq_true]

theorem entryMatches_eq_true (dir : Nat → directory_entry_t) (filename ext : Nat → Nat)
    (i : Nat) :
    entryMatches dir filename ext i = true ↔
      (∀ k, k < 8 → (dir i).filename k = filename k) ∧
      (∀ k, k < 3 → (dir i).ext k = ext k) := by
  simp [entryMatches, stringcompare_eq_true]

theorem walk_succ_left (fat : Nat → Nat) (cluster k : Nat) :
    walk fat cluster (k + 1) = walk fat (fat cluster) k := by
  induction k with
  | zero => rfl
  | succ k ih => simp only [walk] at ih ⊢; rw [ih]

theorem openFile_opened (fuel : Nat) (s : State) (filename ext : Nat → Nat)
    (h : s.isOpened = true) : openFile fuel s filename ext = .ok (0, s) := by
  simp [openFile, h]

theorem openFile_not_found (fuel : Nat) (s : State) (filename ext : Nat → Nat)
    (h : s.isOpened = false)
    (hno : ∀ i, i < 16 → entryMatches s.dir (scrub filename 8) (scrub ext 3) i = false) :
    openFile fuel s filename ext = .ok (-3, s) := by
  have hf : findFrom (entryMatches s.dir (scrub filename 8) (scrub ext 3)) 0 16 = 16 := by
    have := findFrom_none (entryMatches s.dir (scrub filename 8) (scrub ext 3)) 16 0
      (fun i _ hi => hno i (by omega))
    simpa using this
  simp [openFile, h, hf]

theorem checkLoop_mismatch (fat0 fat1 : Nat → Nat) (k : Nat) :
    ∀ (cluster fuel : Nat), (∀ m, m ≤ k → walk fat0 cluster m ≠ 0xFFFF) →
      fat0 (walk fat0 cluster k) ≠ fat1 (walk fat0 cluster k) → k < fuel →
      checkLoop fat0 fat1 fuel cluster = .ok false := by
  induction k with
  | zero =>
    intro cluster fuel h1 h2 h3
    cases fuel with
    | zero => omega
    | succ fuel =>
      have hc : cluster ≠ 0xFFFF := h1 0 (Nat.le_refl 0)
      simp only [walk] at h2
      simp [checkLoop, hc, h2]
  | succ k ih =>
    intro cluster fuel h1 h2 h3
    cases fuel with
    | zero => omega
    | succ fuel =>
      have hc : cluster ≠ 0xFFFF := h1 0 (Nat.zero_le _)
      simp only [checkLoop, if_neg hc]
      split
      · rfl
      · apply ih (fat0 cluster) fuel
        · intro m hm
          rw [← walk_succ_left]
          exact h1 (m + 1) (by omega)
        · rw [← walk_succ_left]; exact h2
        · omega

theorem checkLoop_true_agree (fat0 fat1 : Nat → Nat) (fuel : Nat) :
    ∀ (cluster : Nat), checkLoop fat0 fat1 fuel cluster = .ok true →
      ∀ k, (∀ m, m ≤ k → walk fat0 cluster m ≠ 0xFFFF) →
        fat0 (walk fat0 cluster k) = fat1 (walk fat0 cluster k) := by
  induction fuel with
  | zero => intro cluster h; simp [checkLoop] at h
  | succ fuel ih =>
    intro cluster h k hk
    have hc : cluster ≠ 0xFFFF := hk 0 (Nat.zero_le _)
    simp only [checkLoop, if_neg hc] at h
    split at h
    · simp at h
    · rename_i hag
      cases k with
      | zero => simpa [walk] using hag
      | succ k =>
        rw [walk_succ_left]
        apply ih (fat0 cluster) h k
        intro m hm
        rw [← walk_succ_left]
        exact hk (m + 1) (by omega)


/-- C7: the code against the claim.  With HELLO.TXT open, `openFile` called with
any names and any fuel leaves the session as it is, as claimed, but returns 0,
the value of a successful open, where the claim asks for a negative code. -/
theorem openFile_while_open_returns_zero :
    helloOpened.isOpened = true ∧
    openFile 4 helloOpened OTHER TXT = .ok (0, helloOpened) ∧
    ∀ (fuel : Nat) (filename ext : Nat → Nat),
      openFile fuel helloOpened filename ext = .ok (0, helloOpened) :=
  ⟨rfl, openFile_opened 4 helloOpened OTHER TXT rfl,
    fun fuel filename ext => openFile_opened fuel helloOpened filename ext rfl⟩

/-- C5: with no file open, if none of the 16 entries of the current directory
equals the space-padded file name on all 8 bytes and the space-padded extension
on all 3 bytes, `openFile` returns -3 and the whole state is as before: no
driver call was logged, and the file session, the directory and both FATs are
unchanged. -/
theorem openFile_absent_name (fuel : Nat) (s : State) (filename ext : Nat → Nat)
    (hclosed : s.isOpened = false)
    (hno : ∀ i, i < 16 →
      ¬ ((∀ k, k < 8 → (s.dir i).filename k = scrub filename 8 k) ∧
         (∀ k, k < 3 → (s.dir i).ext k = scrub ext 3 k))) :
    openFile fuel s filename ext = .ok (-3, s) := by
  apply openFile_not_found fuel s filename ext hclosed
  intro i hi
  have := hno i hi
  rw [← entryMatches_eq_true] at this
  simpa using this

theorem openFile_absent_name_witness :
    freshVolume.isOpened = false ∧
    (∀ i, i < 16 →
      ¬ ((∀ k, k < 8 → (freshVolume.dir i).filename k = scrub HELLO 8 k) ∧
         (∀ k, k < 3 → (freshVolume.dir i).ext k = scrub TXT 3 k))) ∧
    openFile 4 freshVolume HELLO TXT = .ok (-3, freshVolume) :=
  have hno : ∀ i, i < 16 →
      ¬ ((∀ k, k < 8 → (freshVolume.dir i).filename k = scrub HELLO 8 k) ∧
         (∀ k, k < 3 → (freshVolume.dir i).ext k = scrub TXT 3 k)) :=
    fun i _ h =>
      have h0 : (0 : Nat) = scrub HELLO 8 0 := h.1 0 (by decide)
      absurd h0 (by decide)
  ⟨rfl, hno, openFile_absent_name 4 freshVolume HELLO TXT rfl hno⟩

/-- C3: with no file open, let `j` be the entry the lookup of `openFile` stops
at (the first of the 16 that matches the names).  If the walk through FAT0 from
its starting cluster meets, before any 0xFFFF, a cluster on which FAT0 and FAT1
differ (step `k`), then `openFile` returns -1 as soon as the fuel exceeds `k`,
and the state is as before: no driver call, no read into the staging region,
the session still closed.  And whenever `openFile` returns 0 from a closed
session, the two FATs agree on every cluster of the chain of the entry it
opened. -/
theorem openFile_fat_disagreement (s : State) (filename ext : Nat → Nat)
    (hclosed : s.isOpened = false) :
    (∀ j k, j < 16 →
      entryMatches s.dir (scrub filename 8) (scrub ext 3) j = true →
      (∀ i, i < j → entryMatches s.dir (scrub filename 8) (scrub ext 3) i = false) →
      (∀ m, m ≤ k → walk s.fat0 (s.dir j).startingCluster m ≠ 0xFFFF) →
      s.fat0 (walk s.fat0 (s.dir j).startingCluster k)
        ≠ s.fat1 (walk s.fat0 (s.dir j).startingCluster k) →
      ∀ fuel, k < fuel → openFile fuel s filename ext = .ok (-1, s)) ∧
    (∀ fuel t, openFile fuel s filename ext = .ok (0, t) →
      ∃ j, j < 16 ∧ t.directoryEntry = some j ∧ t.isOpened = true ∧
        ∀ k, (∀ m, m ≤ k → walk s.fat0 (s.dir j).startingCluster m ≠ 0xFFFF) →
          s.fat0 (walk s.fat0 (s.dir j).startingCluster k)
            = s.fat1 (walk s.fat0 (s.dir j).startingCluster k)) := by
  constructor
  · intro j k hj hm hfirst hwalk hdiff fuel hfuel
    have hf : findFrom (entryMatches s.dir (scrub filename 8) (scrub ext 3)) 0 16 = j :=
      findFrom_eq_of_first _ 16 0 j (Nat.zero_le j) (by omega) hm (fun i _ hi => hfirst i hi)
    have hc := checkLoop_mismatch s.fat0 s.fat1 k (s.dir j).startingCluster fuel hwalk hdiff hfuel
    simp [openFile, hclosed, hf, hj, hc]
  · intro fuel t ht
    simp only [openFile, hclosed] at ht
    simp only [Bool.false_eq_true, if_false] at ht
    split at ht
    · rename_i hj
      split at ht
      · simp at ht
      · simp at ht
      · rename_i hc
        split at ht
        · simp at ht
        · simp at ht
        · simp only [Except.ok.injEq, Prod.mk.injEq, true_and] at ht
          refine ⟨_, hj, ?_, ?_, checkLoop_true_agree s.fat0 s.fat1 fuel _ hc⟩
          · rw [← ht]
          · rw [← ht]
    · simp at ht

theorem openFile_fat_disagreement_witness :
    helloDamaged.isOpened = false ∧
    openFile 4 helloDamaged HELLO TXT = .ok (-1, helloDamaged) :=
  ⟨rfl, (openFile_fat_disagreement helloDamaged HELLO TXT rfl).1 0 0 (by decide) (by decide)
    (fun i hi => absurd hi (Nat.not_lt_zero i))
    (fun m hm => by
      have : m = 0 := Nat.le_zero.mp hm
      subst this
      decide)
    (by decide) 4 (by decide)⟩

theorem checkLoop_looping (fuel : Nat) :
    checkLoop helloLooping.fat0 helloLooping.fat1 fuel 2 = .error Stop.outOfFuel := by
  induction fuel with
  | zero => rfl
  | succ fuel ih =>
    have h2 : helloLooping.fat0 2 = 2 := by decide
    have h3 : helloLooping.fat1 2 = 2 := by decide
    simp only [checkLoop, h2, h3]
    simpa using ih

/-- C4: the code against the claim.  In `helloLooping` no file is open,
HELLO.TXT exists with starting cluster 2, and both FAT copies hold 2 at cluster
2, so the walk never reaches 0xFFFF and the copies agree all along.  The
consistency loop of `openFile` has no bound: whatever the fuel, the run does not
come to a return, where the claim has it return -2. -/
theorem openFile_looping_chain_never_returns :
    helloLooping.isOpened = false ∧
    entryMatches helloLooping.dir (scrub HELLO 8) (scrub TXT 3) 0 = true ∧
    (helloLooping.dir 0).startingCluster = 2 ∧
    (∀ m, walk helloLooping.fat0 2 m = 2 ∧
      helloLooping.fat0 (walk helloLooping.fat0 2 m)
        = helloLooping.fat1 (walk helloLooping.fat0 2 m)) ∧
    ∀ fuel, openFile fuel helloLooping HELLO TXT = .error Stop.outOfFuel := by
  have hw : ∀ m, walk helloLooping.fat0 2 m = 2 := by
    intro m
    induction m with
    | zero => rfl
    | succ m ih => simp only [walk, ih]; decide
  refine ⟨rfl, by decide, rfl, ?_, ?_⟩
  · intro m
    rw [hw m]
    exact ⟨rfl, by decide⟩
  · intro fuel
    have hf : findFrom (entryMatches helloLooping.dir (scrub HELLO 8) (scrub TXT 3)) 0 16 = 0 := by
      decide
    have hs : (helloLooping.dir 0).startingCluster = 2 := rfl
    have hcl : helloLooping.isOpened = false := rfl
    simp only [openFile, hcl, hf, hs, checkLoop_looping fuel]
    simp


theorem upd_upd_same {α : Type} (f : Nat → α) (i : Nat) (v w : α) :
    upd (upd f i v) i w = upd f i w := by
  funext j
  simp only [upd]
  split <;> rfl

/-- The directory entry `createFile` writes into slot `j` for cluster `c`. -/
theorem createFile_spec (L : Layout) (s : State) (filename ext : Nat → Nat) (j c : Nat)
    (hj : findFrom (fun i => (s.dir i).filename 0 == 0) 0 16 = j) (hj16 : j < 16)
    (hc : findFrom (fun c => s.fat0 c == 0 && s.fat1 c == 0) 2 2302 = c) (hc2 : c < 2304) :
    (createFile L s filename ext).1 = 0 ∧
    (createFile L s filename ext).2.isOpened = false ∧
    (createFile L s filename ext).2.fat0 = upd s.fat0 c 0xFFFF ∧
    (createFile L s filename ext).2.fat1 = upd s.fat1 c 0xFFFF ∧
    (createFile L s filename ext).2.ram = s.ram ∧
    (createFile L s filename ext).2.dir = upd s.dir j
      { filename := stringcopy filename (s.dir j).filename 8
        ext := stringcopy ext (s.dir j).ext 3
        startingCluster := c, fileSize := 512 } := by
  simp only [createFile, hj, hj16, if_true, hc, hc2, flushDirFats, floppy_write]
  simp only [true_and]
  exact upd_upd_same _ _ _ _

theorem scrub_stringcopy (src dst : Nat → Nat) (n k : Nat) (hk : k < n) :
    stringcopy src dst n k = scrub src n k := by
  simp [stringcopy, hk]

/-- What `openFile` does on a file whose chain is the single cluster `c`. -/
theorem openFile_single (fuel : Nat) (s : State) (filename ext : Nat → Nat) (j c : Nat)
    (hclosed : s.isOpened = false)
    (hj : findFrom (entryMatches s.dir (scrub filename 8) (scrub ext 3)) 0 16 = j)
    (hj16 : j < 16) (hc : (s.dir j).startingCluster = c) (hc1 : c ≠ 0xFFFF)
    (h0 : s.fat0 c = 0xFFFF) (h1 : s.fat1 c = 0xFFFF) (hfuel : 2 ≤ fuel) :
    openFile fuel s filename ext =
      .ok (0, { floppy_read s (c + 31) 0x30000 512 with
                  directoryEntry := some j, startingAddress := 0x30000,
                  index := 0, isOpened := true }) := by
  obtain ⟨f, rfl⟩ : ∃ f, fuel = f + 2 := ⟨fuel - 2, by omega⟩
  have hr : (floppy_read s (c + 31) (0x30000 + 512 * 0) 512).fat0 c = 0xFFFF := h0
  simp [openFile, hclosed, hj, hj16, hc, checkLoop, readLoop, hc1, h0, h1, hr]


theorem findFrom_le_of_hit (p : Nat → Bool) (n lo c : Nat) (h1 : lo ≤ c) (hp : p c = true) :
    findFrom p lo n ≤ c := by
  by_contra hcon
  have := findFrom_before p n lo c h1 (by omega)
  simp [hp] at this

theorem entryMatches_congr (dir dir2 : Nat → directory_entry_t) (filename ext : Nat → Nat)
    (i : Nat) (h1 : (dir2 i).filename = (dir i).filename) (h2 : (dir2 i).ext = (dir i).ext) :
    entryMatches dir2 filename ext i = entryMatches dir filename ext i := by
  simp only [entryMatches, h1, h2]

/-- The slot and the cluster `createFile` takes, and what `openFile` then finds:
the state after `createFile; openFile`. -/
theorem create_then_open (L : Layout) (fuel : Nat) (s : State) (filename ext : Nat → Nat)
    (hslot : ∃ j, j < 16 ∧ (s.dir j).filename 0 = 0)
    (hclus : ∃ c, 2 ≤ c ∧ c < 2304 ∧ s.fat0 c = 0 ∧ s.fat1 c = 0)
    (hnew : ∀ i, i < 16 → entryMatches s.dir (scrub filename 8) (scrub ext 3) i = false)
    (hfuel : 2 ≤ fuel) :
    ∃ j c t, j < 16 ∧ 2 ≤ c ∧ c < 2304 ∧
      (createFile L s filename ext).1 = 0 ∧
      openFile fuel (createFile L s filename ext).2 filename ext = .ok (0, t) ∧
      t.isOpened = true ∧ t.directoryEntry = some j ∧ t.startingAddress = 0x30000 ∧
      t.index = 0 ∧
      t.fat0 = upd s.fat0 c 0xFFFF ∧ t.fat1 = upd s.fat1 c 0xFFFF ∧
      (∀ i, i ≠ j → t.dir i = s.dir i) ∧
      (∀ k, k < 8 → (t.dir j).filename k = scrub filename 8 k) ∧
      (∀ k, k < 3 → (t.dir j).ext k = scrub ext 3 k) ∧
      (t.dir j).startingCluster = c ∧ (t.dir j).fileSize = 512 ∧
      (∀ i, i < j → (s.dir i).filename 0 ≠ 0) ∧
      t.fat0 = (createFile L s filename ext).2.fat0 := by
  obtain ⟨j1, hj1, hj2⟩ := hslot
  obtain ⟨c1, hc1, hc2, hc3, hc4⟩ := hclus
  have hjle := findFrom_le_of_hit (fun i => (s.dir i).filename 0 == 0) 16 0 j1 (Nat.zero_le _)
    (by simp [hj2])
  have hj16 : findFrom (fun i => (s.dir i).filename 0 == 0) 0 16 < 16 := by omega
  have hcle := findFrom_le_of_hit (fun c => s.fat0 c == 0 && s.fat1 c == 0) 2302 2 c1 hc1
    (by simp [hc3, hc4])
  have hcge := findFrom_ge (fun c => s.fat0 c == 0 && s.fat1 c == 0) 2302 2
  have hchit := findFrom_hit (fun c => s.fat0 c == 0 && s.fat1 c == 0) 2302 2 (by omega)
  generalize hjdef : findFrom (fun i => (s.dir i).filename 0 == 0) 0 16 = j at hj16 hjle
  generalize hcdef : findFrom (fun c => s.fat0 c == 0 && s.fat1 c == 0) 2 2302 = c
    at hcle hcge hchit
  have hc2304 : c < 2304 := by omega
  obtain ⟨e1, e2, e3, e4, e5, e6⟩ := createFile_spec L s filename ext j c hjdef hj16 hcdef hc2304
  have hmatch : entryMatches (createFile L s filename ext).2.dir (scrub filename 8)
      (scrub ext 3) j = true := by
    rw [entryMatches_eq_true, e6, upd_same]
    exact ⟨fun k hk => scrub_stringcopy _ _ 8 k hk, fun k hk => scrub_stringcopy _ _ 3 k hk⟩
  have hfind : findFrom (entryMatches (createFile L s filename ext).2.dir (scrub filename 8)
      (scrub ext 3)) 0 16 = j := by
    apply findFrom_eq_of_first _ 16 0 j (Nat.zero_le _) (by omega) hmatch
    intro i _ hi
    rw [entryMatches_congr s.dir _ _ _ i (by rw [e6, upd_other _ _ _ _ (by omega)])
      (by rw [e6, upd_other _ _ _ _ (by omega)])]
    exact hnew i (by omega)
  have hopen := openFile_single fuel (createFile L s filename ext).2 filename ext j c e2 hfind
    hj16 (by rw [e6, upd_same]) (by omega) (by rw [e3, upd_same]) (by rw [e4, upd_same]) hfuel
  refine ⟨j, c, _, hj16, hcge, hc2304, e1, hopen, rfl, rfl, rfl, rfl, ?_, ?_, ?_, ?_, ?_, ?_, ?_,
    ?_, rfl⟩
  · simp only [floppy_read]; exact e3
  · simp only [floppy_read]; exact e4
  · intro i hi
    simp only [floppy_read]; rw [e6, upd_other _ _ _ _ hi]
  · intro k hk
    simp only [floppy_read]; rw [e6, upd_same]
    exact scrub_stringcopy _ _ 8 k hk
  · intro k hk
    simp only [floppy_read]; rw [e6, upd_same]
    exact scrub_stringcopy _ _ 3 k hk
  · simp only [floppy_read]; rw [e6, upd_same]
  · simp only [floppy_read]; rw [e6, upd_same]
  · intro i hi
    have := findFrom_before (fun i => (s.dir i).filename 0 == 0) 16 0 i (Nat.zero_le _)
      (by rw [hjdef]; exact hi)
    simpa using this


set_option maxRecDepth 100000 in
/-- C2: the code against the claim.  In `helloGrown` HELLO.TXT is open, its
chain is the single cluster 2 and its size is 600, so `ceil (600 / 512) = 2`
clusters are needed.  `closeFile` returns 0, but the link to the cluster it
finds (3) is stored at index `cluster`, which is 0xFFFF at that point, not at
the previous cluster 2: following FAT0 or FAT1 from the starting cluster still
visits the one cluster 2, while cluster 3 is marked 0xFFFF and belongs to no
chain.  The same is found at the end of the calls `createFile; openFile;
writeBytes ('x', 600); closeFile; openFile` on the fresh volume: all return 0,
the size is 600 and the chain of the file is the one cluster 2. -/
theorem closeFile_leaves_chain_short :
    helloGrown.isOpened = true ∧
    (helloGrown.dir 0).startingCluster = 2 ∧
    ((helloGrown.dir 0).fileSize + 511) / 512 = 2 ∧
    (match closeFile dosLayout helloGrown with
      | .ok r => some (r.1, chain r.2.fat0 8 2, chain r.2.fat1 8 2,
                       r.2.fat0 0xFFFF, r.2.fat0 3, r.2.fat1 3)
      | .error _ => none)
      = some (0, some [2], some [2], 3, 0xFFFF, 0xFFFF) ∧
    (match writeAndReopen dosLayout 4 freshVolume HELLO TXT 120 600 with
      | .ok r => some (r.1, (r.2.dir 0).startingCluster, (r.2.dir 0).fileSize,
                       chain r.2.fat0 8 2, chain r.2.fat1 8 2)
      | .error _ => none)
      = some ([0, 0, 0, 0, 0], 2, 600, some [2], some [2]) := by
  refine ⟨rfl, rfl, rfl, ?_, ?_⟩
  · rfl
  · rfl

theorem scrubLoop_below (n : Nat) :
    ∀ (i : Nat) (nullFound : Bool) (buf : Nat → Nat) (k : Nat), k < i →
      scrubLoop n i nullFound buf k = buf k := by
  induction n with
  | zero => intro i nf buf k _; rfl
  | succ n ih =>
    intro i nf buf k hk
    simp only [scrubLoop]
    rw [ih (i + 1) _ _ k (by omega)]
    split
    · exact upd_other _ _ _ _ (by omega)
    · rfl

theorem scrub_first (buf : Nat → Nat) (len : Nat) : scrub buf len 0 = buf 0 :=
  scrubLoop_below (len - 1) 1 false buf 0 (by decide)

/-- What `deleteFile` does to an open file whose chain is the single cluster
`c`. -/
theorem deleteFile_single (L : Layout) (fuel : Nat) (s : State) (j c : Nat)
    (ho : s.isOpened = true) (he : s.directoryEntry = some j)
    (hc : (s.dir j).startingCluster = c) (hc1 : c < 2304) (h0 : s.fat0 c = 0xFFFF)
    (hfuel : 2 ≤ fuel) :
    deleteFile L fuel s =
      .ok (0, { flushDirFats L
                  { s with fat0 := upd s.fat0 c 0, fat1 := upd s.fat1 c 0
                           dir := upd s.dir j
                             { s.dir j with filename := upd (s.dir j).filename 0 0 } }
                with isOpened := false }) := by
  obtain ⟨f, rfl⟩ : ∃ f, fuel = f + 2 := ⟨fuel - 2, by omega⟩
  have hne : c ≠ 0xFFFF := by omega
  simp [deleteFile, ho, he, hc, deleteLoop, hne, h0, loadCluster0_table s c hc1,
    storeClusters_table s c 0 hc1]

theorem createFile_closed (L : Layout) (s : State) (filename ext : Nat → Nat)
    (hclosed : s.isOpened = false) : (createFile L s filename ext).2.isOpened = false := by
  simp only [createFile]
  split
  · rfl
  · exact hclosed

/-- C6, as amended: from a volume with no file open, a free directory entry, a
cluster in 2 .. 2303 free in both FATs and no entry named `(filename, ext)`,
the name not being empty: `deleteFile` called right after `createFile` finds no
file open, returns -1 and changes nothing; with the file opened in between, the
calls `createFile; openFile; deleteFile` return 0 and the final `openFile`
returns -3. -/
theorem create_open_delete_open (L : Layout) (fuel : Nat) (s : State)
    (filename ext : Nat → Nat)
    (hclosed : s.isOpened = false)
    (hslot : ∃ j, j < 16 ∧ (s.dir j).filename 0 = 0)
    (hclus : ∃ c, 2 ≤ c ∧ c < 2304 ∧ s.fat0 c = 0 ∧ s.fat1 c = 0)
    (hnew : ∀ i, i < 16 → entryMatches s.dir (scrub filename 8) (scrub ext 3) i = false)
    (hname : filename 0 ≠ 0) (hfuel : 2 ≤ fuel) :
    deleteFile L fuel (createFile L s filename ext).2
      = .ok (-1, (createFile L s filename ext).2) ∧
    createOpenDeleteOpen L fuel s filename ext = .ok [0, 0, 0, -3] := by
  constructor
  · simp [deleteFile, createFile_closed L s filename ext hclosed]
  · obtain ⟨j, c, s2, hj, hc1, hc2, r1, hopen1, o1, o2, _, _, o5, _, o7, _, _, o10, _, _, _⟩ :=
      create_then_open L fuel s filename ext hslot hclus hnew hfuel
    have hdel := deleteFile_single L fuel s2 j c o1 o2 o10 hc2
      (by rw [o5, upd_same]) hfuel
    have hopen2 := openFile_not_found fuel
      { flushDirFats L
          { s2 with fat0 := upd s2.fat0 c 0, fat1 := upd s2.fat1 c 0
                    dir := upd s2.dir j
                      { s2.dir j with filename := upd (s2.dir j).filename 0 0 } }
        with isOpened := false } filename ext rfl
      (by
        intro i hi
        simp only [flushDirFats, floppy_write]
        by_cases hij : i = j
        · rw [hij]
          cases hm : entryMatches (upd s2.dir j
              { s2.dir j with filename := upd (s2.dir j).filename 0 0 })
              (scrub filename 8) (scrub ext 3) j with
          | false => rfl
          | true =>
            rw [entryMatches_eq_true] at hm
            have := hm.1 0 (by decide)
            rw [upd_same, scrub_first] at this
            simp only [upd_same] at this
            exact absurd this.symm hname
        · rw [entryMatches_congr s.dir _ _ _ i
            (by rw [upd_other _ _ _ _ hij, o7 i hij])
            (by rw [upd_other _ _ _ _ hij, o7 i hij])]
          exact hnew i hi)
    simp only [createOpenDeleteOpen, hopen1, hdel, hopen2, r1]

theorem create_open_delete_open_witness :
    (freshVolume.isOpened = false ∧ HELLO 0 ≠ 0) ∧
    deleteFile dosLayout 4 (createFile dosLayout freshVolume HELLO TXT).2
      = .ok (-1, (createFile dosLayout freshVolume HELLO TXT).2) ∧
    createOpenDeleteOpen dosLayout 4 freshVolume HELLO TXT = .ok [0, 0, 0, -3] :=
  ⟨⟨rfl, by decide⟩,
    create_open_delete_open dosLayout 4 freshVolume HELLO TXT rfl
      ⟨0, by decide, rfl⟩ ⟨2, by decide, by decide, rfl, rfl⟩ (by decide)
      (by decide) (by decide)⟩

/-- C6, as stated, fails: on the fresh volume `createFile` returns 0 and leaves
the file closed, so `deleteFile` returns -1 without deleting anything, and
`openFile` then finds HELLO.TXT and returns 0, not -3. -/
theorem create_delete_open_finds_file :
    createDeleteOpen dosLayout 4 freshVolume HELLO TXT = .ok [0, -1, 0] := by
  rfl

end Fat

/-! ## multitasking.c: the scheduler in detail -/

namespace Multitasking

theorem findFrom_eq_find (p : Nat → Bool) (n lo : Nat) :
    findFrom p lo n = ((List.range' lo n).find? p).getD (lo + n) := by
  induction n generalizing lo with
  | zero => simp [findFrom]
  | succ n ih =>
    rw [List.range'_succ, List.find?_cons]
    simp only [findFrom]
    cases hp : p lo with
    | true => simp
    | false =>
      simp only [Bool.false_eq_true, if_false]
      rw [ih (lo + 1)]
      congr 1
      omega

theorem find_range_lt (p : Nat → Bool) (n lo i : Nat)
    (h : (List.range' lo n).find? p = some i) : lo ≤ i ∧ i < lo + n := by
  have := List.mem_of_find?_eq_some h
  simpa using this

/-- The loop `for (i = lo; i < hi; i++)` of `schedule` against the search in
the list `lo, ..., hi - 1`. -/
theorem scanReady_eq_find (s : State) (lo hi : Nat) (h : lo ≤ hi) :
    (∀ i, firstReady s (List.range' lo (hi - lo)) = some i →
      scanReady s lo hi = i ∧ i < hi) ∧
    (firstReady s (List.range' lo (hi - lo)) = none → scanReady s lo hi = hi) := by
  constructor
  · intro i hi2
    have hlt := find_range_lt _ _ _ _ hi2
    simp only [scanReady, findFrom_eq_find]
    simp only [firstReady] at hi2
    rw [hi2]
    exact ⟨rfl, by omega⟩
  · intro hnone
    simp only [scanReady, findFrom_eq_find]
    simp only [firstReady] at hnone
    rw [hnone]
    simp only [Option.getD_none]
    omega

/-- C11: let the running record have pid `p < MAX_PROCS`.  For a user
(`1 ≤ p`), `schedule` is the search for the first READY record in the order
`p + 1, ..., MAX_PROCS - 1, 1, ..., p - 1`: it sets `next` to that record and
returns `ready_process_count ()`, and returns 0, setting nothing, when the
order holds no READY record.  For the kernel (`p = 0`) the order is
`1, ..., MAX_PROCS - 1`.  Neither order contains slot 0 or slot `p`, and both
stay below `MAX_PROCS`. -/
theorem schedule_follows_order (M : Nat) (s : State) (r : Nat)
    (hrun : s.running = some r) (hpM : (s.processes r).pid < M) :
    (1 ≤ (s.processes r).pid →
      schedule M s = scheduleInOrder M s (userOrder M (s.processes r).pid) ∧
      ∀ i, i ∈ userOrder M (s.processes r).pid →
        i ≠ 0 ∧ i ≠ (s.processes r).pid ∧ i < M) ∧
    ((s.processes r).pid = 0 →
      schedule M s = scheduleInOrder M s (kernelOrder M) ∧
      ∀ i, i ∈ kernelOrder M → i ≠ 0 ∧ i < M) := by
  constructor
  · intro hp1
    constructor
    · have hne : ¬ (s.processes r).pid = 0 := by omega
      obtain ⟨a1, a2⟩ := scanReady_eq_find s ((s.processes r).pid + 1) M (by omega)
      obtain ⟨b1, b2⟩ := scanReady_eq_find s 1 (s.processes r).pid hp1
      simp only [schedule, hrun, if_neg hne, scheduleInOrder, userOrder]
      have happ : firstReady s (List.range' ((s.processes r).pid + 1)
            (M - ((s.processes r).pid + 1)) ++ List.range' 1 ((s.processes r).pid - 1))
          = (firstReady s (List.range' ((s.processes r).pid + 1)
              (M - ((s.processes r).pid + 1)))).or
            (firstReady s (List.range' 1 ((s.processes r).pid - 1))) := by
        simp only [firstReady, List.find?_append]
      rw [happ]
      cases h1 : firstReady s (List.range' ((s.processes r).pid + 1)
          (M - ((s.processes r).pid + 1))) with
      | some i =>
        obtain ⟨e1, e2⟩ := a1 i h1
        simp only [e1, if_pos e2, Option.or_some]
      | none =>
        have e1 := a2 h1
        simp only [e1, Nat.lt_irrefl, if_false, Option.none_or]
        cases h2 : firstReady s (List.range' 1 ((s.processes r).pid - 1)) with
        | some i =>
          obtain ⟨e3, e4⟩ := b1 i h2
          simp only [e3, if_pos e4]
        | none =>
          have e3 := b2 h2
          simp only [e3, Nat.lt_irrefl, if_false]
    · intro i hi
      simp only [userOrder, List.mem_append, List.mem_range'_1] at hi
      omega
  · intro hp0
    constructor
    · obtain ⟨a1, a2⟩ := scanReady_eq_find s 1 M (by omega)
      simp only [schedule, hrun, if_pos hp0, scheduleInOrder, kernelOrder]
      cases h1 : firstReady s (List.range' 1 (M - 1)) with
      | some i =>
        obtain ⟨e1, e2⟩ := a1 i h1
        simp only [e1, if_pos e2]
      | none =>
        have e1 := a2 h1
        simp only [e1, Nat.lt_irrefl, if_false]
    · intro i hi
      simp only [kernelOrder, List.mem_range'_1] at hi
      omega

theorem schedule_follows_order_witness :
    (firstOfTwoRunning.running = some 1 ∧ (firstOfTwoRunning.processes 1).pid < 16) ∧
    (1 ≤ (firstOfTwoRunning.processes 1).pid →
      schedule 16 firstOfTwoRunning
        = scheduleInOrder 16 firstOfTwoRunning
            (userOrder 16 (firstOfTwoRunning.processes 1).pid) ∧
      ∀ i, i ∈ userOrder 16 (firstOfTwoRunning.processes 1).pid →
        i ≠ 0 ∧ i ≠ (firstOfTwoRunning.processes 1).pid ∧ i < 16) ∧
    ((firstOfTwoRunning.processes 1).pid = 0 →
      schedule 16 firstOfTwoRunning = scheduleInOrder 16 firstOfTwoRunning (kernelOrder 16) ∧
      ∀ i, i ∈ kernelOrder 16 → i ≠ 0 ∧ i < 16) :=
  ⟨⟨rfl, by decide⟩, schedule_follows_order 16 firstOfTwoRunning 1 rfl (by decide)⟩

theorem alloc_start (M : Nat) (uninit : proc_t) (hM : 0 < M) :
    Alloc M (startkernel M uninit boot).2 := by
  have h0 : ¬ (boot.process_index ≥ M) := by simp [boot]; omega
  simp only [startkernel, if_neg h0]
  constructor
  · simp [boot]
  · simp [boot]; omega
  · simp [boot]
  · exact ⟨0, by simp [boot], by simp [boot]⟩
  · intro n hn; simp [boot] at hn
  · intro i hi
    simp only [boot, Nat.zero_add, Nat.reduceMod] at hi
    simp only [boot, upd]
    rw [if_neg (by omega)]
  · intro i hi
    simp only [boot, Nat.zero_add, Nat.reduceMod] at hi
    have : i = 0 := by omega
    subst this
    simp [boot, upd]
  · simp [boot, upd]
  · intro i h1 h2
    simp only [boot, Nat.zero_add, Nat.reduceMod] at h2
    omega

theorem alloc_createproc (M : Nat) (s : State) (func stack : Nat) (hM : M ≤ 255)
    (h : Alloc M s) : Alloc M (createproc M func stack s).2 := by
  unfold createproc
  split
  · exact h
  · rename_i hlt
    have hmod : (s.process_index + 1) % 256 = s.process_index + 1 := by
      apply Nat.mod_eq_of_lt; omega
    have hidx1 := h.idx1
    obtain ⟨r, hr1, hr2⟩ := h.running
    constructor
    · simp only [hmod]; omega
    · simp only [hmod]; omega
    · exact h.kernel
    · exact ⟨r, hr1, by simp only [hmod]; omega⟩
    · intro n hn
      simp only [Option.some.injEq] at hn
      simp only [hmod]; omega
    · intro i hi
      simp only [hmod] at hi
      simp only [upd]; rw [if_neg (by omega)]
      exact h.free i (by omega)
    · intro i hi
      simp only [hmod] at hi
      simp only [upd]
      split
      · rename_i h1; rw [h1]
      · exact h.pid i (by omega)
    · simp only [upd]; rw [if_neg (by omega)]; exact h.ktype
    · intro i h1 h2
      simp only [hmod] at h2
      simp only [upd]
      split
      · rfl
      · exact h.utype i h1 (by omega)

theorem alloc_of_shape (M : Nat) (s t : State) (h : Alloc M s)
    (hidx : t.process_index = s.process_index) (hk : t.kernel = s.kernel)
    (hpid : ∀ i, (t.processes i).pid = (s.processes i).pid)
    (htype : ∀ i, (t.processes i).type = (s.processes i).type)
    (hfree : ∀ i, s.process_index ≤ i → t.processes i = s.processes i)
    (hrun : ∃ r, t.running = some r ∧ r < s.process_index)
    (hnext : ∀ n, t.next = some n → n < s.process_index) : Alloc M t := by
  constructor
  · rw [hidx]; exact h.idx1
  · rw [hidx]; exact h.idxM
  · rw [hk]; exact h.kernel
  · rw [hidx]; exact hrun
  · rw [hidx]; exact hnext
  · intro i hi
    rw [hidx] at hi
    rw [hfree i hi]; exact h.free i hi
  · intro i hi
    rw [hidx] at hi
    rw [hpid]; exact h.pid i hi
  · rw [htype]; exact h.ktype
  · intro i h1 h2
    rw [hidx] at h2
    rw [htype]; exact h.utype i h1 h2

theorem ready_is_allocated (M : Nat) (s : State) (h : Alloc M s) (i : Nat)
    (hi : (s.processes i).status = proc_status_t.READY) : i < s.process_index := by
  by_contra hcon
  have := h.free i (by omega)
  rw [this] at hi
  exact absurd hi (by decide)

theorem alloc_schedule (M : Nat) (s : State) (h : Alloc M s) : Alloc M (schedule M s).2 := by
  obtain ⟨hp, hr, hk, hi, hn⟩ := schedule_fields M s
  apply alloc_of_shape M s _ h hi hk
  · intro i; rw [hp]
  · intro i; rw [hp]
  · intro i _; rw [hp]
  · rw [hr]; exact h.running
  · intro n hnn
    rcases hn n hnn with h1 | h1
    · exact h.next n h1
    · exact ready_is_allocated M s h n h1

theorem alloc_setStatus (M : Nat) (s : State) (r : Nat) (st : proc_status_t)
    (h : Alloc M s) (hr : r < s.process_index) : Alloc M (setStatus s r st) := by
  apply alloc_of_shape M s (setStatus s r st) h rfl rfl
  · intro i; simp only [setStatus, upd]; split
    · rename_i hi; rw [hi]
    · rfl
  · intro i; simp only [setStatus, upd]; split
    · rename_i hi; rw [hi]
    · rfl
  · intro i hi; simp only [setStatus, upd]; rw [if_neg (by omega)]
  · exact h.running
  · exact h.next

theorem contextswitch_fields (cpu : Regs) (s t : State) (ht : contextswitch cpu s = .ok t) :
    ∃ r n, s.running = some r ∧ s.next = some n ∧
      t.running = some n ∧ t.next = some n ∧ t.kernel = s.kernel ∧
      t.process_index = s.process_index ∧ t.prev = s.prev ∧
      (∀ i, (t.processes i).pid = (s.processes i).pid) ∧
      (∀ i, (t.processes i).type = (s.processes i).type) ∧
      (∀ i, i ≠ r → i ≠ n → t.processes i = s.processes i) ∧
      (∀ i, (t.processes i).status =
        if i = n ∧ (s.processes n).status = proc_status_t.READY
        then proc_status_t.RUNNING else (s.processes i).status) := by
  unfold contextswitch at ht
  cases hr : s.running with
  | none => rw [hr] at ht; simp at ht
  | some r =>
    cases hn : s.next with
    | none => rw [hr, hn] at ht; simp at ht
    | some n =>
      rw [hr, hn] at ht
      simp only [Except.ok.injEq] at ht
      have hsaved : ∀ i, (upd s.processes r
          { s.processes r with eip := cpu.eip, esp := cpu.esp, ebp := cpu.ebp } i).status
          = (s.processes i).status := by
        intro i; simp only [upd]; split
        · rename_i hi; rw [hi]
        · rfl
      refine ⟨r, n, rfl, rfl, ?_, ?_, ?_, ?_, ?_, ?_, ?_, ?_, ?_⟩
      · rw [← ht]
      · rw [← ht]
      · rw [← ht]
      · rw [← ht]
      · rw [← ht]
      · intro i; rw [← ht]; simp only
        split
        · simp only [upd]; split
          · rename_i h1; simp only; split
            · rename_i h2; rw [h1, h2]
            · rw [h1]
          · split
            · rename_i h2; rw [h2]
            · rfl
        · simp only [upd]; split
          · rename_i h2; rw [h2]
          · rfl
      · intro i; rw [← ht]; simp only
        split
        · simp only [upd]; split
          · rename_i h1; simp only; split
            · rename_i h2; rw [h1, h2]
            · rw [h1]
          · split
            · rename_i h2; rw [h2]
            · rfl
        · simp only [upd]; split
          · rename_i h2; rw [h2]
          · rfl
      · intro i hir hin; rw [← ht]; simp only
        split
        · rw [upd_other _ _ _ _ hin, upd_other _ _ _ _ hir]
        · rw [upd_other _ _ _ _ hir]
      · intro i; rw [← ht]; simp only
        rw [hsaved n]
        by_cases hst : (s.processes n).status = proc_status_t.READY
        · rw [if_pos hst]
          by_cases hin : i = n
          · rw [hin, upd_same]; simp [hst]
          · rw [upd_other _ _ _ _ hin, hsaved]; simp [hin]
        · rw [if_neg hst, hsaved]; simp [hst]

theorem alloc_contextswitch (M : Nat) (cpu : Regs) (s t : State) (h : Alloc M s)
    (ht : contextswitch cpu s = .ok t) : Alloc M t := by
  obtain ⟨r, n, hr, hn, tr, tn, tk, ti, _, tpid, ttype, tsame, _⟩ :=
    contextswitch_fields cpu s t ht
  have hrlt : r < s.process_index := by
    obtain ⟨r2, h1, h2⟩ := h.running
    rw [hr] at h1
    simp only [Option.some.injEq] at h1
    omega
  have hnlt : n < s.process_index := h.next n hn
  apply alloc_of_shape M s t h ti tk tpid ttype
  · intro i hi; exact tsame i (by omega) (by omega)
  · exact ⟨n, tr, hnlt⟩
  · intro m hm
    rw [tn] at hm
    simp only [Option.some.injEq] at hm
    omega

theorem alloc_yield (M : Nat) (cpu : Regs) (s t : State) (h : Alloc M s)
    (ht : yield M cpu s = .ok t) : Alloc M t := by
  unfold yield at ht
  obtain ⟨r, hr, hrlt⟩ := h.running
  rw [hr] at ht
  simp only at ht
  have h1 : Alloc M (if (s.processes r).type = proc_type_t.KERNEL
      then (schedule M s).2 else s) := by
    split
    · exact alloc_schedule M s h
    · exact h
  have hidx : (if (s.processes r).type = proc_type_t.KERNEL
      then (schedule M s).2 else s).process_index = s.process_index := by
    split
    · exact (schedule_fields M s).2.2.2.1
    · rfl
  have h2 := alloc_setStatus M _ r proc_status_t.READY h1 (by rw [hidx]; exact hrlt)
  exact alloc_contextswitch M cpu _ t (alloc_schedule M _ h2) ht

theorem alloc_exit (M : Nat) (cpu : Regs) (s t : State) (h : Alloc M s)
    (ht : exit cpu s = .ok t) : Alloc M t := by
  unfold exit at ht
  obtain ⟨r, hr, hrlt⟩ := h.running
  rw [hr] at ht
  simp only at ht
  have h1 := alloc_setStatus M s r proc_status_t.TERMINATED h hrlt
  split at ht
  · apply alloc_contextswitch M cpu _ t _ ht
    apply alloc_of_shape M (setStatus s r proc_status_t.TERMINATED)
      { setStatus s r proc_status_t.TERMINATED with
          next := (setStatus s r proc_status_t.TERMINATED).kernel }
      h1 rfl rfl (fun _ => rfl) (fun _ => rfl) (fun _ _ => rfl)
    · exact h1.running
    · intro n hn
      have hk : (setStatus s r proc_status_t.TERMINATED).kernel = some 0 := h1.kernel
      simp only [hk, Option.some.injEq] at hn
      have := h1.idx1
      omega
  · simp only [Except.ok.injEq] at ht
    rw [← ht]; exact h1

theorem alloc_callStep (M : Nat) (hM : M ≤ 255) (s t : State) (h : Alloc M s)
    (hstep : CallStep M s t) : Alloc M t := by
  cases hstep
  · exact alloc_createproc M s _ _ hM h
  · exact alloc_schedule M s h
  · rename_i cpu hy
    exact alloc_yield M cpu s t h hy
  · rename_i cpu he
    exact alloc_exit M cpu s t h he

theorem alloc_of_calls (M : Nat) (hM1 : 0 < M) (hM : M ≤ 255) (uninit : proc_t) (s : State)
    (h : Relation.ReflTransGen (CallStep M) (startkernel M uninit boot).2 s) : Alloc M s := by
  induction h with
  | refl => exact alloc_start M uninit hM1
  | tail _ hstep ih => exact alloc_callStep M hM _ _ ih hstep

theorem readyCountFrom_upd_out (p : Nat → proc_t) (k : Nat) (v : proc_t) (n : Nat) :
    ∀ i, (k < i ∨ i + n ≤ k) → readyCountFrom (upd p k v) i n = readyCountFrom p i n := by
  induction n with
  | zero => intro i _; rfl
  | succ n ih =>
    intro i hk
    simp only [readyCountFrom]
    rw [ih (i + 1) (by omega), upd_other _ _ _ _ (by omega)]

theorem readyCountFrom_upd_in (p : Nat → proc_t) (k : Nat) (v : proc_t) (n : Nat)
    (hold : ¬ ((p k).type = proc_type_t.USER ∧ (p k).status = proc_status_t.READY))
    (hnew : v.type = proc_type_t.USER ∧ v.status = proc_status_t.READY) :
    ∀ i, i ≤ k → k < i + n →
      readyCountFrom (upd p k v) i n = readyCountFrom p i n + 1 := by
  induction n with
  | zero => intro i h1 h2; omega
  | succ n ih =>
    intro i h1 h2
    simp only [readyCountFrom]
    by_cases hik : i = k
    · subst hik
      rw [upd_same, if_pos hnew, if_neg hold, readyCountFrom_upd_out p i v n (i + 1) (by omega)]
      omega
    · rw [upd_other _ _ _ _ hik, ih (i + 1) (by omega) (by omega)]
      omega

/-- C14: in every state reached from `startkernel` by `createproc`, `schedule`,
`yield` and `exit` calls (`1 ≤ MAX_PROCS ≤ 255`), if `createproc (func, stack)`
returns 0 then `ready_process_count ()` is one more after the call than before;
the record written, in the slot `process_index` pointed to before the call
(below `MAX_PROCS`), is USER, READY, with pid equal to the slot, `eip = func`
and `esp = ebp = stack`; and `next` points to it. -/
theorem createproc_adds_ready (M : Nat) (hM1 : 0 < M) (hM : M ≤ 255) (uninit : proc_t)
    (s : State) (hreach : Relation.ReflTransGen (CallStep M) (startkernel M uninit boot).2 s)
    (func stack : Nat) (hret : (createproc M func stack s).1 = 0) :
    ready_process_count M (createproc M func stack s).2 = ready_process_count M s + 1 ∧
    s.process_index < M ∧
    (createproc M func stack s).2.processes s.process_index =
      { pid := s.process_index, type := proc_type_t.USER, status := proc_status_t.READY,
        eip := func, esp := stack, ebp := stack } ∧
    (createproc M func stack s).2.next = some s.process_index := by
  have ha := alloc_of_calls M hM1 hM uninit s hreach
  have hlt : ¬ (s.process_index ≥ M) := by
    intro hge
    simp [createproc, hge] at hret
  have hfree := ha.free s.process_index (Nat.le_refl _)
  refine ⟨?_, by omega, ?_, ?_⟩
  · simp only [createproc, if_neg hlt, ready_process_count]
    rw [readyCountFrom_upd_in s.processes s.process_index _ M
      (by rw [hfree]; simp [zeroProc]) ⟨rfl, rfl⟩ 0 (Nat.zero_le _) (by omega)]
    simp
  · simp only [createproc, if_neg hlt]
    rw [upd_same]
  · simp only [createproc, if_neg hlt]

theorem createproc_adds_ready_witness :
    ((0 < 16 ∧ 16 ≤ 255) ∧
      (createproc 16 0x2000 0x11000 afterFirstExit).1 = 0) ∧
    (ready_process_count 16 (createproc 16 0x2000 0x11000 afterFirstExit).2
        = ready_process_count 16 afterFirstExit + 1 ∧
      afterFirstExit.process_index < 16 ∧
      (createproc 16 0x2000 0x11000 afterFirstExit).2.processes afterFirstExit.process_index =
        { pid := afterFirstExit.process_index, type := proc_type_t.USER,
          status := proc_status_t.READY, eip := 0x2000, esp := 0x11000, ebp := 0x11000 } ∧
      (createproc 16 0x2000 0x11000 afterFirstExit).2.next
        = some afterFirstExit.process_index) :=
  ⟨⟨⟨by decide, by decide⟩, rfl⟩,
    createproc_adds_ready 16 (by decide) (by decide) zeroProc afterFirstExit
      (Relation.ReflTransGen.tail
        (Relation.ReflTransGen.tail
          (Relation.ReflTransGen.tail Relation.ReflTransGen.refl
            (CallStep.createproc _ 0x1000 0x10000))
          (CallStep.yield _ afterFirstYield ⟨0, 0, 0⟩ rfl))
        (CallStep.exit _ _ ⟨0, 0, 0⟩ rfl))
      0x2000 0x11000 rfl⟩

theorem createprocTimes_returns (M : Nat) (hM : M ≤ 255) (args : Nat → Nat × Nat) (n : Nat) :
    ∀ (k : Nat) (s : State), Alloc M s →
      (createprocTimes M args n k s).1 =
        List.replicate (min n (M - s.process_index)) 0
          ++ List.replicate (n - (M - s.process_index)) (-1) ∧
      Alloc M (createprocTimes M args n k s).2 ∧
      (createprocTimes M args n k s).2.process_index = min (s.process_index + n) M := by
  induction n with
  | zero =>
    intro k s h
    refine ⟨by simp [createprocTimes], h, ?_⟩
    have := h.idxM
    simp only [createprocTimes]; omega
  | succ n ih =>
    intro k s h
    have hidxM := h.idxM
    obtain ⟨i1, i2, i3⟩ := ih (k + 1) (createproc M (args k).1 (args k).2 s).2
      (alloc_createproc M s _ _ hM h)
    simp only [createprocTimes]
    by_cases hfull : s.process_index ≥ M
    · have hc : createproc M (args k).1 (args k).2 s = (-1, s) := by
        simp [createproc, hfull]
      rw [hc] at i1 i2 i3 ⊢
      simp only at i1 i2 i3 ⊢
      refine ⟨?_, i2, by rw [i3]; omega⟩
      rw [i1]
      have e1 : M - s.process_index = 0 := by omega
      simp only [e1, Nat.min_zero, List.replicate_zero, List.nil_append, Nat.sub_zero,
        List.replicate_succ]
    · have hmod : (s.process_index + 1) % 256 = s.process_index + 1 := by
        apply Nat.mod_eq_of_lt; omega
      have hc1 : (createproc M (args k).1 (args k).2 s).1 = 0 := by
        simp [createproc, hfull]
      have hc2 : (createproc M (args k).1 (args k).2 s).2.process_index
          = s.process_index + 1 := by
        simp [createproc, hfull, hmod]
      rw [hc2] at i1 i3
      refine ⟨?_, i2, by rw [i3]; omega⟩
      rw [i1, hc1]
      have e1 : min (n + 1) (M - s.process_index)
          = min n (M - (s.process_index + 1)) + 1 := by omega
      have e2 : n + 1 - (M - s.process_index) = n - (M - (s.process_index + 1)) := by omega
      rw [e1, e2, List.replicate_succ, List.cons_append]

theorem createprocTimes_append (M : Nat) (args : Nat → Nat × Nat) (a b : Nat) :
    ∀ (k : Nat) (s : State),
      (createprocTimes M args (a + b) k s).2
        = (createprocTimes M args b (k + a) (createprocTimes M args a k s).2).2 := by
  induction a with
  | zero => intro k s; simp [createprocTimes]
  | succ a ih =>
    intro k s
    have e : a + 1 + b = (a + b) + 1 := by omega
    rw [e]
    simp only [createprocTimes]
    rw [ih (k + 1)]
    congr 2
    omega

theorem createprocTimes_full (M : Nat) (args : Nat → Nat × Nat) (n : Nat) :
    ∀ (k : Nat) (s : State), s.process_index ≥ M → (createprocTimes M args n k s).2 = s := by
  induction n with
  | zero => intro k s _; rfl
  | succ n ih =>
    intro k s h
    have hc : createproc M (args k).1 (args k).2 s = (-1, s) := by
      simp [createproc, h]
    simp only [createprocTimes, hc]
    exact ih (k + 1) s h

/-- C13: with `1 ≤ MAX_PROCS ≤ 255`, `startkernel` on the zeroed globals
returns 0; of `n` consecutive `createproc` calls after it, whatever their
arguments, the first `MAX_PROCS - 1` return 0 and all later ones return -1.
In the state after `MAX_PROCS - 1` calls every further `createproc` returns -1
and leaves the whole state (table, `process_index`, `next`) as it is, so the
state after more calls is the same; there `process_index = MAX_PROCS`, each
slot below `MAX_PROCS` holds a record whose pid is the slot, slot 0 is the
KERNEL record, each slot from 1 on is a USER record, and no slot from
`MAX_PROCS` on was written. -/
theorem createproc_fills_table (M : Nat) (hM1 : 1 ≤ M) (hM : M ≤ 255) (uninit : proc_t)
    (args : Nat → Nat × Nat) :
    (startkernel M uninit boot).1 = 0 ∧
    (∀ n, (createprocTimes M args n 0 (startkernel M uninit boot).2).1 =
      List.replicate (min n (M - 1)) 0 ++ List.replicate (n - (M - 1)) (-1)) ∧
    (∀ func stack,
      createproc M func stack (createprocTimes M args (M - 1) 0 (startkernel M uninit boot).2).2
        = (-1, (createprocTimes M args (M - 1) 0 (startkernel M uninit boot).2).2)) ∧
    (∀ n, M - 1 ≤ n →
      (createprocTimes M args n 0 (startkernel M uninit boot).2).2
        = (createprocTimes M args (M - 1) 0 (startkernel M uninit boot).2).2) ∧
    (createprocTimes M args (M - 1) 0 (startkernel M uninit boot).2).2.process_index = M ∧
    (∀ i, i < M →
      ((createprocTimes M args (M - 1) 0 (startkernel M uninit boot).2).2.processes i).pid
        = i) ∧
    ((createprocTimes M args (M - 1) 0 (startkernel M uninit boot).2).2.processes 0).type
      = proc_type_t.KERNEL ∧
    (∀ i, 1 ≤ i → i < M →
      ((createprocTimes M args (M - 1) 0 (startkernel M uninit boot).2).2.processes i).type
        = proc_type_t.USER) ∧
    (∀ i, M ≤ i →
      (createprocTimes M args (M - 1) 0 (startkernel M uninit boot).2).2.processes i
        = zeroProc) := by
  have ha := alloc_start M uninit (by omega)
  have hidx : (startkernel M uninit boot).2.process_index = 1 := by
    have h0 : ¬ (boot.process_index ≥ M) := by simp [boot]; omega
    simp only [startkernel, if_neg h0]
    rfl
  have hret : ∀ n, _ := fun n =>
    createprocTimes_returns M hM args n 0 (startkernel M uninit boot).2 ha
  obtain ⟨_, f2, f3⟩ := hret (M - 1)
  rw [hidx] at f3
  have f3' : (createprocTimes M args (M - 1) 0 (startkernel M uninit boot).2).2.process_index
      = M := by rw [f3]; omega
  refine ⟨?_, ?_, ?_, ?_, f3', ?_, f2.ktype, ?_, ?_⟩
  · have h0 : ¬ (boot.process_index ≥ M) := by simp [boot]; omega
    simp only [startkernel, if_neg h0]
  · intro n
    have := (hret n).1
    rw [hidx] at this
    exact this
  · intro func stack
    simp [createproc, f3']
  · intro n hn
    obtain ⟨b, rfl⟩ : ∃ b, n = (M - 1) + b := ⟨n - (M - 1), by omega⟩
    rw [createprocTimes_append]
    exact createprocTimes_full M args b _ _ (by rw [f3'])
  · intro i hi
    exact f2.pid i (by rw [f3']; exact hi)
  · intro i h1 h2
    exact f2.utype i h1 (by rw [f3']; exact h2)
  · intro i hi
    exact f2.free i (by rw [f3']; exact hi)

theorem createproc_fills_table_witness :
    (1 ≤ 16 ∧ 16 ≤ 255) ∧
    (createprocTimes 16 (fun k => (0x1000 * (k + 1), 0x10000 + 0x1000 * k)) 17 0
        (startkernel 16 zeroProc boot).2).1
      = List.replicate (min 17 (16 - 1)) 0 ++ List.replicate (17 - (16 - 1)) (-1) :=
  ⟨⟨by decide, by decide⟩,
    (createproc_fills_table 16 (by decide) (by decide) zeroProc
      (fun k => (0x1000 * (k + 1), 0x10000 + 0x1000 * k))).2.1 17⟩

theorem inv_schedule (M : Nat) (s : State) (r : Nat) (h : Inv M s r) :
    Inv M (schedule M s).2 r := by
  obtain ⟨hp, hr, hk, hi, hn⟩ := schedule_fields M s
  constructor
  · rw [hr]; exact h.running
  · rw [hp]; exact h.rrun
  · rw [hp]; exact h.others
  · rw [hk]; exact h.kernel
  · rw [hp]; exact h.ktype
  · rw [hp]; exact h.kstat
  · rw [hi]; exact h.idx1
  · rw [hi]; exact h.idxM
  · rw [hp, hi]; exact h.free
  · intro n hnn
    rw [hp]
    rcases hn n hnn with h2 | h2
    · exact h.next n h2
    · right; exact h2

theorem inv_userCallStep (M : Nat) (hM : M ≤ 255) (s t : State) (r : Nat) (h : Inv M s r)
    (hstep : UserCallStep M s t) : ∃ n, Inv M t n := by
  cases hstep
  · rename_i func stack
    exact ⟨r, inv_createproc M s r func stack hM h⟩
  · exact ⟨r, inv_schedule M s r h⟩
  · rename_i cpu hy
    exact inv_yield M cpu s t r h hy
  · rename_i cpu r2 hrun hu he
    have : r2 = r := by
      have := h.running
      rw [hrun] at this
      simpa using this
    rw [this] at hu
    exact inv_exit M cpu s t r h hu he

theorem inv_of_userCalls (M : Nat) (hM1 : 0 < M) (hM : M ≤ 255) (uninit : proc_t) (s : State)
    (h : Relation.ReflTransGen (UserCallStep M) (startkernel M uninit boot).2 s) :
    ∃ r, Inv M s r := by
  induction h with
  | refl => exact ⟨0, inv_start M uninit hM1⟩
  | tail _ hstep ih =>
    obtain ⟨r, hr⟩ := ih
    exact inv_userCallStep M hM _ _ r hr hstep

theorem contextswitch_keeps_terminated (cpu : Regs) (s t : State)
    (ht : contextswitch cpu s = .ok t) (i : Nat)
    (hi : (s.processes i).status = proc_status_t.TERMINATED) :
    (t.processes i).status = proc_status_t.TERMINATED := by
  obtain ⟨r, n, _, _, _, _, _, _, _, _, _, _, tstat⟩ := contextswitch_fields cpu s t ht
  rw [tstat i]
  split
  · rename_i hc
    rw [hc.1, hc.2] at hi
    exact absurd hi (by decide)
  · exact hi

theorem terminated_userCallStep (M : Nat) (s t : State) (r : Nat) (h : Inv M s r)
    (hstep : UserCallStep M s t) (i : Nat)
    (hi : (s.processes i).status = proc_status_t.TERMINATED) :
    (t.processes i).status = proc_status_t.TERMINATED := by
  cases hstep
  · rename_i func stack
    unfold createproc
    split
    · exact hi
    · simp only [upd]
      split
      · rename_i hidx
        have := h.free s.process_index (Nat.le_refl _)
        rw [← hidx, hi] at this
        exact absurd this (by decide)
      · exact hi
  · rw [(schedule_fields M s).1]; exact hi
  · rename_i cpu hy
    unfold yield at hy
    rw [h.running] at hy
    simp only at hy
    apply contextswitch_keeps_terminated cpu _ t hy i
    rw [(schedule_fields M _).1]
    have hir : i ≠ r := by
      intro hir
      rw [hir, h.rrun] at hi
      exact absurd hi (by decide)
    simp only [setStatus]
    rw [upd_other _ _ _ _ hir]
    split
    · rw [(schedule_fields M s).1]; exact hi
    · exact hi
  · rename_i cpu r2 hrun hu he
    unfold exit at he
    rw [hrun] at he
    simp only at he
    have hset : ((setStatus s r2 proc_status_t.TERMINATED).processes i).status
        = proc_status_t.TERMINATED := by
      simp only [setStatus, upd]
      split
      · rfl
      · exact hi
    split at he
    · exact contextswitch_keeps_terminated cpu _ t he i hset
    · simp only [Except.ok.injEq] at he
      rw [← he]; exact hset

/-- C12, as amended: with `1 ≤ MAX_PROCS ≤ 255`, along every sequence of
`createproc`, `schedule`, `yield` and `exit` calls from `startkernel` in which
`exit` is called by USER processes only, a record whose status is TERMINATED
in some state is TERMINATED in every later state. -/
theorem terminated_stays_terminated (M : Nat) (hM1 : 0 < M) (hM : M ≤ 255) (uninit : proc_t)
    (s t : State)
    (hs : Relation.ReflTransGen (UserCallStep M) (startkernel M uninit boot).2 s)
    (hst : Relation.ReflTransGen (UserCallStep M) s t) (i : Nat)
    (hi : (s.processes i).status = proc_status_t.TERMINATED) :
    (t.processes i).status = proc_status_t.TERMINATED := by
  induction hst with
  | refl => exact hi
  | tail hsb hstep ih =>
    obtain ⟨r, hr⟩ := inv_of_userCalls M hM1 hM uninit _ (Relation.ReflTransGen.trans hs hsb)
    exact terminated_userCallStep M _ _ r hr hstep i ih

/-- C12, as stated, fails: with `MAX_PROCS = 16`, after `createproc` the kernel
calls `exit`, which marks its record TERMINATED and returns into it; its next
`yield` stores READY into the record, and the record is READY in the state the
yield leads to. -/
theorem kernel_exit_then_yield_revives :
    Relation.ReflTransGen (CallStep 16) (startkernel 16 zeroProc boot).2 kernelExited ∧
    (kernelExited.processes 0).status = proc_status_t.TERMINATED ∧
    CallStep 16 kernelExited kernelExitedThenYielded ∧
    (kernelExitedThenYielded.processes 0).status = proc_status_t.READY :=
  ⟨Relation.ReflTransGen.tail
      (Relation.ReflTransGen.tail Relation.ReflTransGen.refl
        (CallStep.createproc _ 0x1000 0x10000))
      (CallStep.exit _ _ ⟨0, 0, 0⟩ rfl),
    rfl, CallStep.yield _ _ ⟨0, 0, 0⟩ rfl, rfl⟩

theorem terminated_stays_terminated_witness :
    ((0 < 16 ∧ 16 ≤ 255) ∧
      Relation.ReflTransGen (UserCallStep 16) (startkernel 16 zeroProc boot).2 afterFirstExit ∧
      Relation.ReflTransGen (UserCallStep 16) afterFirstExit
        (schedule 16 (createproc 16 0x2000 0x11000 afterFirstExit).2).2 ∧
      (afterFirstExit.processes 1).status = proc_status_t.TERMINATED) ∧
    ((schedule 16 (createproc 16 0x2000 0x11000 afterFirstExit).2).2.processes 1).status
      = proc_status_t.TERMINATED :=
  have hs : Relation.ReflTransGen (UserCallStep 16) (startkernel 16 zeroProc boot).2
      afterFirstExit :=
    Relation.ReflTransGen.tail
      (Relation.ReflTransGen.tail
        (Relation.ReflTransGen.tail Relation.ReflTransGen.refl
          (UserCallStep.createproc _ 0x1000 0x10000))
        (UserCallStep.yield _ afterFirstYield ⟨0, 0, 0⟩ rfl))
      (UserCallStep.exit _ _ ⟨0, 0, 0⟩ 1 rfl rfl rfl)
  have hst : Relation.ReflTransGen (UserCallStep 16) afterFirstExit
      (schedule 16 (createproc 16 0x2000 0x11000 afterFirstExit).2).2 :=
    Relation.ReflTransGen.tail
      (Relation.ReflTransGen.tail Relation.ReflTransGen.refl
        (UserCallStep.createproc _ 0x2000 0x11000))
      (UserCallStep.schedule _)
  ⟨⟨⟨by decide, by decide⟩, hs, hst, rfl⟩,
    terminated_stays_terminated 16 (by decide) (by decide) zeroProc _ _ hs hst 1 rfl⟩

theorem userCallStep_callStep (M : Nat) (s t : State) (h : UserCallStep M s t) :
    CallStep M s t := by
  cases h
  · exact CallStep.createproc _ _ _
  · exact CallStep.schedule _
  · rename_i cpu hy; exact CallStep.yield _ _ cpu hy
  · rename_i cpu r hrun hu he; exact CallStep.exit _ _ cpu he

theorem alloc_of_userCalls (M : Nat) (hM1 : 0 < M) (hM : M ≤ 255) (uninit : proc_t) (s : State)
    (h : Relation.ReflTransGen (UserCallStep M) (startkernel M uninit boot).2 s) :
    Alloc M s :=
  alloc_of_calls M hM1 hM uninit s
    (Relation.ReflTransGen.mono (fun a b hab => userCallStep_callStep M a b hab) h)

theorem readyCountFrom_congr (p q : Nat → proc_t) (n : Nat) :
    ∀ i, (∀ j, i ≤ j → j < i + n →
        (((p j).type = proc_type_t.USER ∧ (p j).status = proc_status_t.READY) ↔
         ((q j).type = proc_type_t.USER ∧ (q j).status = proc_status_t.READY))) →
      readyCountFrom p i n = readyCountFrom q i n := by
  induction n with
  | zero => intro i _; rfl
  | succ n ih =>
    intro i h
    simp only [readyCountFrom]
    rw [ih (i + 1) (fun j h1 h2 => h j (by omega) (by omega))]
    have := h i (Nat.le_refl _) (by omega)
    by_cases hp : (p i).type = proc_type_t.USER ∧ (p i).status = proc_status_t.READY
    · rw [if_pos hp, if_pos (this.mp hp)]
    · rw [if_neg hp, if_neg (fun hq => hp (this.mpr hq))]

theorem readyCountFrom_eq_zero (p : Nat → proc_t) (n : Nat) :
    ∀ i, readyCountFrom p i n = 0 ↔
      ∀ j, i ≤ j → j < i + n →
        ¬ ((p j).type = proc_type_t.USER ∧ (p j).status = proc_status_t.READY) := by
  induction n with
  | zero =>
    intro i
    simp only [readyCountFrom, true_iff]
    intro j h1 h2
    omega
  | succ n ih =>
    intro i
    simp only [readyCountFrom]
    constructor
    · intro h j h1 h2
      by_cases hji : j = i
      · subst hji
        intro hc
        rw [if_pos hc] at h
        omega
      · exact (ih (i + 1)).mp (by omega) j (by omega) (by omega)
    · intro h
      rw [if_neg (h i (Nat.le_refl _) (by omega)),
        (ih (i + 1)).mpr (fun j h1 h2 => h j (by omega) (by omega))]

/-- Under the table shape of reachable states, no user is READY exactly when no
slot from 1 on is READY. -/
theorem ready_count_zero_iff (M : Nat) (s : State) (h : Alloc M s) :
    ready_process_count M s = 0 ↔
      ∀ i, 1 ≤ i → i < M → (s.processes i).status ≠ proc_status_t.READY := by
  simp only [ready_process_count]
  rw [Int.natCast_eq_zero, readyCountFrom_eq_zero]
  constructor
  · intro hc i h1 h2 hready
    have hlt := ready_is_allocated M s h i hready
    exact hc i (Nat.zero_le _) (by omega) ⟨h.utype i h1 hlt, hready⟩
  · intro hc j _ h2 hj
    by_cases hj0 : j = 0
    · rw [hj0, h.ktype] at hj
      exact absurd hj.1 (by decide)
    · exact hc j (by omega) (by omega) hj.2

theorem schedule_kernel_branch (M : Nat) (s : State) (r : Nat) (hrun : s.running = some r)
    (hpid : (s.processes r).pid = 0) :
    (schedule M s).2 =
      if scanReady s 1 M < M then { s with next := some (scanReady s 1 M) } else s := by
  simp only [schedule, hrun, if_pos hpid]
  split <;> rfl

theorem contextswitch_ok (cpu : Regs) (s : State) (r n : Nat) (hr : s.running = some r)
    (hn : s.next = some n) : ∃ t, contextswitch cpu s = .ok t := by
  simp [contextswitch, hr, hn]

theorem next_callStep (M : Nat) (s t : State)
    (hn : ∀ r n, s.running = some r → s.next = some n →
      n = r ∨ (s.processes n).status = proc_status_t.READY)
    (hstep : CallStep M s t) :
    ∀ r n, t.running = some r → t.next = some n →
      n = r ∨ (t.processes n).status = proc_status_t.READY := by
  cases hstep
  · rename_i func stack
    intro r n hr hnx
    by_cases hfull : s.process_index ≥ M
    · simp only [createproc, if_pos hfull] at hr hnx ⊢
      exact hn r n hr hnx
    · simp only [createproc, if_neg hfull] at hr hnx ⊢
      have e : s.process_index = n := by simpa using hnx
      right
      rw [← e, upd_same]
  · intro r n hr hnx
    obtain ⟨hp, hrun, _, _, hnext⟩ := schedule_fields M s
    rw [hp]
    rw [hrun] at hr
    rcases hnext n hnx with h | h
    · exact hn r n hr h
    · exact Or.inr h
  · rename_i cpu hy
    intro r n hr hnx
    unfold yield at hy
    cases hrun : s.running with
    | none => simp only [hrun] at hy; exact absurd hy (by simp)
    | some r0 =>
      simp only [hrun] at hy
      obtain ⟨_, n0, _, _, tr, tn, _⟩ := contextswitch_fields cpu _ t hy
      rw [tr] at hr
      rw [tn] at hnx
      left
      have e1 : n0 = r := by simpa using hr
      have e2 : n0 = n := by simpa using hnx
      omega
  · rename_i cpu he
    intro r n hr hnx
    unfold exit at he
    cases hrun : s.running with
    | none => simp only [hrun] at he; exact absurd he (by simp)
    | some r0 =>
      simp only [hrun] at he
      by_cases hu : ((setStatus s r0 proc_status_t.TERMINATED).processes r0).type
          = proc_type_t.USER
      · rw [if_pos hu] at he
        obtain ⟨_, n0, _, _, tr, tn, _⟩ := contextswitch_fields cpu _ t he
        rw [tr] at hr
        rw [tn] at hnx
        left
        have e1 : n0 = r := by simpa using hr
        have e2 : n0 = n := by simpa using hnx
        omega
      · rw [if_neg hu] at he
        have e : setStatus s r0 proc_status_t.TERMINATED = t := by simpa using he
        subst e
        simp only [setStatus] at hr hnx ⊢
        rcases hn r n hr hnx with h | h
        · exact Or.inl h
        · by_cases hnr : n = r0
          · left
            rw [hrun] at hr
            have : r0 = r := by simpa using hr
            omega
          · right
            rw [upd_other _ _ _ _ hnr]; exact h

theorem next_of_calls (M : Nat) (hM1 : 0 < M) (hM : M ≤ 255) (uninit : proc_t) (s : State)
    (h : Relation.ReflTransGen (CallStep M) (startkernel M uninit boot).2 s) :
    ∀ r n, s.running = some r → s.next = some n →
      n = r ∨ (s.processes n).status = proc_status_t.READY := by
  induction h with
  | refl =>
    intro r n _ hnx
    have h0 : ¬ boot.process_index ≥ M := by simp only [boot]; omega
    simp only [startkernel, if_neg h0] at hnx
    exact absurd hnx (by simp [boot])
  | tail hsb hstep ih =>
    exact next_callStep M _ _ ih hstep

theorem exit_hands_to_kernel (M : Nat) (cpu : Regs) (s : State) (r : Nat)
    (ha : Alloc M s) (hrun : s.running = some r)
    (hu : (s.processes r).type = proc_type_t.USER) :
    ∃ t, exit cpu s = .ok t ∧ t.running = some 0 ∧ t.kernel = some 0 ∧
      (t.processes r).status = proc_status_t.TERMINATED ∧
      (∀ i, i ≠ r → i ≠ 0 → t.processes i = s.processes i) := by
  have hr0 : r ≠ 0 := by
    intro h0
    rw [h0, ha.ktype] at hu
    exact absurd hu (by decide)
  have htyp : ((setStatus s r proc_status_t.TERMINATED).processes r).type
      = proc_type_t.USER := by
    simp only [setStatus, upd, if_true]; exact hu
  have hex : exit cpu s = contextswitch cpu
      { setStatus s r proc_status_t.TERMINATED with
          next := (setStatus s r proc_status_t.TERMINATED).kernel } := by
    simp only [exit, hrun, if_pos htyp]
  obtain ⟨t, ht⟩ := contextswitch_ok cpu
    { setStatus s r proc_status_t.TERMINATED with
        next := (setStatus s r proc_status_t.TERMINATED).kernel } r 0 hrun ha.kernel
  obtain ⟨r2, n, hr, hn, tr, _, tk, _, _, _, _, tother, tstat⟩ :=
    contextswitch_fields cpu _ t ht
  have hn0 : n = 0 := by
    have : (some 0 : Option Nat) = some n := by rw [← hn]; exact ha.kernel.symm
    simpa using this.symm
  have hr2 : r2 = r := by
    have : (some r : Option Nat) = some r2 := by rw [← hr]; exact hrun.symm
    simpa using this.symm
  subst hn0
  subst hr2
  refine ⟨t, by rw [hex]; exact ht, tr, by rw [tk]; exact ha.kernel, ?_, ?_⟩
  · rw [tstat r2, if_neg (fun h => hr0 h.1)]
    simp only [setStatus, upd_same]
  · intro i hir hi0
    rw [tother i hir hi0]
    simp only [setStatus]
    rw [upd_other _ _ _ _ hir]

theorem scanReady_setStatus_zero (s : State) (st : proc_status_t) (M : Nat) :
    scanReady (setStatus s 0 st) 1 M = scanReady s 1 M := by
  simp only [scanReady, setStatus]
  apply findFrom_congr
  intro i h1 _
  have e := upd_other s.processes 0 i { s.processes 0 with status := st } (by omega : i ≠ 0)
  simp only [e]

theorem kernel_yield_state (M : Nat) (cpu : Regs) (s : State) (hrun : s.running = some 0)
    (ha : Alloc M s) :
    yield M cpu s = contextswitch cpu
      (if scanReady s 1 M < M
        then { setStatus s 0 proc_status_t.READY with next := some (scanReady s 1 M) }
        else setStatus s 0 proc_status_t.READY) := by
  have hpid : (s.processes 0).pid = 0 := ha.pid 0 (by have := ha.idx1; omega)
  have hy : yield M cpu s = contextswitch cpu
      (schedule M (setStatus (schedule M s).2 0 proc_status_t.READY)).2 := by
    simp only [yield, hrun, if_pos ha.ktype]
  rw [hy, schedule_kernel_branch M s 0 hrun hpid]
  by_cases hlt : scanReady s 1 M < M
  · rw [if_pos hlt, if_pos hlt]
    rw [schedule_kernel_branch M _ 0 (by simp only [setStatus]; exact hrun)
      (by simp only [setStatus, upd_same]; exact hpid)]
    rw [scanReady_setStatus_zero]
    have e : scanReady { s with next := some (scanReady s 1 M) } 1 M = scanReady s 1 M := rfl
    rw [e, if_pos hlt]
    rfl
  · rw [if_neg hlt, if_neg hlt]
    rw [schedule_kernel_branch M _ 0 (by simp only [setStatus]; exact hrun)
      (by simp only [setStatus, upd_same]; exact hpid)]
    rw [scanReady_setStatus_zero, if_neg hlt]

theorem kernel_yield_resumes (M : Nat) (cpu : Regs) (s t : State)
    (hrun : s.running = some 0) (ha : Alloc M s)
    (hnx : ∀ n, s.next = some n → n = 0 ∨ (s.processes n).status = proc_status_t.READY)
    (ht : yield M cpu s = .ok t) :
    t.running = some 0 ↔ ready_process_count M s = 0 := by
  rw [kernel_yield_state M cpu s hrun ha] at ht
  rw [ready_count_zero_iff M s ha]
  obtain ⟨r, n, _, hn, tr, _⟩ := contextswitch_fields cpu _ t ht
  by_cases hlt : scanReady s 1 M < M
  · rw [if_pos hlt] at hn
    have hn2 : scanReady s 1 M = n := by simpa using hn
    have hge : 1 ≤ scanReady s 1 M := findFrom_ge _ _ _
    have hhit := findFrom_hit
      (fun i => decide ((s.processes i).status = proc_status_t.READY)) (M - 1) 1
      (by simp only [scanReady] at hlt; omega)
    have hready : (s.processes (scanReady s 1 M)).status = proc_status_t.READY := by
      simpa [scanReady] using hhit
    constructor
    · intro h0
      rw [tr] at h0
      have : n = 0 := by simpa using h0
      omega
    · intro hnone
      exact absurd hready (hnone _ hge hlt)
  · rw [if_neg hlt] at hn
    have hn2 : s.next = some n := hn
    constructor
    · intro _ i h1 h2 hr
      apply hlt
      have hle := Fat.findFrom_le_of_hit
        (fun i => decide ((s.processes i).status = proc_status_t.READY)) (M - 1) 1 i h1
        (by simpa using hr)
      simp only [scanReady]; omega
    · intro hnone
      rw [tr]
      rcases hnx n hn2 with h | h
      · rw [h]
      · have hnM : n < M := Nat.lt_of_lt_of_le (ha.next n hn2) ha.idxM
        by_cases h0 : n = 0
        · rw [h0]
        · exact absurd h (hnone n (by omega) hnM)

/-- C16, as amended: with `1 ≤ MAX_PROCS ≤ 255`, in every state the calls
`createproc`, `schedule`, `yield` and `exit` lead to from `startkernel`:
an `exit` called by a running USER process returns with the kernel process
running, whatever user processes are READY (the caller is TERMINATED and
every other user record is as it was); and a `yield` called by the kernel
hands control back to the kernel exactly when no user process is READY. -/
theorem kernel_resumes_on_exit_or_idle (M : Nat) (hM1 : 0 < M) (hM : M ≤ 255)
    (uninit : proc_t) (s : State)
    (hs : Relation.ReflTransGen (CallStep M) (startkernel M uninit boot).2 s) :
    (∀ cpu r, s.running = some r → (s.processes r).type = proc_type_t.USER →
      ∃ t, exit cpu s = .ok t ∧ t.running = t.kernel ∧ t.kernel = some 0 ∧
        (t.processes r).status = proc_status_t.TERMINATED ∧
        ∀ i, i ≠ r → i ≠ 0 → t.processes i = s.processes i) ∧
    (∀ cpu t, s.running = s.kernel → yield M cpu s = .ok t →
      (t.running = t.kernel ↔ ready_process_count M s = 0)) := by
  have ha := alloc_of_calls M hM1 hM uninit s hs
  have hn := next_of_calls M hM1 hM uninit s hs
  constructor
  · intro cpu r hrun hu
    obtain ⟨t, h1, h2, h3, h4, h5⟩ := exit_hands_to_kernel M cpu s r ha hrun hu
    exact ⟨t, h1, by rw [h2, h3], h3, h4, h5⟩
  · intro cpu t hrun ht
    rw [ha.kernel] at hrun
    have hk := (alloc_yield M cpu s t ha ht).kernel
    rw [hk]
    exact kernel_yield_resumes M cpu s t hrun ha (fun n h => hn 0 n hrun h) ht

theorem kernel_resumes_on_exit_or_idle_witness :
    ((0 < 16 ∧ 16 ≤ 255) ∧
      Relation.ReflTransGen (CallStep 16) (startkernel 16 zeroProc boot).2 firstOfTwoRunning) ∧
    ((∀ cpu r, firstOfTwoRunning.running = some r →
      (firstOfTwoRunning.processes r).type = proc_type_t.USER →
      ∃ t, exit cpu firstOfTwoRunning = .ok t ∧ t.running = t.kernel ∧ t.kernel = some 0 ∧
        (t.processes r).status = proc_status_t.TERMINATED ∧
        ∀ i, i ≠ r → i ≠ 0 → t.processes i = firstOfTwoRunning.processes i) ∧
    (∀ cpu t, firstOfTwoRunning.running = firstOfTwoRunning.kernel →
      yield 16 cpu firstOfTwoRunning = .ok t →
      (t.running = t.kernel ↔ ready_process_count 16 firstOfTwoRunning = 0))) :=
  have hs : Relation.ReflTransGen (CallStep 16) (startkernel 16 zeroProc boot).2
      firstOfTwoRunning :=
    Relation.ReflTransGen.tail
      (Relation.ReflTransGen.tail
        (Relation.ReflTransGen.tail Relation.ReflTransGen.refl
          (CallStep.createproc _ 0x1000 0x10000))
        (CallStep.createproc _ 0x2000 0x11000))
      (CallStep.yield _ firstOfTwoRunning ⟨0, 0, 0⟩ rfl)
  ⟨⟨⟨by decide, by decide⟩, hs⟩,
    kernel_resumes_on_exit_or_idle 16 (by decide) (by decide) zeroProc _ hs⟩

/-- C16, as stated, fails: with `MAX_PROCS = 16`, the kernel creates two user
processes and yields; the first user (slot 1) calls `exit` and the context
switch hands control to the kernel although the second user (slot 2) is READY
and the switch is not a yield.  And when the only user process yields,
`schedule` finds no other READY user (it returns 0) and the switch resumes
that user, not the kernel. -/
theorem exit_resumes_kernel_among_ready :
    (Relation.ReflTransGen (CallStep 16) (startkernel 16 zeroProc boot).2 firstOfTwoRunning ∧
      firstOfTwoRunning.running = some 1 ∧
      ∃ t, exit ⟨0, 0, 0⟩ firstOfTwoRunning = .ok t ∧ t.running = some 0 ∧
        t.kernel = some 0 ∧ (t.processes 2).type = proc_type_t.USER ∧
        (t.processes 2).status = proc_status_t.READY ∧ ready_process_count 16 t = 1) ∧
    (Relation.ReflTransGen (CallStep 16) (startkernel 16 zeroProc boot).2 afterFirstYield ∧
      afterFirstYield.running = some 1 ∧
      (schedule 16 (setStatus afterFirstYield 1 proc_status_t.READY)).1 = 0 ∧
      ∃ u, yield 16 ⟨0, 0, 0⟩ afterFirstYield = .ok u ∧ u.running = some 1 ∧
        u.kernel = some 0) :=
  ⟨⟨Relation.ReflTransGen.tail
      (Relation.ReflTransGen.tail
        (Relation.ReflTransGen.tail Relation.ReflTransGen.refl
          (CallStep.createproc _ 0x1000 0x10000))
        (CallStep.createproc _ 0x2000 0x11000))
      (CallStep.yield _ firstOfTwoRunning ⟨0, 0, 0⟩ rfl),
    rfl, returned (exit ⟨0, 0, 0⟩ firstOfTwoRunning), rfl, rfl, rfl, rfl, rfl, rfl⟩,
   ⟨Relation.ReflTransGen.tail
      (Relation.ReflTransGen.tail Relation.ReflTransGen.refl
        (CallStep.createproc _ 0x1000 0x10000))
      (CallStep.yield _ afterFirstYield ⟨0, 0, 0⟩ rfl),
    rfl, rfl, returned (yield 16 ⟨0, 0, 0⟩ afterFirstYield), rfl, rfl, rfl⟩⟩

end Multitasking

/-! ## kernel.c: the Project-4 run -/

namespace Kernel

open Multitasking

theorem findFrom_extend (p : Nat → Bool) (lo n k : Nat)
    (h : ∀ i, lo + n ≤ i → i < lo + n + k → p i = false) :
    (findFrom p lo (n + k) < lo + (n + k) ↔ findFrom p lo n < lo + n) ∧
    (findFrom p lo n < lo + n → findFrom p lo (n + k) = findFrom p lo n) := by
  by_cases hlt : findFrom p lo n < lo + n
  · have heq : findFrom p lo (n + k) = findFrom p lo n :=
      findFrom_eq_of_first p (n + k) lo _ (findFrom_ge p n lo) (by omega)
        (findFrom_hit p n lo hlt) (fun i h1 h2 => findFrom_before p n lo i h1 h2)
    exact ⟨⟨fun _ => hlt, fun _ => by rw [heq]; omega⟩, fun _ => heq⟩
  · have hle := findFrom_le p n lo
    have hnone : findFrom p lo (n + k) = lo + (n + k) := by
      apply findFrom_none
      intro i h1 h2
      by_cases hi : i < lo + n
      · exact findFrom_before p n lo i h1 (by omega)
      · exact h i (by omega) (by omega)
    exact ⟨⟨fun h1 => by omega, fun h1 => absurd h1 hlt⟩, fun h1 => absurd h1 hlt⟩

theorem agree_scan (s t : State) (h : Agree s t) (lo hi : Nat) :
    scanReady s lo hi = scanReady t lo hi := by
  simp only [scanReady]
  apply findFrom_congr
  intro i _ _
  rw [h.status i]

theorem agree_scan_six (s t : State) (h : Agree s t) (M : Nat) (hM : 6 ≤ M) (lo : Nat)
    (hlo : lo ≤ 6) :
    (scanReady s lo M < M ↔ scanReady t lo 6 < 6) ∧
    (scanReady t lo 6 < 6 → scanReady s lo M = scanReady t lo 6) := by
  rw [← agree_scan s t h lo 6]
  have hext := findFrom_extend
    (fun i => decide ((s.processes i).status = proc_status_t.READY)) lo (6 - lo) (M - 6)
    (by
      intro i h1 _
      have := h.free i (by omega)
      simpa using this)
  have e : 6 - lo + (M - 6) = M - lo := by omega
  rw [e] at hext
  simp only [scanReady]
  constructor
  · constructor
    · intro h1; have := hext.1.1 (by omega); omega
    · intro h1; have := hext.1.2 (by omega); omega
  · intro h1; exact hext.2 (by omega)

theorem readyCountFrom_add (p : Nat → proc_t) (n k : Nat) :
    ∀ i, readyCountFrom p i (n + k) = readyCountFrom p i n + readyCountFrom p (i + n) k := by
  induction n with
  | zero => intro i; simp [readyCountFrom]
  | succ n ih =>
    intro i
    have e : n + 1 + k = (n + k) + 1 := by omega
    rw [e]
    simp only [readyCountFrom]
    rw [ih (i + 1)]
    have e2 : i + 1 + n = i + (n + 1) := by omega
    rw [e2]
    omega

theorem agree_count (s t : State) (h : Agree s t) (M : Nat) (hM : 6 ≤ M) :
    ready_process_count M s = ready_process_count 6 t := by
  simp only [ready_process_count]
  have e : M = 6 + (M - 6) := by omega
  rw [e, readyCountFrom_add]
  have hz : readyCountFrom s.processes (0 + 6) (M - 6) = 0 := by
    rw [readyCountFrom_eq_zero]
    intro j h1 _ hj
    exact h.free j (by omega) hj.2
  rw [hz, Nat.add_zero]
  rw [readyCountFrom_congr s.processes t.processes 6 0]
  intro j _ _
  rw [h.status j, h.type j]

theorem agree_next (s t : State) (h : Agree s t) (i : Nat) (hi : i < 6) :
    Agree { s with next := some i } { t with next := some i } :=
  { running := h.running, next := rfl, kernel := h.kernel, status := h.status,
    type := h.type, pid := h.pid, pids := h.pids, free := h.free, rlow := h.rlow,
    klow := h.klow,
    nlow := fun n hn => by
      have : i = n := by simpa using hn
      omega }

theorem agree_first_scan (s t : State) (h : Agree s t) (M : Nat) (hM : 6 ≤ M) (lo : Nat)
    (hlo : lo ≤ 6) (a b : Int × State) (hab : a.1 = b.1 ∧ Agree a.2 b.2) :
    (if scanReady s lo M < M then
        (ready_process_count M { s with next := some (scanReady s lo M) },
          { s with next := some (scanReady s lo M) })
      else a).1
    = (if scanReady t lo 6 < 6 then
        (ready_process_count 6 { t with next := some (scanReady t lo 6) },
          { t with next := some (scanReady t lo 6) })
      else b).1 ∧
    Agree
      (if scanReady s lo M < M then
        (ready_process_count M { s with next := some (scanReady s lo M) },
          { s with next := some (scanReady s lo M) })
      else a).2
      (if scanReady t lo 6 < 6 then
        (ready_process_count 6 { t with next := some (scanReady t lo 6) },
          { t with next := some (scanReady t lo 6) })
      else b).2 := by
  obtain ⟨hiff, heq⟩ := agree_scan_six s t h M hM lo hlo
  by_cases hlt : scanReady t lo 6 < 6
  · rw [if_pos (hiff.2 hlt), if_pos hlt, heq hlt]
    exact ⟨agree_count _ _ (agree_next s t h _ hlt) M hM, agree_next s t h _ hlt⟩
  · rw [if_neg (fun h1 => hlt (hiff.1 h1)), if_neg hlt]
    exact hab

theorem agree_second_scan (s t : State) (h : Agree s t) (M : Nat) (hM : 6 ≤ M) (p : Nat)
    (hp : p < 6) :
    (if scanReady s 1 p < p then
        (ready_process_count M { s with next := some (scanReady s 1 p) },
          { s with next := some (scanReady s 1 p) })
      else ((0 : Int), s)).1
    = (if scanReady t 1 p < p then
        (ready_process_count 6 { t with next := some (scanReady t 1 p) },
          { t with next := some (scanReady t 1 p) })
      else ((0 : Int), t)).1 ∧
    Agree
      (if scanReady s 1 p < p then
        (ready_process_count M { s with next := some (scanReady s 1 p) },
          { s with next := some (scanReady s 1 p) })
      else ((0 : Int), s)).2
      (if scanReady t 1 p < p then
        (ready_process_count 6 { t with next := some (scanReady t 1 p) },
          { t with next := some (scanReady t 1 p) })
      else ((0 : Int), t)).2 := by
  rw [agree_scan s t h 1 p]
  by_cases hlt : scanReady t 1 p < p
  · rw [if_pos hlt, if_pos hlt]
    exact ⟨agree_count _ _ (agree_next s t h _ (by omega)) M hM,
      agree_next s t h _ (by omega)⟩
  · rw [if_neg hlt, if_neg hlt]
    exact ⟨rfl, h⟩

theorem schedule_of_kernel (M : Nat) (s : State)
    (h : s.running = none ∨ ∃ r, s.running = some r ∧ (s.processes r).pid = 0) :
    schedule M s =
      if scanReady s 1 M < M then
        (ready_process_count M { s with next := some (scanReady s 1 M) },
          { s with next := some (scanReady s 1 M) })
      else (0, s) := by
  rcases h with h | ⟨r, h, hp⟩
  · simp only [schedule, h]
  · simp only [schedule, h, if_pos hp]

theorem schedule_of_user (M : Nat) (s : State) (r : Nat) (h : s.running = some r)
    (hp : (s.processes r).pid ≠ 0) :
    schedule M s =
      if scanReady s ((s.processes r).pid + 1) M < M then
        (ready_process_count M
            { s with next := some (scanReady s ((s.processes r).pid + 1) M) },
          { s with next := some (scanReady s ((s.processes r).pid + 1) M) })
      else if scanReady s 1 (s.processes r).pid < (s.processes r).pid then
        (ready_process_count M { s with next := some (scanReady s 1 (s.processes r).pid) },
          { s with next := some (scanReady s 1 (s.processes r).pid) })
      else (0, s) := by
  simp only [schedule, h, if_neg hp]

theorem agree_schedule (s t : State) (h : Agree s t) (M : Nat) (hM : 6 ≤ M) :
    (schedule M s).1 = (schedule 6 t).1 ∧ Agree (schedule M s).2 (schedule 6 t).2 := by
  cases ht : t.running with
  | none =>
    rw [schedule_of_kernel M s (Or.inl (by rw [h.running]; exact ht)),
      schedule_of_kernel 6 t (Or.inl ht)]
    exact agree_first_scan s t h M hM 1 (by omega) (0, s) (0, t) ⟨rfl, h⟩
  | some r =>
    have hs : s.running = some r := by rw [h.running]; exact ht
    by_cases hp : (t.processes r).pid = 0
    · rw [schedule_of_kernel M s (Or.inr ⟨r, hs, by rw [h.pid r]; exact hp⟩),
        schedule_of_kernel 6 t (Or.inr ⟨r, ht, hp⟩)]
      exact agree_first_scan s t h M hM 1 (by omega) (0, s) (0, t) ⟨rfl, h⟩
    · rw [schedule_of_user M s r hs (by rw [h.pid r]; exact hp),
        schedule_of_user 6 t r ht hp, h.pid r]
      have hlow : (t.processes r).pid < 6 := by rw [← h.pid r]; exact h.pids r
      exact agree_first_scan s t h M hM ((t.processes r).pid + 1) (by omega) _ _
        (agree_second_scan s t h M hM _ hlow)

theorem agree_setStatus (s t : State) (h : Agree s t) (r : Nat) (hr : r < 6)
    (st : proc_status_t) : Agree (setStatus s r st) (setStatus t r st) := by
  have hf : ∀ i, i ≠ r → (setStatus s r st).processes i = s.processes i ∧
      (setStatus t r st).processes i = t.processes i := by
    intro i hi
    simp only [setStatus]
    exact ⟨upd_other _ _ _ _ hi, upd_other _ _ _ _ hi⟩
  have hr1 : (setStatus s r st).processes r = { s.processes r with status := st } := by
    simp only [setStatus, upd_same]
  have hr2 : (setStatus t r st).processes r = { t.processes r with status := st } := by
    simp only [setStatus, upd_same]
  constructor
  · exact h.running
  · exact h.next
  · exact h.kernel
  · intro i
    by_cases hi : i = r
    · rw [hi, hr1, hr2]
    · rw [(hf i hi).1, (hf i hi).2]; exact h.status i
  · intro i
    by_cases hi : i = r
    · rw [hi, hr1, hr2]; exact h.type r
    · rw [(hf i hi).1, (hf i hi).2]; exact h.type i
  · intro i
    by_cases hi : i = r
    · rw [hi, hr1, hr2]; exact h.pid r
    · rw [(hf i hi).1, (hf i hi).2]; exact h.pid i
  · intro i
    by_cases hi : i = r
    · rw [hi, hr1]; exact h.pids r
    · rw [(hf i hi).1]; exact h.pids i
  · intro i h6
    rw [(hf i (by omega)).1]; exact h.free i h6
  · exact h.rlow
  · exact h.nlow
  · exact h.klow

theorem agree_contextswitch (s t : State) (h : Agree s t) (cpu cpu2 : Regs) (t2 : State)
    (ht : contextswitch cpu2 t = .ok t2) :
    ∃ s2, contextswitch cpu s = .ok s2 ∧ Agree s2 t2 := by
  obtain ⟨r, n, hr, hn, tr, tn, tk, _, _, tpid, ttype, _, tstat⟩ :=
    contextswitch_fields cpu2 t t2 ht
  have hsr : s.running = some r := by rw [h.running]; exact hr
  have hsn : s.next = some n := by rw [h.next]; exact hn
  obtain ⟨s2, hs2⟩ := contextswitch_ok cpu s r n hsr hsn
  obtain ⟨r1, n1, hr1, hn1, sr, sn, sk, _, _, spid, stype, _, sstat⟩ :=
    contextswitch_fields cpu s s2 hs2
  have en : n1 = n := by
    have : (some n1 : Option Nat) = some n := by rw [← hn1]; exact hsn
    simpa using this
  subst en
  refine ⟨s2, hs2, ?_⟩
  constructor
  · rw [sr, tr]
  · rw [sn, tn]
  · rw [sk, tk]; exact h.kernel
  · intro i
    rw [sstat i, tstat i, h.status i, h.status n1]
  · intro i; rw [stype i, ttype i]; exact h.type i
  · intro i; rw [spid i, tpid i]; exact h.pid i
  · intro i; rw [spid i]; exact h.pids i
  · intro i h6
    rw [sstat i]
    split
    · decide
    · exact h.free i h6
  · intro r2 h2
    rw [sr] at h2
    have : n1 = r2 := by simpa using h2
    rw [← this]; exact h.nlow n1 hsn
  · intro r2 h2
    rw [sn] at h2
    have : n1 = r2 := by simpa using h2
    rw [← this]; exact h.nlow n1 hsn
  · intro k hk
    rw [sk] at hk
    exact h.klow k hk

theorem agree_yield (s t : State) (h : Agree s t) (M : Nat) (hM : 6 ≤ M) (cpu cpu2 : Regs)
    (t2 : State) (ht : yield 6 cpu2 t = .ok t2) :
    ∃ s2, yield M cpu s = .ok s2 ∧ Agree s2 t2 := by
  cases htr : t.running with
  | none => simp only [yield, htr] at ht; exact absurd ht (by simp)
  | some r =>
    have hsr : s.running = some r := by rw [h.running]; exact htr
    simp only [yield, htr] at ht
    simp only [yield, hsr]
    have h1 : Agree
        (if (s.processes r).type = proc_type_t.KERNEL then (schedule M s).2 else s)
        (if (t.processes r).type = proc_type_t.KERNEL then (schedule 6 t).2 else t) := by
      rw [h.type r]
      split
      · exact (agree_schedule s t h M hM).2
      · exact h
    have h2 := agree_setStatus _ _ h1 r (h.rlow r hsr) proc_status_t.READY
    have h3 := (agree_schedule _ _ h2 M hM).2
    exact agree_contextswitch _ _ h3 cpu cpu2 t2 ht

theorem agree_exit (s t : State) (h : Agree s t) (cpu cpu2 : Regs)
    (t2 : State) (ht : exit cpu2 t = .ok t2) :
    ∃ s2, exit cpu s = .ok s2 ∧ Agree s2 t2 := by
  cases htr : t.running with
  | none => simp only [exit, htr] at ht; exact absurd ht (by simp)
  | some r =>
    have hsr : s.running = some r := by rw [h.running]; exact htr
    have h1 := agree_setStatus s t h r (h.rlow r hsr) proc_status_t.TERMINATED
    have h2 : Agree
        { setStatus s r proc_status_t.TERMINATED with
            next := (setStatus s r proc_status_t.TERMINATED).kernel }
        { setStatus t r proc_status_t.TERMINATED with
            next := (setStatus t r proc_status_t.TERMINATED).kernel } :=
      { running := h1.running, next := h1.kernel, kernel := h1.kernel, status := h1.status,
        type := h1.type, pid := h1.pid, pids := h1.pids, free := h1.free, rlow := h1.rlow,
        nlow := h1.klow, klow := h1.klow }
    simp only [exit, htr] at ht
    simp only [exit, hsr]
    rw [h1.type r]
    by_cases hu : ((setStatus t r proc_status_t.TERMINATED).processes r).type
        = proc_type_t.USER
    · rw [if_pos hu] at ht ⊢
      exact agree_contextswitch _ _ h2 cpu cpu2 t2 ht
    · rw [if_neg hu] at ht ⊢
      have e : setStatus t r proc_status_t.TERMINATED = t2 := by simpa using ht
      rw [← e]
      exact ⟨_, rfl, h1⟩

theorem agree_step (m n : Machine) (h : MachineAgree m n) (M : Nat) (hM : 6 ≤ M)
    (cpu cpu2 : Regs) (n2 : Machine) (hn : step 6 cpu2 n = .ok n2) :
    ∃ m2, step M cpu m = .ok m2 ∧ MachineAgree m2 n2 := by
  cases hnr : n.sched.running with
  | none => simp only [step, hnr] at hn; exact absurd hn (by simp)
  | some r =>
    have hmr : m.sched.running = some r := by rw [h.sched.running]; exact hnr
    simp only [step, hnr] at hn
    simp only [step, hmr]
    rw [h.sched.kernel, agree_count _ _ h.sched M hM, h.code, h.out]
    by_cases hk : n.sched.kernel = some r
    · rw [if_pos hk] at hn ⊢
      by_cases hc : ready_process_count 6 n.sched > 0
      · rw [if_pos hc] at hn ⊢
        cases hy : yield 6 cpu2 n.sched with
        | error e => rw [hy] at hn; exact absurd hn (by simp)
        | ok t2 =>
          rw [hy] at hn
          obtain ⟨s2, hs2, ha⟩ := agree_yield _ _ h.sched M hM cpu cpu2 t2 hy
          rw [hs2]
          have e := Except.ok.inj hn
          subst e
          exact ⟨_, rfl, ⟨ha, rfl, rfl, h.halted⟩⟩
      · rw [if_neg hc] at hn ⊢
        have e := Except.ok.inj hn
        subst e
        exact ⟨_, rfl, ⟨h.sched, rfl, rfl, rfl⟩⟩
    · rw [if_neg hk] at hn ⊢
      cases hcode : n.code r with
      | nil => rw [hcode] at hn; exact absurd hn (by simp)
      | cons st rest =>
        rw [hcode] at hn
        cases st with
        | printf text =>
          have e := Except.ok.inj hn
          subst e
          exact ⟨_, rfl, ⟨h.sched, rfl, rfl, h.halted⟩⟩
        | yield =>
          simp only at hn ⊢
          cases hy : yield 6 cpu2 n.sched with
          | error e => rw [hy] at hn; exact absurd hn (by simp)
          | ok t2 =>
            rw [hy] at hn
            obtain ⟨s2, hs2, ha⟩ := agree_yield _ _ h.sched M hM cpu cpu2 t2 hy
            rw [hs2]
            have e := Except.ok.inj hn
            subst e
            exact ⟨_, rfl, ⟨ha, rfl, rfl, h.halted⟩⟩
        | exit =>
          simp only at hn ⊢
          cases hy : exit cpu2 n.sched with
          | error e => rw [hy] at hn; exact absurd hn (by simp)
          | ok t2 =>
            rw [hy] at hn
            obtain ⟨s2, hs2, ha⟩ := agree_exit _ _ h.sched cpu cpu2 t2 hy
            rw [hs2]
            have e := Except.ok.inj hn
            subst e
            exact ⟨_, rfl, ⟨ha, rfl, rfl, h.halted⟩⟩

theorem agree_run (M : Nat) (hM : 6 ≤ M) (cpu cpu2 : Regs) (fuel : Nat) :
    ∀ m n n2, MachineAgree m n → run 6 cpu2 fuel n = .ok n2 →
      ∃ m2, run M cpu fuel m = .ok m2 ∧ MachineAgree m2 n2 := by
  induction fuel with
  | zero =>
    intro m n n2 h hn
    simp only [run] at hn ⊢
    rw [h.halted]
    by_cases hh : n.halted = true
    · rw [if_pos hh] at hn ⊢
      have e : n = n2 := by simpa using hn
      rw [← e]
      exact ⟨_, rfl, h⟩
    · rw [if_neg hh] at hn
      exact absurd hn (by simp)
  | succ fuel ih =>
    intro m n n2 h hn
    simp only [run] at hn ⊢
    rw [h.halted]
    by_cases hh : n.halted = true
    · rw [if_pos hh] at hn ⊢
      have e : n = n2 := by simpa using hn
      rw [← e]
      exact ⟨_, rfl, h⟩
    · rw [if_neg hh] at hn ⊢
      cases hs : step 6 cpu2 n with
      | error e => rw [hs] at hn; exact absurd hn (by simp)
      | ok n1 =>
        rw [hs] at hn
        obtain ⟨m1, hm1, ha⟩ := agree_step m n h M hM cpu cpu2 n1 hs
        rw [hm1]
        exact ih m1 n1 n2 ha hn

theorem run_more (M : Nat) (cpu : Regs) (fuel : Nat) :
    ∀ m m2 k, run M cpu fuel m = .ok m2 → run M cpu (fuel + k) m = .ok m2 := by
  induction fuel with
  | zero =>
    intro m m2 k h
    simp only [run] at h
    by_cases hh : m.halted = true
    · rw [if_pos hh] at h
      cases k with
      | zero => simp only [run, Nat.add_zero, if_pos hh]; exact h
      | succ k => simp only [run, Nat.zero_add, if_pos hh]; exact h
    · rw [if_neg hh] at h
      exact absurd h (by simp)
  | succ fuel ih =>
    intro m m2 k h
    have e : fuel + 1 + k = (fuel + k) + 1 := by omega
    rw [e]
    simp only [run] at h ⊢
    by_cases hh : m.halted = true
    · rw [if_pos hh] at h ⊢; exact h
    · rw [if_neg hh] at h ⊢
      cases hs : step M cpu m with
      | error e => rw [hs] at h; exact absurd h (by simp)
      | ok m1 =>
        rw [hs] at h
        exact ih m1 m2 k h

theorem created_of_six (M : Nat) (hM : 6 ≤ M) (entry : Nat → Nat) (uninit : proc_t) :
    created M entry (startkernel M uninit boot).2
      = created 6 entry (startkernel 6 uninit boot).2 := by
  have h0 : ¬ (0 ≥ M) := by omega
  have h1 : ¬ (1 ≥ M) := by omega
  have h2 : ¬ (2 ≥ M) := by omega
  have h3 : ¬ (3 ≥ M) := by omega
  have h4 : ¬ (4 ≥ M) := by omega
  have h5 : ¬ (5 ≥ M) := by omega
  simp [created, spawn, createproc, startkernel, boot, h0, h1, h2, h3, h4, h5]

theorem created_six (entry : Nat → Nat) (uninit : proc_t) :
    created 6 entry (startkernel 6 uninit boot).2 =
      { sched :=
          { processes :=
              upd (upd (upd (upd (upd (upd (fun _ => zeroProc) 0
                { uninit with status := proc_status_t.RUNNING, type := proc_type_t.KERNEL,
                              pid := 0 })
                1 { status := proc_status_t.READY, type := proc_type_t.USER,
                    esp := 0x10000, ebp := 0x10000, eip := entry 0, pid := 1 })
                2 { status := proc_status_t.READY, type := proc_type_t.USER,
                    esp := 0x11000, ebp := 0x11000, eip := entry 1, pid := 2 })
                3 { status := proc_status_t.READY, type := proc_type_t.USER,
                    esp := 0x12000, ebp := 0x12000, eip := entry 2, pid := 3 })
                4 { status := proc_status_t.READY, type := proc_type_t.USER,
                    esp := 0x13000, ebp := 0x13000, eip := entry 3, pid := 4 })
                5 { status := proc_status_t.READY, type := proc_type_t.USER,
                    esp := 0x14000, ebp := 0x14000, eip := entry 4, pid := 5 },
            process_index := 6, prev := none, running := some 0, next := some 5,
            kernel := some 0 },
        code := upd (upd (upd (upd (upd (fun _ => []) 1 proca) 2 procb) 3 procc) 4 procd)
          5 proce,
        out := ["Kernel Process Started\n"],
        halted := false } := by
  simp [created, spawn, createproc, startkernel, boot]

theorem agree_created (entry entry2 : Nat → Nat) (uninit uninit2 : proc_t) :
    MachineAgree (created 6 entry (startkernel 6 uninit boot).2)
      (created 6 entry2 (startkernel 6 uninit2 boot).2) := by
  rw [created_six, created_six]
  refine ⟨?_, rfl, rfl, rfl⟩
  constructor
  · rfl
  · rfl
  · rfl
  · intro i
    simp only [upd]
    split_ifs <;> rfl
  · intro i
    simp only [upd]
    split_ifs <;> rfl
  · intro i
    simp only [upd]
    split_ifs <;> rfl
  · intro i
    simp only [upd]
    split_ifs <;> simp [zeroProc]
  · intro i h6
    have h0 : i ≠ 0 := by omega
    have h1 : i ≠ 1 := by omega
    have h2 : i ≠ 2 := by omega
    have h3 : i ≠ 3 := by omega
    have h4 : i ≠ 4 := by omega
    have h5 : i ≠ 5 := by omega
    simp [upd, zeroProc, h0, h1, h2, h3, h4, h5]
  · intro r hr
    have : (0 : Nat) = r := by simpa using hr
    omega
  · intro r hr
    have : (5 : Nat) = r := by simpa using hr
    omega
  · intro r hr
    have : (0 : Nat) = r := by simpa using hr
    omega

set_option maxRecDepth 100000 in
theorem prockernel_six :
    outcome (prockernel 6 (fun k => 0x1000 * (k + 1)) ⟨0, 0, 0⟩ 30
        (Multitasking.startkernel 6 Multitasking.zeroProc Multitasking.boot).2)
      = some (["Kernel Process Started\n", "A", "B", "C", "D", "E", "B", "C", "D", "E",
          "C", "D", "C", "\nKernel Process Terminated\n"],
        [.TERMINATED, .TERMINATED, .TERMINATED, .TERMINATED, .TERMINATED], true) := by
  rfl

/-- C15: with room for the five user processes (`MAX_PROCS ≥ 6`), whatever the
process functions' addresses, the registers the trap saves and the contents
of the kernel's uninitialised record, the Project-4 kernel body run for 30
actions or more returns; the texts printed are the start message, then the
letters A B C D E B C D E C D C (so they begin with ABCDE, with A once, B
twice, C four times, D three times and E twice), then the termination message;
and at the end the five user records are TERMINATED. -/
theorem prockernel_trace (M : Nat) (hM : 6 ≤ M) (uninit : proc_t) (entry : Nat → Nat)
    (cpu : Regs) (fuel : Nat) (hf : 30 ≤ fuel) :
    ∃ m, prockernel M entry cpu fuel (startkernel M uninit boot).2 = .ok m ∧
      m.out = ["Kernel Process Started\n", "A", "B", "C", "D", "E", "B", "C", "D", "E",
        "C", "D", "C", "\nKernel Process Terminated\n"] ∧
      (m.out.drop 1).take 5 = ["A", "B", "C", "D", "E"] ∧
      (m.out.count "A" = 1 ∧ m.out.count "B" = 2 ∧ m.out.count "C" = 4 ∧
        m.out.count "D" = 3 ∧ m.out.count "E" = 2) ∧
      m.out.getLast? = some "\nKernel Process Terminated\n" ∧
      m.halted = true ∧
      ∀ i, 1 ≤ i → i ≤ 5 → (m.sched.processes i).status = proc_status_t.TERMINATED := by
  have href := prockernel_six
  cases hr : prockernel 6 (fun k => 0x1000 * (k + 1)) ⟨0, 0, 0⟩ 30
      (startkernel 6 zeroProc boot).2 with
  | error e => rw [hr] at href; simp [outcome] at href
  | ok n2 =>
    rw [hr] at href
    simp only [outcome, Option.some.injEq, Prod.mk.injEq] at href
    obtain ⟨hout, hst, hh⟩ := href
    unfold prockernel at hr
    obtain ⟨m2, hm2, ha⟩ := agree_run M hM cpu ⟨0, 0, 0⟩ 30 _ _ n2
      (agree_created entry (fun k => 0x1000 * (k + 1)) uninit zeroProc) hr
    have hmore := run_more M cpu 30 _ m2 (fuel - 30) hm2
    have e : 30 + (fuel - 30) = fuel := by omega
    rw [e] at hmore
    have hout2 : m2.out = ["Kernel Process Started\n", "A", "B", "C", "D", "E", "B", "C",
        "D", "E", "C", "D", "C", "\nKernel Process Terminated\n"] := by
      rw [ha.out]; exact hout
    refine ⟨m2, ?_, hout2, ?_, ?_, ?_, ?_, ?_⟩
    · unfold prockernel
      rw [created_of_six M hM]
      exact hmore
    · rw [hout2]; rfl
    · rw [hout2]; decide
    · rw [hout2]; rfl
    · rw [ha.halted]; exact hh
    · intro i h1 h5
      rw [ha.sched.status i]
      simp [List.range'] at hst
      obtain ⟨e1, e2, e3, e4, e5⟩ := hst
      interval_cases i
      · exact e1
      · exact e2
      · exact e3
      · exact e4
      · exact e5

theorem prockernel_trace_witness :
    (6 ≤ 16 ∧ 30 ≤ 30) ∧
    ∃ m, prockernel 16 (fun k => 0x1000 * (k + 1)) ⟨0, 0, 0⟩ 30
        (startkernel 16 zeroProc boot).2 = .ok m ∧
      m.out = ["Kernel Process Started\n", "A", "B", "C", "D", "E", "B", "C", "D", "E",
        "C", "D", "C", "\nKernel Process Terminated\n"] ∧
      (m.out.drop 1).take 5 = ["A", "B", "C", "D", "E"] ∧
      (m.out.count "A" = 1 ∧ m.out.count "B" = 2 ∧ m.out.count "C" = 4 ∧
        m.out.count "D" = 3 ∧ m.out.count "E" = 2) ∧
      m.out.getLast? = some "\nKernel Process Terminated\n" ∧
      m.halted = true ∧
      ∀ i, 1 ≤ i → i ≤ 5 → (m.sched.processes i).status = proc_status_t.TERMINATED :=
  ⟨⟨by decide, by decide⟩,
    prockernel_trace 16 (by decide) zeroProc (fun k => 0x1000 * (k + 1)) ⟨0, 0, 0⟩ 30
      (by decide)⟩

end Kernel

/-! ## fat.c: bytes of the open file, createFile, deleteFile, the two FAT copies -/

namespace Fat

/-- C17: with a file open (`directoryEntry` set), `readByte` at any index
`i ≥ fileSize`, `i = fileSize` included, returns 254, which is `-2` truncated
to 8 bits, and leaves the whole state (cursor, staging bytes, `fileSize`) as it
was. -/
theorem readByte_at_end (s : State) (e i : Nat) (he : s.directoryEntry = some e)
    (hi : (s.dir e).fileSize ≤ i) :
    readByte s i = .ok (254, s) ∧ ((-2 : Int) % 2 ^ 8).toNat = 254 ∧
    readByte s (s.dir e).fileSize = .ok (254, s) := by
  refine ⟨?_, by decide, ?_⟩
  · simp only [readByte, he, ge_iff_le, if_pos hi]
  · simp only [readByte, he, ge_iff_le, if_pos (Nat.le_refl _)]

theorem readByte_at_end_witness :
    (helloOpened.directoryEntry = some 0 ∧ (helloOpened.dir 0).fileSize ≤ 512) ∧
    (readByte helloOpened 512 = .ok (254, helloOpened) ∧ ((-2 : Int) % 2 ^ 8).toNat = 254 ∧
      readByte helloOpened (helloOpened.dir 0).fileSize = .ok (254, helloOpened)) :=
  ⟨⟨rfl, by decide⟩, readByte_at_end helloOpened 0 512 rfl (by decide)⟩

/-- C20: when some entry of the current directory is free (first name byte 0)
and some cluster in 2..2303 is 0 in both FATs, `createFile` returns 0; it takes
the lowest-indexed free entry `j` and the least cluster `c` that is 0 in both
FATs, sets the entry's `startingCluster` to `c` and its `fileSize` to 512,
sets `FAT0[c]` and `FAT1[c]` to 0xFFFF, changes no other FAT entry and no
other directory entry, and leaves the file session closed. -/
theorem createFile_first_free (L : Layout) (s : State) (filename ext : Nat → Nat)
    (hd : ∃ i, i < 16 ∧ (s.dir i).filename 0 = 0)
    (hf : ∃ c, 2 ≤ c ∧ c < 2304 ∧ s.fat0 c = 0 ∧ s.fat1 c = 0) :
    ∃ j c,
      (j < 16 ∧ (s.dir j).filename 0 = 0 ∧ ∀ i, i < j → (s.dir i).filename 0 ≠ 0) ∧
      (2 ≤ c ∧ c < 2304 ∧ s.fat0 c = 0 ∧ s.fat1 c = 0 ∧
        ∀ d, 2 ≤ d → d < c → ¬ (s.fat0 d = 0 ∧ s.fat1 d = 0)) ∧
      (createFile L s filename ext).1 = 0 ∧
      ((createFile L s filename ext).2.dir j).startingCluster = c ∧
      ((createFile L s filename ext).2.dir j).fileSize = 512 ∧
      ((createFile L s filename ext).2.dir j).filename
        = stringcopy filename (s.dir j).filename 8 ∧
      ((createFile L s filename ext).2.dir j).ext = stringcopy ext (s.dir j).ext 3 ∧
      (createFile L s filename ext).2.fat0 c = 0xFFFF ∧
      (createFile L s filename ext).2.fat1 c = 0xFFFF ∧
      (∀ d, d ≠ c → (createFile L s filename ext).2.fat0 d = s.fat0 d ∧
        (createFile L s filename ext).2.fat1 d = s.fat1 d) ∧
      (∀ i, i ≠ j → (createFile L s filename ext).2.dir i = s.dir i) ∧
      (createFile L s filename ext).2.isOpened = false := by
  obtain ⟨i0, hi0, hfree⟩ := hd
  obtain ⟨c0, hc2, hc3, hz0, hz1⟩ := hf
  have hjle := findFrom_le_of_hit (fun i => (s.dir i).filename 0 == 0) 16 0 i0
    (Nat.zero_le _) (by simp [hfree])
  have hj16 : findFrom (fun i => (s.dir i).filename 0 == 0) 0 16 < 16 := by omega
  have hjhit := findFrom_hit (fun i => (s.dir i).filename 0 == 0) 16 0 (by omega)
  have hcle := findFrom_le_of_hit (fun c => s.fat0 c == 0 && s.fat1 c == 0) 2302 2 c0
    hc2 (by simp [hz0, hz1])
  have hcge := findFrom_ge (fun c => s.fat0 c == 0 && s.fat1 c == 0) 2302 2
  have hc2304 : findFrom (fun c => s.fat0 c == 0 && s.fat1 c == 0) 2 2302 < 2304 := by omega
  have hchit := findFrom_hit (fun c => s.fat0 c == 0 && s.fat1 c == 0) 2302 2 (by omega)
  obtain ⟨r0, rop, rf0, rf1, _, rdir⟩ := createFile_spec L s filename ext _ _ rfl hj16 rfl hc2304
  have hcz : s.fat0 (findFrom (fun c => s.fat0 c == 0 && s.fat1 c == 0) 2 2302) = 0 ∧
      s.fat1 (findFrom (fun c => s.fat0 c == 0 && s.fat1 c == 0) 2 2302) = 0 := by
    simpa using hchit
  refine ⟨_, _, ⟨hj16, by simpa using hjhit, ?_⟩, ⟨hcge, hc2304, hcz.1, hcz.2, ?_⟩, r0, ?_, ?_,
    ?_, ?_, ?_, ?_, ?_, ?_, rop⟩
  · intro i hi
    have := findFrom_before (fun i => (s.dir i).filename 0 == 0) 16 0 i (Nat.zero_le _) hi
    simpa using this
  · intro d hd2 hdc hboth
    have := findFrom_before (fun c => s.fat0 c == 0 && s.fat1 c == 0) 2302 2 d hd2 hdc
    simp [hboth.1, hboth.2] at this
  · rw [rdir, upd_same]
  · rw [rdir, upd_same]
  · rw [rdir, upd_same]
  · rw [rdir, upd_same]
  · rw [rf0, upd_same]
  · rw [rf1, upd_same]
  · intro d hdne
    rw [rf0, rf1, upd_other _ _ _ _ hdne, upd_other _ _ _ _ hdne]
    exact ⟨rfl, rfl⟩
  · intro i hine
    rw [rdir, upd_other _ _ _ _ hine]

theorem createFile_first_free_witness :
    ((∃ i, i < 16 ∧ (freshVolume.dir i).filename 0 = 0) ∧
      (∃ c, 2 ≤ c ∧ c < 2304 ∧ freshVolume.fat0 c = 0 ∧ freshVolume.fat1 c = 0)) ∧
    ∃ j c,
      (j < 16 ∧ (freshVolume.dir j).filename 0 = 0 ∧
        ∀ i, i < j → (freshVolume.dir i).filename 0 ≠ 0) ∧
      (2 ≤ c ∧ c < 2304 ∧ freshVolume.fat0 c = 0 ∧ freshVolume.fat1 c = 0 ∧
        ∀ d, 2 ≤ d → d < c → ¬ (freshVolume.fat0 d = 0 ∧ freshVolume.fat1 d = 0)) ∧
      (createFile dosLayout freshVolume HELLO TXT).1 = 0 ∧
      ((createFile dosLayout freshVolume HELLO TXT).2.dir j).startingCluster = c ∧
      ((createFile dosLayout freshVolume HELLO TXT).2.dir j).fileSize = 512 ∧
      ((createFile dosLayout freshVolume HELLO TXT).2.dir j).filename
        = stringcopy HELLO (freshVolume.dir j).filename 8 ∧
      ((createFile dosLayout freshVolume HELLO TXT).2.dir j).ext
        = stringcopy TXT (freshVolume.dir j).ext 3 ∧
      (createFile dosLayout freshVolume HELLO TXT).2.fat0 c = 0xFFFF ∧
      (createFile dosLayout freshVolume HELLO TXT).2.fat1 c = 0xFFFF ∧
      (∀ d, d ≠ c → (createFile dosLayout freshVolume HELLO TXT).2.fat0 d = freshVolume.fat0 d ∧
        (createFile dosLayout freshVolume HELLO TXT).2.fat1 d = freshVolume.fat1 d) ∧
      (∀ i, i ≠ j → (createFile dosLayout freshVolume HELLO TXT).2.dir i = freshVolume.dir i) ∧
      (createFile dosLayout freshVolume HELLO TXT).2.isOpened = false :=
  ⟨⟨⟨0, by decide, rfl⟩, ⟨2, by decide, by decide, rfl, rfl⟩⟩,
    createFile_first_free dosLayout freshVolume HELLO TXT ⟨0, by decide, rfl⟩
      ⟨2, by decide, by decide, rfl, rfl⟩⟩

theorem createFile_no_entry (L : Layout) (s : State) (filename ext : Nat → Nat)
    (h : ∀ i, i < 16 → (s.dir i).filename 0 ≠ 0) :
    createFile L s filename ext = (-1, s) := by
  have hf : findFrom (fun i => (s.dir i).filename 0 == 0) 0 16 = 16 := by
    have := findFrom_none (fun i => (s.dir i).filename 0 == 0) 16 0
      (fun i _ hi => by simpa using h i (by omega))
    simpa using this
  simp [createFile, hf]

theorem createFile_entry (L : Layout) (s : State) (filename ext : Nat → Nat) (j : Nat)
    (hj : findFrom (fun i => (s.dir i).filename 0 == 0) 0 16 = j) (hj16 : j < 16) :
    (createFile L s filename ext).1 = 0 ∧
    (∀ i, i ≠ j → (createFile L s filename ext).2.dir i = s.dir i) ∧
    ((createFile L s filename ext).2.dir j).filename
      = stringcopy filename (s.dir j).filename 8 ∧
    ((createFile L s filename ext).2.dir j).ext = stringcopy ext (s.dir j).ext 3 := by
  simp only [createFile, hj, hj16, if_true, flushDirFats, floppy_write]
  refine ⟨trivial, ?_, ?_, ?_⟩
  · intro i hi
    split
    · simp only [upd_upd_same]; exact upd_other _ _ _ _ hi
    · exact upd_other _ _ _ _ hi
  · split
    · simp only [upd_same]
    · simp only [upd_same]
  · split
    · simp only [upd_same]
    · simp only [upd_same]

theorem createFile_free_slot (s : State) (h : ∃ i, i < 16 ∧ (s.dir i).filename 0 = 0) :
    findFrom (fun i => (s.dir i).filename 0 == 0) 0 16 < 16 ∧
    (s.dir (findFrom (fun i => (s.dir i).filename 0 == 0) 0 16)).filename 0 = 0 ∧
    ∀ i, i < findFrom (fun i => (s.dir i).filename 0 == 0) 0 16 →
      (s.dir i).filename 0 ≠ 0 := by
  obtain ⟨i0, hi0, hfree⟩ := h
  have hle := findFrom_le_of_hit (fun i => (s.dir i).filename 0 == 0) 16 0 i0
    (Nat.zero_le _) (by simp [hfree])
  have hhit := findFrom_hit (fun i => (s.dir i).filename 0 == 0) 16 0 (by omega)
  refine ⟨by omega, by simpa using hhit, ?_⟩
  intro i hi
  have := findFrom_before (fun i => (s.dir i).filename 0 == 0) 16 0 i (Nat.zero_le _) hi
  simpa using this

theorem createFileTimes_full (L : Layout) (names : Nat → (Nat → Nat) × (Nat → Nat)) (m : Nat) :
    ∀ k s, (∀ i, i < 16 → (s.dir i).filename 0 ≠ 0) →
      createFileTimes L names m k s = (List.replicate m (-1), s) := by
  induction m with
  | zero => intro k s _; rfl
  | succ m ih =>
    intro k s h
    simp only [createFileTimes, createFile_no_entry L s _ _ h, ih (k + 1) s h]
    rfl

theorem createFileTimes_fill (L : Layout) (names : Nat → (Nat → Nat) × (Nat → Nat)) (m n : Nat) :
    ∀ k s, k + n = 16 →
      (∀ i, i < 16 → ((s.dir i).filename 0 = 0 ↔ k ≤ i)) →
      (∀ i, k ≤ i → i < 16 → (names i).1 0 ≠ 0) →
      (createFileTimes L names (n + m) k s).1
        = List.replicate n 0 ++ List.replicate m (-1) := by
  induction n with
  | zero =>
    intro k s hk hP _
    rw [Nat.zero_add, createFileTimes_full L names m k s (fun i hi h0 => by
      have := (hP i hi).1 h0
      omega)]
    rfl
  | succ n ih =>
    intro k s hk hP hnames
    have hj : findFrom (fun i => (s.dir i).filename 0 == 0) 0 16 = k :=
      findFrom_eq_of_first _ 16 0 k (Nat.zero_le _) (by omega)
        (by simpa using (hP k (by omega)).2 (Nat.le_refl _))
        (fun i _ hi => by
          have h1 : ¬ (s.dir i).filename 0 = 0 := fun h0 => by
            have := (hP i (by omega)).1 h0
            omega
          simpa using h1)
    obtain ⟨hret, hother, hname, _⟩ :=
      createFile_entry L s (names k).1 (names k).2 k hj (by omega)
    have e : n + 1 + m = (n + m) + 1 := by omega
    rw [e]
    simp only [createFileTimes, hret]
    rw [ih (k + 1) _ (by omega) ?_ (fun i h1 h2 => hnames i (by omega) h2)]
    · rfl
    · intro i hi
      by_cases hik : i = k
      · subst hik
        rw [hname]
        have h0 : stringcopy (names i).1 (s.dir i).filename 8 0 = (names i).1 0 := by
          simp only [stringcopy, if_pos (by decide : 0 < 8)]
          exact scrub_first _ _
        rw [h0]
        constructor
        · intro h; exact absurd h (hnames i (Nat.le_refl _) hi)
        · intro h; omega
      · rw [hother i hik]
        constructor
        · intro h; have := (hP i hi).1 h; omega
        · intro h; exact (hP i hi).2 (by omega)

/-- C21: `createFile` returns -1 exactly when none of the 16 entries of the
current directory has first name byte 0, and then it leaves the whole state
(directory, both FATs, file session) as it was; otherwise it returns 0.  In
particular, from a directory whose 16 entries are all free, 16 consecutive
`createFile` calls with non-empty names return 0 and the 17th returns -1. -/
theorem createFile_fails_when_full (L : Layout) (s : State) (filename ext : Nat → Nat)
    (names : Nat → (Nat → Nat) × (Nat → Nat)) :
    ((createFile L s filename ext).1 = -1 ↔ ∀ i, i < 16 → (s.dir i).filename 0 ≠ 0) ∧
    ((createFile L s filename ext).1 = -1 → (createFile L s filename ext).2 = s) ∧
    ((createFile L s filename ext).1 ≠ -1 → (createFile L s filename ext).1 = 0) ∧
    ((∀ i, i < 16 → (s.dir i).filename 0 = 0) → (∀ k, k < 16 → (names k).1 0 ≠ 0) →
      (createFileTimes L names 17 0 s).1 = List.replicate 16 0 ++ [-1]) := by
  have hcase : (∀ i, i < 16 → (s.dir i).filename 0 ≠ 0) ∨
      ∃ i, i < 16 ∧ (s.dir i).filename 0 = 0 := by
    by_cases h : ∃ i, i < 16 ∧ (s.dir i).filename 0 = 0
    · exact Or.inr h
    · left
      intro i hi h0
      exact h ⟨i, hi, h0⟩
  refine ⟨?_, ?_, ?_, ?_⟩
  · rcases hcase with h | h
    · rw [createFile_no_entry L s filename ext h]
      exact ⟨fun _ => h, fun _ => rfl⟩
    · obtain ⟨hj16, _, _⟩ := createFile_free_slot s h
      obtain ⟨hret, _⟩ := createFile_entry L s filename ext _ rfl hj16
      rw [hret]
      constructor
      · intro h0; exact absurd h0 (by decide)
      · intro hall
        obtain ⟨i, hi, h0⟩ := h
        exact absurd h0 (hall i hi)
  · rcases hcase with h | h
    · intro _; rw [createFile_no_entry L s filename ext h]
    · obtain ⟨hj16, _, _⟩ := createFile_free_slot s h
      obtain ⟨hret, _⟩ := createFile_entry L s filename ext _ rfl hj16
      rw [hret]
      intro h0; exact absurd h0 (by decide)
  · rcases hcase with h | h
    · rw [createFile_no_entry L s filename ext h]
      intro h0; exact absurd rfl h0
    · obtain ⟨hj16, _, _⟩ := createFile_free_slot s h
      obtain ⟨hret, _⟩ := createFile_entry L s filename ext _ rfl hj16
      intro _; exact hret
  · intro hfree hnames
    exact createFileTimes_fill L names 1 16 0 s rfl
      (fun i hi => ⟨fun _ => Nat.zero_le _, fun _ => hfree i hi⟩)
      (fun i _ hi => hnames i hi)

theorem createFile_fails_when_full_witness :
    (createFileTimes dosLayout (fun _ => (HELLO, TXT)) 17 0 freshVolume).1
      = List.replicate 16 0 ++ [-1] :=
  (createFile_fails_when_full dosLayout freshVolume HELLO TXT (fun _ => (HELLO, TXT))).2.2.2
    (fun _ _ => rfl) (fun _ _ => by simp [HELLO, bytesOf])

theorem createFile_no_cluster (L : Layout) (s : State) (filename ext : Nat → Nat) (j : Nat)
    (hj : findFrom (fun i => (s.dir i).filename 0 == 0) 0 16 = j) (hj16 : j < 16)
    (hc : ∀ c, 2 ≤ c → c < 2304 → ¬ (s.fat0 c = 0 ∧ s.fat1 c = 0)) :
    (createFile L s filename ext).1 = 0 ∧
    (createFile L s filename ext).2.fat0 = s.fat0 ∧
    (createFile L s filename ext).2.fat1 = s.fat1 ∧
    (createFile L s filename ext).2.dir = upd s.dir j
      { s.dir j with filename := stringcopy filename (s.dir j).filename 8
                     ext := stringcopy ext (s.dir j).ext 3 } ∧
    (createFile L s filename ext).2.disk =
      (flushDirFats L { s with dir := upd s.dir j { s.dir j with
        filename := stringcopy filename (s.dir j).filename 8
        ext := stringcopy ext (s.dir j).ext 3 } }).disk := by
  have hcl : findFrom (fun c => s.fat0 c == 0 && s.fat1 c == 0) 2 2302 = 2304 := by
    have := findFrom_none (fun c => s.fat0 c == 0 && s.fat1 c == 0) 2302 2
      (fun c h1 h2 => by
        have := hc c h1 (by omega)
        by_cases h0 : s.fat0 c = 0
        · have h1 : ¬ s.fat1 c = 0 := fun h => this ⟨h0, h⟩
          simp [h0, h1]
        · simp [h0])
    simpa using this
  simp only [createFile, hj, hj16, if_true, hcl, flushDirFats, floppy_write]
  simp

/-- C22 fails on the code: on a volume with an empty directory and no free
cluster in either FAT copy, `createFile ("HELLO", "TXT")` returns 0, leaves
both FATs as they are, and claims directory entry 0 for the name (first byte
'H' = 72) while its `startingCluster` and `fileSize` stay 0; the entry is
also in the directory image written to the disk. -/
theorem createFile_claims_entry_without_cluster :
    (∀ c, 2 ≤ c → c < 2304 → ¬ (fullVolume.fat0 c = 0 ∧ fullVolume.fat1 c = 0)) ∧
    (fullVolume.dir 0).filename 0 = 0 ∧
    (createFile dosLayout fullVolume HELLO TXT).1 = 0 ∧
    (createFile dosLayout fullVolume HELLO TXT).2.fat0 = fullVolume.fat0 ∧
    (createFile dosLayout fullVolume HELLO TXT).2.fat1 = fullVolume.fat1 ∧
    ((createFile dosLayout fullVolume HELLO TXT).2.dir 0).filename 0 = 72 ∧
    ((createFile dosLayout fullVolume HELLO TXT).2.dir 0).startingCluster = 0 ∧
    ((createFile dosLayout fullVolume HELLO TXT).2.dir 0).fileSize = 0 ∧
    (createFile dosLayout fullVolume HELLO TXT).2.disk (512 * 19) = 72 := by
  have hfull : ∀ c, 2 ≤ c → c < 2304 →
      ¬ (fullVolume.fat0 c = 0 ∧ fullVolume.fat1 c = 0) := by
    intro c h1 _ h
    have hc : c ≠ 0 := by omega
    have := h.1
    simp [fullVolume, fullFat, hc] at this
  obtain ⟨hret, hf0, hf1, hdir, hdisk⟩ :=
    createFile_no_cluster dosLayout fullVolume HELLO TXT 0 rfl (by decide) hfull
  refine ⟨hfull, rfl, hret, hf0, hf1, ?_, ?_, ?_, ?_⟩
  · rw [hdir]; rfl
  · rw [hdir]; rfl
  · rw [hdir]; rfl
  · rw [hdisk]; rfl

theorem chain_step (fat : Nat → Nat) (n c : Nat) (l : List Nat)
    (h : chain fat (n + 1) c = some l) :
    (c = 0xFFFF ∧ l = []) ∨
    (c ≠ 0xFFFF ∧ ∃ rest, l = c :: rest ∧ chain fat n (fat c) = some rest) := by
  simp only [chain] at h
  by_cases hc : c = 0xFFFF
  · rw [if_pos hc] at h
    left
    exact ⟨hc, by simpa using h.symm⟩
  · rw [if_neg hc] at h
    right
    refine ⟨hc, ?_⟩
    cases hr : chain fat n (fat c) with
    | none => rw [hr] at h; simp at h
    | some rest =>
      rw [hr] at h
      exact ⟨rest, by simpa using h.symm, rfl⟩

theorem chain_det (fat : Nat → Nat) (n : Nat) :
    ∀ (m c : Nat) (l k : List Nat), chain fat n c = some l → chain fat m c = some k →
      l = k := by
  induction n with
  | zero => intro m c l k h; simp [chain] at h
  | succ n ih =>
    intro m c l k h1 h2
    cases m with
    | zero => simp [chain] at h2
    | succ m =>
      rcases chain_step fat n c l h1 with ⟨hc, hl⟩ | ⟨hc, r1, hl, hr1⟩
      · rcases chain_step fat m c k h2 with ⟨_, hk⟩ | ⟨hc2, _⟩
        · rw [hl, hk]
        · exact absurd hc hc2
      · rcases chain_step fat m c k h2 with ⟨hc2, _⟩ | ⟨_, r2, hk, hr2⟩
        · exact absurd hc2 hc
        · rw [hl, hk, ih m (fat c) r1 r2 hr1 hr2]

theorem chain_of_mem (fat : Nat → Nat) (n : Nat) :
    ∀ (c : Nat) (l : List Nat), chain fat n c = some l → ∀ x, x ∈ l →
      ∃ m k, chain fat m x = some k ∧ k.length ≤ l.length := by
  induction n with
  | zero => intro c l h; simp [chain] at h
  | succ n ih =>
    intro c l h x hx
    rcases chain_step fat n c l h with ⟨_, hl⟩ | ⟨_, rest, hl, hrest⟩
    · rw [hl] at hx; simp at hx
    · rw [hl] at hx
      rcases List.mem_cons.mp hx with hxc | hxr
      · exact ⟨n + 1, l, by rw [hxc]; exact h, Nat.le_refl _⟩
      · obtain ⟨m, k, hk, hlen⟩ := ih (fat c) rest hrest x hxr
        exact ⟨m, k, hk, by rw [hl]; simp only [List.length_cons]; omega⟩

theorem chain_head_fresh (fat : Nat → Nat) (n c : Nat) (rest : List Nat)
    (h : chain fat (n + 1) c = some (c :: rest))
    (hrest : chain fat n (fat c) = some rest) : c ∉ rest := by
  intro hmem
  obtain ⟨m, k, hk, hlen⟩ := chain_of_mem fat n (fat c) rest hrest c hmem
  have := chain_det fat (n + 1) m c (c :: rest) k h hk
  rw [← this] at hlen
  simp only [List.length_cons] at hlen
  omega

theorem chain_congr (fat fat2 : Nat → Nat) (n : Nat) :
    ∀ (c : Nat) (l : List Nat), chain fat n c = some l → (∀ x, x ∈ l → fat2 x = fat x) →
      chain fat2 n c = some l := by
  induction n with
  | zero => intro c l h; simp [chain] at h
  | succ n ih =>
    intro c l h hsame
    rcases chain_step fat n c l h with ⟨hc, hl⟩ | ⟨hc, rest, hl, hrest⟩
    · simp only [chain, if_pos hc, hl]
    · have hcc : fat2 c = fat c := hsame c (by rw [hl]; exact List.mem_cons_self _ _)
      have := ih (fat c) rest hrest
        (fun x hx => hsame x (by rw [hl]; exact List.mem_cons_of_mem _ hx))
      simp only [chain, if_neg hc, hcc, this, hl, Option.map_some']

theorem chain_no_end (fat : Nat → Nat) (n : Nat) :
    ∀ (c : Nat) (l : List Nat), chain fat n c = some l → ∀ x, x ∈ l → x ≠ 0xFFFF := by
  induction n with
  | zero => intro c l h; simp [chain] at h
  | succ n ih =>
    intro c l h x hx
    rcases chain_step fat n c l h with ⟨_, hl⟩ | ⟨hc, rest, hl, hrest⟩
    · rw [hl] at hx; simp at hx
    · rw [hl] at hx
      rcases List.mem_cons.mp hx with hxc | hxr
      · rw [hxc]; exact hc
      · exact ih (fat c) rest hrest x hxr

theorem deleteLoop_chain (n : Nat) :
    ∀ (s : State) (c : Nat) (l : List Nat), chain s.fat0 n c = some l →
      (∀ x, x ∈ l → x < 2304) →
      ∀ fuel, l.length < fuel →
        deleteLoop fuel s c = .ok
          { s with fat0 := fun x => if x ∈ l then 0 else s.fat0 x
                   fat1 := fun x => if x ∈ l then 0 else s.fat1 x } := by
  induction n with
  | zero => intro s c l h; simp [chain] at h
  | succ n ih =>
    intro s c l h htab fuel hfuel
    obtain ⟨f, rfl⟩ : ∃ f, fuel = f + 1 := ⟨fuel - 1, by omega⟩
    rcases chain_step s.fat0 n c l h with ⟨hc, hl⟩ | ⟨hc, rest, hl, hrest⟩
    · simp only [deleteLoop, if_pos hc, hl, List.not_mem_nil, if_false]
    · have hfresh : c ∉ rest := chain_head_fresh s.fat0 n c rest (by rw [← hl]; exact h) hrest
      have hct : c < 2304 := htab c (by rw [hl]; exact List.mem_cons_self _ _)
      have hch : chain (upd s.fat0 c 0) n (s.fat0 c) = some rest :=
        chain_congr s.fat0 (upd s.fat0 c 0) n (s.fat0 c) rest hrest
          (fun x hx => upd_other _ _ _ _ (fun hxc => hfresh (hxc ▸ hx)))
      have hlen : rest.length < f := by
        rw [hl] at hfuel; simp only [List.length_cons] at hfuel; omega
      have := ih { s with fat0 := upd s.fat0 c 0, fat1 := upd s.fat1 c 0 } (s.fat0 c) rest
        hch (fun x hx => htab x (by rw [hl]; exact List.mem_cons_of_mem _ hx)) f hlen
      simp only [deleteLoop, if_neg hc, loadCluster0_table s c hct, storeClusters_table s c 0 hct]
      rw [this]
      have e0 : (fun x => if x ∈ rest then 0 else upd s.fat0 c 0 x)
          = (fun x => if x ∈ l then 0 else s.fat0 x) := by
        funext x
        rw [hl]
        by_cases hx : x ∈ rest
        · rw [if_pos hx, if_pos (List.mem_cons_of_mem _ hx)]
        · rw [if_neg hx]
          by_cases hxc : x = c
          · rw [hxc, upd_same, if_pos (List.mem_cons_self _ _)]
          · rw [upd_other _ _ _ _ hxc, if_neg (by simp [hxc, hx])]
      have e1 : (fun x => if x ∈ rest then 0 else upd s.fat1 c 0 x)
          = (fun x => if x ∈ l then 0 else s.fat1 x) := by
        funext x
        rw [hl]
        by_cases hx : x ∈ rest
        · rw [if_pos hx, if_pos (List.mem_cons_of_mem _ hx)]
        · rw [if_neg hx]
          by_cases hxc : x = c
          · rw [hxc, upd_same, if_pos (List.mem_cons_self _ _)]
          · rw [upd_other _ _ _ _ hxc, if_neg (by simp [hxc, hx])]
      simp only [e0, e1]

theorem checkLoop_chain (fat0 fat1 : Nat → Nat) (fuel : Nat) :
    ∀ c, checkLoop fat0 fat1 fuel c = .ok true →
      ∃ l, chain fat0 fuel c = some l ∧ ∀ x, x ∈ l → fat0 x = fat1 x := by
  induction fuel with
  | zero => intro c h; simp [checkLoop] at h
  | succ fuel ih =>
    intro c h
    simp only [checkLoop] at h
    by_cases hc : c = 0xFFFF
    · exact ⟨[], by simp only [chain, if_pos hc], fun x hx => absurd hx (List.not_mem_nil x)⟩
    · rw [if_neg hc] at h
      by_cases hd : fat0 c ≠ fat1 c
      · rw [if_pos hd] at h; simp at h
      · rw [if_neg hd] at h
        obtain ⟨rest, hrest, hag⟩ := ih (fat0 c) h
        refine ⟨c :: rest, by simp only [chain, if_neg hc, hrest, Option.map_some'], ?_⟩
        intro x hx
        rcases List.mem_cons.mp hx with hxc | hxr
        · rw [hxc]; exact not_not.mp hd
        · exact hag x hxr

theorem readLoop_fields (fuel : Nat) :
    ∀ (s : State) (c k : Nat) (b : Bool) (t : State), readLoop fuel s c k = .ok (b, t) →
      t.fat0 = s.fat0 ∧ t.fat1 = s.fat1 ∧ t.dir = s.dir := by
  induction fuel with
  | zero => intro s c k b t h; simp [readLoop] at h
  | succ fuel ih =>
    intro s c k b t h
    simp only [readLoop] at h
    by_cases hc : c = 0xFFFF
    · rw [if_pos hc] at h
      have e : s = t := by
        have := Except.ok.inj h
        exact (Prod.mk.inj this).2
      rw [← e]
      exact ⟨rfl, rfl, rfl⟩
    · rw [if_neg hc] at h
      split at h
      · have e := (Prod.mk.inj (Except.ok.inj h)).2
        rw [← e]
        exact ⟨rfl, rfl, rfl⟩
      · obtain ⟨h0, h1, hd⟩ := ih _ _ _ b t h
        exact ⟨h0, h1, hd⟩

theorem deleteFile_chain (L : Layout) (s : State) (e n : Nat) (l : List Nat)
    (ho : s.isOpened = true) (he : s.directoryEntry = some e)
    (hchain : chain s.fat0 n (s.dir e).startingCluster = some l)
    (htab : ∀ x, x ∈ l → x < 2304)
    (fuel : Nat) (hfuel : l.length < fuel) :
    ∃ t, deleteFile L fuel s = .ok (0, t) ∧
      (∀ c, t.fat0 c = if c ∈ l then 0 else s.fat0 c) ∧
      (∀ c, t.fat1 c = if c ∈ l then 0 else s.fat1 c) ∧
      (t.dir e).filename 0 = 0 ∧
      (∀ i, i ≠ e → t.dir i = s.dir i) ∧
      t.isOpened = false := by
  have hd := deleteLoop_chain n s (s.dir e).startingCluster l hchain htab fuel hfuel
  simp only [deleteFile, ho, he, hd, flushDirFats, floppy_write]
  refine ⟨_, rfl, fun c => rfl, fun c => rfl, ?_, ?_, rfl⟩
  · simp only [upd_same]
  · intro i hi
    exact upd_other _ _ _ _ hi

theorem deleteFile_closed (L : Layout) (fuel : Nat) (u : State) (h : u.isOpened = false) :
    deleteFile L fuel u = .ok (-1, u) := by
  simp [deleteFile, h]

/-- C23, as amended: let `openFile` return 0 from a closed session, on a file
whose chain lies inside the tables (every cluster on it is below 2304).  Then
the chain of the entry it opened reaches 0xFFFF with both FATs agreeing on it,
and `deleteFile` (with fuel above the length of the chain) returns 0: both
FATs are 0 on exactly the clusters of the chain and as before everywhere else,
the first byte of the entry's filename is 0, the other entries are as before,
and the file is marked closed.  With no file open `deleteFile` returns -1 and
changes nothing. -/
theorem deleteFile_frees_chain (L : Layout) (fuel0 : Nat) (s0 s : State)
    (filename ext : Nat → Nat) (hclosed : s0.isOpened = false)
    (hopen : openFile fuel0 s0 filename ext = .ok (0, s))
    (htab : ∀ e l, s.directoryEntry = some e →
      chain s.fat0 fuel0 (s.dir e).startingCluster = some l → ∀ c, c ∈ l → c < 2304) :
    (∃ e l, s.directoryEntry = some e ∧
      chain s.fat0 fuel0 (s.dir e).startingCluster = some l ∧
      (∀ c, c ∈ l → s.fat0 c = s.fat1 c) ∧
      ∀ fuel, l.length < fuel →
        ∃ t, deleteFile L fuel s = .ok (0, t) ∧
          (∀ c, t.fat0 c = if c ∈ l then 0 else s.fat0 c) ∧
          (∀ c, t.fat1 c = if c ∈ l then 0 else s.fat1 c) ∧
          (t.dir e).filename 0 = 0 ∧
          (∀ i, i ≠ e → t.dir i = s.dir i) ∧
          t.isOpened = false) ∧
    (∀ u fuel, u.isOpened = false → deleteFile L fuel u = .ok (-1, u)) := by
  refine ⟨?_, fun u fuel hu => deleteFile_closed L fuel u hu⟩
  simp only [openFile, hclosed] at hopen
  simp only [Bool.false_eq_true, if_false] at hopen
  split at hopen
  · split at hopen
    · simp at hopen
    · simp at hopen
    · rename_i hc
      split at hopen
      · simp at hopen
      · simp at hopen
      · rename_i s1 hr
        simp only [Except.ok.injEq, Prod.mk.injEq, true_and] at hopen
        obtain ⟨h0, h1, hd⟩ := readLoop_fields fuel0 s0 _ 0 true s1 hr
        obtain ⟨l, hl, hag⟩ := checkLoop_chain s0.fat0 s0.fat1 fuel0 _ hc
        have hs0 : s.fat0 = s0.fat0 := by rw [← hopen]; exact h0
        have hs1 : s.fat1 = s0.fat1 := by rw [← hopen]; exact h1
        have hsd : s.dir = s0.dir := by rw [← hopen]; exact hd
        have hso : s.isOpened = true := by rw [← hopen]
        have hse : s.directoryEntry
            = some (findFrom (entryMatches s0.dir (scrub filename 8) (scrub ext 3)) 0 16) := by
          rw [← hopen]
        have hchain : chain s.fat0 fuel0
            (s.dir (findFrom (entryMatches s0.dir (scrub filename 8) (scrub ext 3)) 0
              16)).startingCluster = some l := by
          rw [hs0, hsd]; exact hl
        refine ⟨_, l, hse, hchain, ?_, ?_⟩
        · intro c hcl; rw [hs0, hs1]; exact hag c hcl
        · intro fuel hfuel
          exact deleteFile_chain L s _ fuel0 l hso hse hchain (htab _ l hse hchain) fuel hfuel
  · simp at hopen

theorem deleteFile_frees_chain_witness :
    (helloVolume.isOpened = false ∧ openFile 4 helloVolume HELLO TXT = .ok (0, helloLoaded) ∧
      (∀ e l, helloLoaded.directoryEntry = some e →
        chain helloLoaded.fat0 4 (helloLoaded.dir e).startingCluster = some l →
        ∀ c, c ∈ l → c < 2304)) ∧
    ((∃ e l, helloLoaded.directoryEntry = some e ∧
      chain helloLoaded.fat0 4 (helloLoaded.dir e).startingCluster = some l ∧
      (∀ c, c ∈ l → helloLoaded.fat0 c = helloLoaded.fat1 c) ∧
      ∀ fuel, l.length < fuel →
        ∃ t, deleteFile dosLayout fuel helloLoaded = .ok (0, t) ∧
          (∀ c, t.fat0 c = if c ∈ l then 0 else helloLoaded.fat0 c) ∧
          (∀ c, t.fat1 c = if c ∈ l then 0 else helloLoaded.fat1 c) ∧
          (t.dir e).filename 0 = 0 ∧
          (∀ i, i ≠ e → t.dir i = helloLoaded.dir i) ∧
          t.isOpened = false) ∧
    (∀ u fuel, u.isOpened = false → deleteFile dosLayout fuel u = .ok (-1, u))) :=
  have htab : ∀ e l, helloLoaded.directoryEntry = some e →
      chain helloLoaded.fat0 4 (helloLoaded.dir e).startingCluster = some l →
      ∀ c, c ∈ l → c < 2304 := by
    intro e l he hl c hc
    have he0 : e = 0 := (Option.some.inj he).symm
    subst he0
    have hl2 : some [2] = some l := hl
    have hl3 : l = [2] := (Option.some.inj hl2).symm
    subst hl3
    have hc2 : c = 2 := by simpa using hc
    omega
  ⟨⟨rfl, rfl, htab⟩,
    deleteFile_frees_chain dosLayout 4 helloVolume helloLoaded HELLO TXT rfl rfl htab⟩

set_option maxRecDepth 100000 in
/-- C23, as stated, fails on a chain that leaves the tables.  In `strayVolume`
the file of entry 0 starts at cluster 2305.  `openFile` returns 0: the words
that the index 2305 reaches in the two tables agree and are 0xFFFF, so the
chain is the one cluster 2305.  `deleteFile` then returns 0 and zeroes
`fat0->clusters[2305]`, which is slot 1 of FAT1, and `fat1->clusters[2305]`,
which is the bytes 2 and 3 of the name of directory entry 0: FAT1[1], which is
not on the chain, goes from 0xFFFF to 0, while FAT0[1] stays 0xFFFF. -/
theorem deleteFile_stray_chain :
    strayVolume.isOpened = false ∧
    openFile 4 strayVolume STRAY TXT = .ok (0, strayLoaded) ∧
    chain strayLoaded.fat0 4 (strayLoaded.dir 0).startingCluster = some [2305] ∧
    loadCluster0 strayLoaded 2305 = 0xFFFF ∧ loadCluster1 strayLoaded 2305 = 0xFFFF ∧
    strayLoaded.fat0 1 = 0xFFFF ∧ strayLoaded.fat1 1 = 0xFFFF ∧
    (strayLoaded.dir 0).filename 2 = 0xFF ∧ (strayLoaded.dir 0).filename 3 = 0xFF ∧
    (match deleteFile dosLayout 4 strayLoaded with
      | .ok (r, t) => some (r, t.fat0 1, t.fat1 1, (t.dir 0).filename 2, (t.dir 0).filename 3)
      | .error _ => none)
      = some (0, 0xFFFF, 0, 0, 0) := by
  refine ⟨rfl, rfl, rfl, rfl, rfl, rfl, rfl, rfl, rfl, ?_⟩
  rfl

end Fat

/-! ## fdc.c: the status decoding and the poll loops -/

namespace Fdc

theorem or_low_bit (a b : Nat) : (a ||| b) &&& 0x01 = 0 ↔ a &&& 0x01 = 0 ∧ b &&& 0x01 = 0 := by
  simp only [Nat.and_one_is_mod]
  have h := @Nat.or_mod_two_eq_one a b
  constructor
  · intro h0
    have hn : ¬ ((a ||| b) % 2 = 1) := by omega
    rw [h] at hn
    constructor <;> omega
  · intro h12
    have hn : ¬ ((a ||| b) % 2 = 1) := by rw [h]; omega
    omega

theorem decodeError_eq_one_iff (st0 st1 st2 : Nat) (hb : st1 &&& 0x02 = 0) :
    decodeError st0 st1 st2 = 1 ↔
      (st0 >>> 6 = 2 ∨ st0 >>> 6 = 3 ∨ st0 &&& 0x08 ≠ 0 ∨
       st1 &&& 0x80 ≠ 0 ∨ st1 &&& 0x20 ≠ 0 ∨ st1 &&& 0x10 ≠ 0 ∨ st1 &&& 0x04 ≠ 0 ∨
       st1 &&& 0x01 ≠ 0 ∨
       st2 &&& 0x40 ≠ 0 ∨ st2 &&& 0x20 ≠ 0 ∨ st2 &&& 0x10 ≠ 0 ∨ st2 &&& 0x04 ≠ 0 ∨
       st2 &&& 0x02 ≠ 0 ∨ st2 &&& 0x01 ≠ 0) := by
  have hle := decodeError_le_one st0 st1 st2 hb
  have hz := decodeError_eq_zero_iff st0 st1 st2
  have hlow := or_low_bit st1 st2
  constructor
  · intro h1
    by_contra hno
    simp only [not_or, not_not] at hno
    have : decodeError st0 st1 st2 = 0 :=
      hz.mpr ⟨hno.1, hno.2.1, hno.2.2.1, hno.2.2.2.1, hno.2.2.2.2.1, hno.2.2.2.2.2.1,
        hno.2.2.2.2.2.2.1, hb, hlow.mpr ⟨hno.2.2.2.2.2.2.2.1, hno.2.2.2.2.2.2.2.2.2.2.2.2.2⟩,
        hno.2.2.2.2.2.2.2.2.1, hno.2.2.2.2.2.2.2.2.2.1, hno.2.2.2.2.2.2.2.2.2.2.1,
        hno.2.2.2.2.2.2.2.2.2.2.2.1, hno.2.2.2.2.2.2.2.2.2.2.2.2.1⟩
    omega
  · intro hE
    have hne : decodeError st0 st1 st2 ≠ 0 := by
      intro h0
      obtain ⟨a1, a2, a3, a4, a5, a6, a7, _, a9, a10, a11, a12, a13, a14⟩ := hz.mp h0
      obtain ⟨l1, l2⟩ := hlow.mp a9
      rcases hE with h | h | h | h | h | h | h | h | h | h | h | h | h | h
      · exact a1 h
      · exact a2 h
      · exact h a3
      · exact h a4
      · exact h a5
      · exact h a6
      · exact h a7
      · exact h l1
      · exact h a10
      · exact h a11
      · exact h a12
      · exact h a13
      · exact h a14
      · exact h l2
    omega

theorem rwLoop_length_ge (replies : Nat → Reply) (cmd : RwCmd) (n : Nat) :
    ∀ issued : List RwCmd, issued.length ≤ (rwLoop replies cmd n issued).2.length := by
  induction n with
  | zero => intro issued; simp [rwLoop]
  | succ n ih =>
    intro issued
    simp only [rwLoop]
    split
    · simp
    · split
      · simp
      · have := ih (issued ++ [cmd])
        simp only [List.length_append, List.length_singleton] at this
        omega

theorem rwLoop_sends_one (replies : Nat → Reply) (cmd : RwCmd) (n : Nat) (issued : List RwCmd) :
    issued.length + 1 ≤ (rwLoop replies cmd (n + 1) issued).2.length := by
  simp only [rwLoop]
  split
  · simp
  · split
    · simp
    · have := rwLoop_length_ge replies cmd n (issued ++ [cmd])
      simp only [List.length_append, List.length_singleton] at this
      omega

theorem rwLoop_sends_next (replies : Nat → Reply) (cmd : RwCmd) (j : Nat) :
    ∀ (n : Nat) (issued : List RwCmd), j + 1 < n →
      (∀ i, i ≤ j → replyError (replies (issued.length + i)) = 1) →
      issued.length + j + 2 ≤ (rwLoop replies cmd n issued).2.length := by
  induction j with
  | zero =>
    intro n issued hn hretry
    obtain ⟨m, rfl⟩ : ∃ m, n = m + 2 := ⟨n - 2, by omega⟩
    have h1 : replyError (replies issued.length) = 1 := by simpa using hretry 0 (Nat.le_refl _)
    have e : rwLoop replies cmd (m + 2) issued = rwLoop replies cmd (m + 1) (issued ++ [cmd]) := by
      rw [show m + 2 = (m + 1) + 1 from rfl, rwLoop]
      simp only [h1, Nat.one_ne_zero, if_false, gt_iff_lt, Nat.lt_irrefl]
    rw [e]
    have := rwLoop_sends_one replies cmd m (issued ++ [cmd])
    simp only [List.length_append, List.length_singleton] at this
    omega
  | succ j ih =>
    intro n issued hn hretry
    obtain ⟨m, rfl⟩ : ∃ m, n = m + 1 := ⟨n - 1, by omega⟩
    have h1 : replyError (replies issued.length) = 1 := by simpa using hretry 0 (Nat.zero_le _)
    simp only [rwLoop, h1]
    simp only [Nat.one_ne_zero, if_false, gt_iff_lt, Nat.lt_irrefl]
    have := ih m (issued ++ [cmd]) (by omega) (fun i hi => by
      have := hretry (i + 1) (by omega)
      simpa [Nat.add_assoc, Nat.add_comm 1 i] using this)
    simp only [List.length_append, List.length_singleton] at this
    omega

/-- C24, as amended: let attempt `j < 20` of a call be reached (every earlier
attempt retryable) and let bit 0x02 of its ST1 be clear.  The attempt is
treated as a retryable failure exactly when the top two bits of ST0 are 10 or
11, or ST0 has bit 0x08, or ST1 has one of the bits 0x80, 0x20, 0x10, 0x04,
0x01, or ST2 has one of the bits 0x40, 0x20, 0x10, 0x04, 0x02, 0x01: then
`floppy_read` and `floppy_write` send a further command, or return -1 when it
was the 20th attempt.  With none of these set the attempt is a success: both
return 0 after `j + 1` commands. -/
theorem retryable_statuses (replies : Nat → Reply) (drive lba j : Nat) (hj : j < 20)
    (hprev : ∀ i, i < j → replyError (replies i) = 1)
    (hb : (replies j).st1 % 256 &&& 0x02 = 0) :
    (replyError (replies j) = 1 ↔
      retryBits ((replies j).st0 % 256) ((replies j).st1 % 256) ((replies j).st2 % 256)) ∧
    (replyError (replies j) = 0 ↔
      ¬ retryBits ((replies j).st0 % 256) ((replies j).st1 % 256) ((replies j).st2 % 256)) ∧
    (¬ retryBits ((replies j).st0 % 256) ((replies j).st1 % 256) ((replies j).st2 % 256) →
      (floppy_read replies drive lba).1 = 0 ∧
      (floppy_read replies drive lba).2.length = j + 1 ∧
      (floppy_write replies drive lba).1 = 0 ∧
      (floppy_write replies drive lba).2.length = j + 1) ∧
    (retryBits ((replies j).st0 % 256) ((replies j).st1 % 256) ((replies j).st2 % 256) →
      (j + 1 < 20 →
        j + 2 ≤ (floppy_read replies drive lba).2.length ∧
        j + 2 ≤ (floppy_write replies drive lba).2.length) ∧
      (j + 1 = 20 →
        (floppy_read replies drive lba).1 = -1 ∧
        (floppy_write replies drive lba).1 = -1)) := by
  have hone := decodeError_eq_one_iff ((replies j).st0 % 256) ((replies j).st1 % 256)
    ((replies j).st2 % 256) hb
  have hle := decodeError_le_one ((replies j).st0 % 256) ((replies j).st1 % 256)
    ((replies j).st2 % 256) hb
  have h1 : replyError (replies j) = 1 ↔
      retryBits ((replies j).st0 % 256) ((replies j).st1 % 256) ((replies j).st2 % 256) := by
    simp only [replyError, retryBits]; exact hone
  have h0 : replyError (replies j) = 0 ↔
      ¬ retryBits ((replies j).st0 % 256) ((replies j).st1 % 256)
        ((replies j).st2 % 256) := by
    rw [← h1]
    simp only [replyError] at hle ⊢
    omega
  refine ⟨h1, h0, ?_, ?_⟩
  · intro hno
    have hz := h0.mpr hno
    have hr := fun cmd => rwLoop_stop replies cmd 20 j [] hj
      (by simpa using hprev) (by simp only [List.length_nil, Nat.zero_add]; omega)
    simp only [List.length_nil, Nat.zero_add, List.nil_append] at hr
    simp only [floppy_read, floppy_write, hr, List.length_replicate, hz, if_true]
    exact ⟨trivial, trivial, trivial, trivial⟩
  · intro hE
    have he := h1.mpr hE
    constructor
    · intro hlt
      have hr := fun cmd => rwLoop_sends_next replies cmd j 20 [] hlt
        (fun i hi => by
          simp only [List.length_nil, Nat.zero_add]
          by_cases hij : i = j
          · rw [hij]; exact he
          · exact hprev i (by omega))
      simp only [List.length_nil, Nat.zero_add] at hr
      exact ⟨hr _, hr _⟩
    · intro h20
      have hr := fun cmd => rwLoop_exhaust replies cmd 20 []
        (fun i hi => by
          simp only [List.length_nil, Nat.zero_add]
          by_cases hij : i = j
          · rw [hij]; exact he
          · exact hprev i (by omega))
      simp only [floppy_read, floppy_write, hr]
      exact ⟨trivial, trivial⟩

theorem retryable_statuses_witness :
    (0 < 20 ∧
      (∀ i, i < 0 →
        replyError ((fun _ => ({ st0 := 0x20, st1 := 0, st2 := 0 } : Reply)) i) = 1) ∧
      ({ st0 := 0x20, st1 := 0, st2 := 0 } : Reply).st1 % 256 &&& 0x02 = 0) ∧
    ¬ retryBits (0x20 % 256) (0 % 256) (0 % 256) ∧
    (floppy_read (fun _ => { st0 := 0x20, st1 := 0, st2 := 0 }) 0 33).1 = 0 ∧
    (floppy_read (fun _ => { st0 := 0x20, st1 := 0, st2 := 0 }) 0 33).2.length = 1 :=
  have hno : ¬ retryBits (0x20 % 256) (0 % 256) (0 % 256) := by
    unfold retryBits; decide
  have h := retryable_statuses (fun _ => { st0 := 0x20, st1 := 0, st2 := 0 }) 0 33 0
    (by decide) (fun i hi => absurd hi (Nat.not_lt_zero i)) rfl
  ⟨⟨by decide, fun i hi => absurd hi (Nat.not_lt_zero i), rfl⟩, hno,
    (h.2.2.1 hno).1, (h.2.2.1 hno).2.1⟩

/-- C24, as stated, fails: the status triple ST0 = 0x40, ST1 = ST2 = 0 has
the top two bits of ST0 non-zero (01), so the claim counts it retryable, but
none of the tests of the code fires on it: `floppy_read` and `floppy_write`
return 0 after this one attempt. -/
theorem abnormal_termination_reported_as_success :
    claimedRetryBits 0x40 0 0 ∧ (0 : Nat) &&& 0x02 = 0 ∧
    replyError { st0 := 0x40, st1 := 0, st2 := 0 } = 0 ∧
    (floppy_read (fun _ => { st0 := 0x40, st1 := 0, st2 := 0 }) 0 33).1 = 0 ∧
    (floppy_read (fun _ => { st0 := 0x40, st1 := 0, st2 := 0 }) 0 33).2.length = 1 ∧
    (floppy_write (fun _ => { st0 := 0x40, st1 := 0, st2 := 0 }) 0 33).1 = 0 ∧
    (floppy_write (fun _ => { st0 := 0x40, st1 := 0, st2 := 0 }) 0 33).2.length = 1 :=
  ⟨Or.inl (by decide), by decide, by decide, by decide, by decide, by decide, by decide⟩

namespace Port

theorem floppy_write_cmd_loop_spec (n : Nat) :
    ∀ (p : Ports) (cmd : Nat),
      (floppy_write_cmd_loop n p cmd).msr = p.msr ∧
      (floppy_write_cmd_loop n p cmd).msrReads ≤ p.msrReads + n ∧
      ((∀ k, 0x80 &&& (p.msr k % 256) = 0) →
        (floppy_write_cmd_loop n p cmd).msrReads = p.msrReads + n ∧
        (floppy_write_cmd_loop n p cmd).sent = p.sent) := by
  induction n with
  | zero => intro p cmd; exact ⟨rfl, Nat.le_refl _, fun _ => ⟨rfl, rfl⟩⟩
  | succ n ih =>
    intro p cmd
    simp only [floppy_write_cmd_loop]
    split
    · rename_i hset
      refine ⟨rfl, ?_, ?_⟩
      · simp only; omega
      · intro hq; exact absurd (hq p.msrReads) hset
    · obtain ⟨h1, h2, h3⟩ := ih { p with msrReads := p.msrReads + 1 } cmd
      refine ⟨h1, ?_, ?_⟩
      · simp only at h2; omega
      · intro hq
        obtain ⟨h4, h5⟩ := h3 hq
        simp only at h4 h5
        exact ⟨by omega, h5⟩

theorem floppy_read_data_loop_spec (n : Nat) :
    ∀ (p : Ports),
      (floppy_read_data_loop n p).2.msr = p.msr ∧
      (floppy_read_data_loop n p).2.msrReads ≤ p.msrReads + n ∧
      ((∀ k, 0x80 &&& (p.msr k % 256) = 0) →
        (floppy_read_data_loop n p).1 = none ∧
        (floppy_read_data_loop n p).2.msrReads = p.msrReads + n) := by
  induction n with
  | zero => intro p; exact ⟨rfl, Nat.le_refl _, fun _ => ⟨rfl, rfl⟩⟩
  | succ n ih =>
    intro p
    simp only [floppy_read_data_loop]
    split
    · rename_i hset
      refine ⟨rfl, ?_, ?_⟩
      · simp only; omega
      · intro hq; exact absurd (hq p.msrReads) hset
    · obtain ⟨h1, h2, h3⟩ := ih { p with msrReads := p.msrReads + 1 }
      refine ⟨h1, ?_, ?_⟩
      · simp only at h2; omega
      · intro hq
        obtain ⟨h4, h5⟩ := h3 hq
        simp only at h5
        exact ⟨h4, by omega⟩

theorem floppy_write_cmd_msr (p : Ports) (cmd : Nat) : (floppy_write_cmd p cmd).msr = p.msr :=
  (floppy_write_cmd_loop_spec 600 p cmd).1

theorem waitLoop_never (ready : Nat → Bool) (hready : ∀ v, 0x80 &&& v = 0 → ready v = false)
    (fuel : Nat) :
    ∀ p : Ports, (∀ k, 0x80 &&& (p.msr k % 256) = 0) →
      waitLoop ready fuel p = .error Stop.outOfFuel := by
  induction fuel with
  | zero => intro p _; rfl
  | succ fuel ih =>
    intro p hq
    simp only [waitLoop, hready _ (hq p.msrReads)]
    exact ih { p with msrReads := p.msrReads + 1 } hq

theorem ready_sense (v : Nat) (h : 0x80 &&& v = 0) : (v &&& 0x80 != 0) = false := by
  rw [Nat.land_comm] at h
  simp [h]

theorem ready_rw (v : Nat) (h : 0x80 &&& v = 0) : decide ((v &&& 0x80) > 1) = false := by
  rw [Nat.land_comm] at h
  simp [h]

theorem floppy_sense_interrupt_never (fuel : Nat) (p : Ports)
    (hq : ∀ k, 0x80 &&& (p.msr k % 256) = 0) :
    floppy_sense_interrupt fuel p = .error Stop.outOfFuel := by
  simp only [floppy_sense_interrupt]
  rw [waitLoop_never _ ready_sense fuel _ (by rw [floppy_write_cmd_msr]; exact hq)]

theorem floppy_rw_command_never (fuel : Nat) (p : Ports)
    (hq : ∀ k, 0x80 &&& (p.msr k % 256) = 0) (drive head cyl sect EOT command : Nat) :
    floppy_rw_command fuel p drive head cyl sect EOT command = .error Stop.outOfFuel := by
  simp only [floppy_rw_command]
  rw [waitLoop_never _ ready_rw fuel _ (by simp only [floppy_write_cmd_msr]; exact hq)]

theorem rwLoop_never (fuel : Nat) (cmd : RwCmd) (n : Nat) (p : Ports)
    (hq : ∀ k, 0x80 &&& (p.msr k % 256) = 0) :
    rwLoop fuel cmd (n + 1) p = .error Stop.outOfFuel := by
  simp only [rwLoop, floppy_rw_command_never fuel p hq]

theorem silent_quiet : ∀ k, 0x80 &&& (silent.msr k % 256) = 0 := fun _ => by
  simp [silent]

theorem drive_select_msr (p : Ports) (drive : Nat) : (drive_select p drive).msr = p.msr := by
  simp only [drive_select, specify, floppy_write_cmd_msr]

/-- C25 fails on the code.  `floppy_write_cmd` and `floppy_read_data` do stop
after at most 600 reads of the status register: on a controller that never
raises RQM they make exactly 600, send nothing and return 0.  The waits for the
result phase in `floppy_sense_interrupt` and `floppy_rw_command` have no
bound: on that controller no amount of fuel lets them return, and so neither
`floppy_read` nor `floppy_write` returns. -/
theorem floppy_read_never_returns_without_rqm :
    (∀ k, silent.msr k &&& 0x80 = 0) ∧
    (∀ p cmd, (floppy_write_cmd p cmd).msrReads ≤ p.msrReads + 600) ∧
    (∀ p, (floppy_read_data p).2.msrReads ≤ p.msrReads + 600) ∧
    (∀ cmd, (floppy_write_cmd silent cmd).msrReads = 600 ∧
      (floppy_write_cmd silent cmd).sent = []) ∧
    ((floppy_read_data silent).1 = 0 ∧ (floppy_read_data silent).2.msrReads = 600) ∧
    (∀ fuel, floppy_sense_interrupt fuel silent = .error Stop.outOfFuel) ∧
    (∀ fuel drive head cyl sect EOT command,
      floppy_rw_command fuel silent drive head cyl sect EOT command
        = .error Stop.outOfFuel) ∧
    (∀ fuel drive lba,
      floppy_read fuel silent drive lba = .error Stop.outOfFuel ∧
      floppy_write fuel silent drive lba = .error Stop.outOfFuel) := by
  refine ⟨fun _ => by simp [silent], ?_, ?_, ?_, ?_, ?_, ?_, ?_⟩
  · intro p cmd
    exact (floppy_write_cmd_loop_spec 600 p cmd).2.1
  · intro p
    exact (floppy_read_data_loop_spec 600 p).2.1
  · intro cmd
    obtain ⟨h1, h2⟩ := (floppy_write_cmd_loop_spec 600 silent cmd).2.2 silent_quiet
    exact ⟨by simpa [floppy_write_cmd, silent] using h1, h2⟩
  · obtain ⟨h1, h2⟩ := (floppy_read_data_loop_spec 600 silent).2.2 silent_quiet
    have e : floppy_read_data silent
        = ((floppy_read_data_loop 600 silent).1.getD 0, (floppy_read_data_loop 600 silent).2) :=
      Eq.refl (floppy_read_data silent)
    rw [e, h1, h2]
    exact ⟨rfl, rfl⟩
  · intro fuel
    exact floppy_sense_interrupt_never fuel silent silent_quiet
  · intro fuel drive head cyl sect EOT command
    exact floppy_rw_command_never fuel silent silent_quiet drive head cyl sect EOT command
  · intro fuel drive lba
    constructor
    · simp only [floppy_read]
      exact rwLoop_never fuel _ 19 _ (by rw [drive_select_msr]; exact silent_quiet)
    · simp only [floppy_write]
      exact rwLoop_never fuel _ 19 _ (by rw [drive_select_msr]; exact silent_quiet)

end Port

end Fdc
